import Mathlib

/-!
# The multi-part merge of minimap2 (`merge.c`)

A shallow embedding of `merge.c`: the dump header written by `mm_multi_init`, the
catalog loop, the per-query aggregation loop, `mm_hit_sort_by_score`, `merge_regs`,
`maximum` and the emission loop of `mm_multi_merge`, the names of the temporary
files, and the whole run of `mm_multi_merge` (catalog, query loop, drain check and
deletion), followed by the properties proved about them.

Conventions of the embedding.
* A `FILE *` opened for reading is the list of its unread bytes (`Stream`).
* Machine integers are `Nat`/`Int`; a conversion between C integer types is an
  explicit reduction (`to_u32`, `to_i32`, `to_u64`).  The host is little-endian.
* A run that ends in `exit(EXIT_FAILURE)`, in a failed `assert`, or in an access
  outside an allocated block returns `Except.error` with the matching `Fault`.
* An array is the list of its elements; memory that C leaves uninitialised holds
  `default`.  Allocation and writing to a file do not fail.
* Declarations of `minimap.h`/`mmpriv.h` are not part of `merge.c`; the record
  layout is a parameter (`Layout`) and the functions of other files called by
  `merge.c` are parameters (`Collab`).
* The file system is a function from names to contents; the query file is the number
  of queries it holds; a string is the list of its bytes.
-/

namespace Merge

open List

/-! ## Machine integers and bytes -/

/-- Abnormal ends of a run. -/
inductive Fault where
  /-- The call `exit(EXIT_FAILURE)`: a short read or a file that cannot be opened. -/
  | exit_failure
  /-- A failed `assert`. -/
  | assertion
  /-- An access outside the allocated block: undefined behaviour. -/
  | out_of_bounds
deriving DecidableEq, Repr

deriving instance DecidableEq for Except

/-- Conversion to `uint32_t`. -/
def to_u32 (x : Int) : Nat := (x % 4294967296).toNat

/-- Conversion to `int32_t` (two's complement): the residue modulo 2^32, minus 2^32
when it is 2^31 or more. -/
def to_i32 (x : Int) : Int :=
  if (x % 4294967296).toNat < 2147483648 then x % 4294967296 else x % 4294967296 - 4294967296

/-- Conversion to `uint64_t` / `size_t`. -/
def to_u64 (x : Int) : Nat := (x % 18446744073709551616).toNat

/-- The unread bytes of a stream opened with `fopen(_, "rb")`. -/
abbrev Stream := List Nat

/-- The four bytes of a 32-bit object in memory, as `fwrite` stores them. -/
def put_u32 (n : Nat) : List Nat :=
  [n % 256, n / 256 % 256, n / 65536 % 256, n / 16777216 % 256]

/-- The `uint32_t` held by four bytes of memory, as `fread` leaves them. -/
def get_u32 (b : List Nat) : Nat :=
  (b.getD 0 0 + 256 * b.getD 1 0 + 65536 * b.getD 2 0 + 16777216 * b.getD 3 0) % 4294967296

/-- The `int` / `int32_t` held by four bytes of memory. -/
def get_i32 (b : List Nat) : Int := to_i32 (get_u32 b)

/-- The four bytes of an `int` in memory. -/
def put_i32 (x : Int) : List Nat := put_u32 (to_u32 x)

/-- The `uint8_t` held by one byte of memory. -/
def get_u8 (b : List Nat) : Nat := b.getD 0 0 % 256

/-! ## Reading (`multipart_read`, lines 25-32) -/

/-- The return value of `fread(buf, element_size, num_elements, fp)`: the number of
complete elements that the stream still holds, at most `num_elements`; zero when
either size is zero. -/
def fread_ret (fp : Stream) (element_size num_elements : Nat) : Nat :=
  if element_size = 0 ∨ num_elements = 0 then 0
  else min num_elements (fp.length / element_size)

/-- `multipart_read`: reads `num_elements` elements of `element_size` bytes and
returns them with the rest of the stream; when `fread` returns another count than
`num_elements` the program exits with failure. -/
def multipart_read (fp : Stream) (element_size num_elements : Nat) :
    Except Fault (List Nat × Stream) :=
  if fread_ret fp element_size num_elements ≠ num_elements then .error .exit_failure
  else .ok (fp.take (element_size * num_elements), fp.drop (element_size * num_elements))

/-! ## Records (`minimap.h`) -/

/-- The pointer field `p` of a `mm_reg1_t`. -/
inductive mm_extra_ptr where
  /-- `NULL`. -/
  | null
  /-- Pointer bits that were not produced by an allocation of this run. -/
  | wild (bits : Nat)
  /-- A block obtained from `malloc`, with the bytes it holds. -/
  | heap (blob : List Nat)
deriving DecidableEq, Repr, Inhabited

/-- The fields of `mm_reg1_t` that `merge.c` reads or writes; `mapq` is the field
`mm_set_mapq` fills, `other` stands for the remaining fixed fields. -/
structure mm_reg1_t where
  id : Int
  rid : Int
  score : Int
  parent : Int
  sam_pri : Bool
  hash : Nat
  mapq : Nat
  other : List Nat
  p : mm_extra_ptr
deriving DecidableEq, Repr, Inhabited

/-- The layout of the two structs of `minimap.h` that are read as raw bytes:
`sizeof(mm_reg1_t)` with the reading of its bytes as a record, and
`sizeof(mm_extra_t)` with the value of the `capacity` field of a block. -/
structure Layout where
  sizeof_reg : Nat
  reg_of_bytes : List Nat → mm_reg1_t
  sizeof_extra : Nat
  extra_capacity : List Nat → Nat

/-- An element of the auxiliary array (`mm128_t`). -/
structure mm128_t where
  x : Nat
  y : Nat
deriving DecidableEq, Repr, Inhabited

/-! ## `maximum` (lines 106-116) -/

/-- The loop of `maximum`: `k` iterations are left, `i` is the index, `max_rep` the
running maximum; `assert(replens[i] >= 0)` is checked on each element visited. -/
def maximum_loop (replens : List Int) : Nat → Nat → Int → Except Fault Int
  | 0, _, max_rep => .ok max_rep
  | k + 1, i, max_rep =>
    match replens[i]? with
    | none => .error .out_of_bounds
    | some x =>
      if x < 0 then .error .assertion
      else maximum_loop replens k (i + 1) (if x > max_rep then x else max_rep)

/-- `maximum(replens, num_idx_parts)`. -/
def maximum (replens : List Int) (num_idx_parts : Int) : Except Fault Int :=
  match replens[0]? with
  | none => .error .out_of_bounds
  | some r0 =>
    if num_idx_parts ≤ 0 then .error .assertion
    else maximum_loop replens (num_idx_parts.toNat - 1) 1 r0

/-! ## `mm_hit_sort_by_score` (lines 67-89) -/

/-- The order on the key `x` of `mm128_t`. -/
def key_le (a b : mm128_t) : Prop := a.x ≤ b.x

instance : DecidableRel key_le := fun a b => inferInstanceAs (Decidable (a.x ≤ b.x))

/-- Modelled from the spec: `radix_sort_128x` is generated by `ksort.h`, which is not
part of `merge.c`; it is a stable ascending sort of the array on the key `x`. -/
def radix_sort_128x (a : List mm128_t) : List mm128_t := a.insertionSort key_le

/-- The key of line 78, `(uint64_t)r[i].score << 32 | r[i].hash`. -/
def sort_key (r : mm_reg1_t) : Nat :=
  (to_u64 r.score <<< 32) % 18446744073709551616 ||| r.hash

/-- The array `aux` after the loop of lines 77-80. -/
def sort_aux (r : List mm_reg1_t) (n : Nat) : List mm128_t :=
  (List.range n).map fun i => ⟨sort_key (r.getD i default), i⟩

/-- `mm_hit_sort_by_score(km, &n_regs, r)`: the new `*n_regs` and the new contents of
the array `r`. -/
def mm_hit_sort_by_score (n_regs : Int) (r : List mm_reg1_t) : Int × List mm_reg1_t :=
  if n_regs ≤ 1 then (n_regs, r)
  else
    let aux := radix_sort_128x (sort_aux r n_regs.toNat)
    let t := aux.reverse.map fun a => r.getD a.y default
    (aux.length, t ++ r.drop aux.length)

/-! ## The dump header (`mm_multi_init`, lines 47-55) -/

/-- An entry of the index: the bytes of the name in front of the terminating NUL of
its buffer, and the sequence length. -/
structure mm_idx_seq_t where
  name : List Nat
  len : Nat
deriving DecidableEq, Repr, Inhabited

/-- The fields of `mm_idx_t` used by `merge.c`. -/
structure mm_idx_t where
  n_seq : Nat
  seq : List mm_idx_seq_t
  k : Int
deriving DecidableEq, Repr, Inhabited

/-- The function `strlen`: the number of bytes in front of the first NUL. -/
def strlen (s : List Nat) : Nat := (s.takeWhile fun c => c ≠ 0).length

/-- One iteration of the loop of lines 49-55: the low byte of `int l`, `l` bytes of
the name, the four bytes of `len`. -/
def write_seq (s : mm_idx_seq_t) : List Nat :=
  [strlen s.name % 256] ++ s.name.take (strlen s.name) ++ put_u32 s.len

/-- The bytes `mm_multi_init` writes to the fresh dump file (writes that fail exit
the program and are left out). -/
def mm_multi_init (mi : mm_idx_t) : List Nat :=
  put_u32 mi.n_seq ++ (List.range mi.n_seq).flatMap fun i => write_seq (mi.seq.getD i default)

/-- Modelled from the spec: the header layout of section 6 (a count, then per entry
a one-byte name length, the name bytes and a four-byte length). -/
def header_bytes (h : List mm_idx_seq_t) : List Nat :=
  put_u32 h.length ++ h.flatMap fun e => [e.name.length] ++ e.name ++ put_u32 e.len

/-! ## The catalog loop of `mm_multi_merge` (lines 134-167) -/

/-- The call `realloc(a, n * sizeof(_))`: the first `n` elements are kept, new
elements hold no meaningful value. -/
def realloc {α : Type} [Inhabited α] (a : List α) (n : Nat) : List α :=
  a.take n ++ List.replicate (n - a.length) default

/-- The state of the catalog loop: the emulated index `mi`, `current_seq`, the
entries of `cum_n_seq` written so far and the files opened so far, each positioned
behind its header. -/
structure Catalog where
  mi : mm_idx_t
  current_seq : Nat
  cum_n_seq : List Nat
  file : List Stream
deriving DecidableEq, Repr

/-- The loop of lines 157-166 with `n` iterations left (`j < n_seq` compares in
`uint32_t`, so the loop runs `n_seq` times): each iteration reads one entry into
`mi->seq[current_seq]`. -/
def load_seqs : Nat → Stream → List mm_idx_seq_t → Nat →
    Except Fault (Stream × List mm_idx_seq_t × Nat)
  | 0, fp, seq, current_seq => .ok (fp, seq, current_seq)
  | n + 1, fp, seq, current_seq =>
    match multipart_read fp 1 1 with
    | .error e => .error e
    | .ok (lb, fp) =>
      if seq.length ≤ current_seq then .error Fault.out_of_bounds
      else
        match multipart_read fp 1 (get_u8 lb) with
        | .error e => .error e
        | .ok (name, fp) =>
          match multipart_read fp 4 1 with
          | .error e => .error e
          | .ok (lenb, fp) =>
            load_seqs n fp (seq.set current_seq ⟨name, get_u32 lenb⟩)
              ((current_seq + 1) % 4294967296)

/-- One iteration of the loop of lines 134-167 on the contents `fp` of the dump file
of the next part (the file exists): `cum_n_seq[i]`, the count, the reallocation of
`mi->seq` and the entries. -/
def load_part (c : Catalog) (fp : Stream) : Except Fault Catalog :=
  match multipart_read fp 4 1 with
  | .error e => .error e
  | .ok (nb, fp) =>
    match load_seqs (get_u32 nb) fp
        (realloc c.mi.seq ((c.mi.n_seq + get_u32 nb) % 4294967296)) c.current_seq with
    | .error e => .error e
    | .ok (fp, seq, current_seq) =>
      .ok { mi := { c.mi with n_seq := (c.mi.n_seq + get_u32 nb) % 4294967296, seq := seq },
            current_seq := current_seq,
            cum_n_seq := c.cum_n_seq ++ [c.mi.n_seq], file := c.file ++ [fp] }

/-- The loop of lines 134-167 over the dump files that are left. -/
def load_parts : List Stream → Catalog → Except Fault Catalog
  | [], c => .ok c
  | fp :: fps, c =>
    match load_part c fp with
    | .error e => .error e
    | .ok c => load_parts fps c

/-- The state in front of the catalog loop (`mi` comes from `calloc`). -/
def Catalog.init : Catalog :=
  { mi := { n_seq := 0, seq := [], k := 0 }, current_seq := 0, cum_n_seq := [], file := [] }

/-- The catalog loop over the contents of the dump files `0 .. P-1`. -/
def load_catalog (files : List Stream) : Except Fault Catalog := load_parts files Catalog.init

/-! ## The aggregation loop of `mm_multi_merge` (lines 194-236) -/

/-- The tests on `opt->flag` (`MM_F_CIGAR`, `MM_F_ALL_CHAINS`, `MM_F_OUT_SAM`,
`MM_F_NO_PRINT_2ND`, `MM_F_SR`) and the integer options that `merge.c` reads; the
floating-point options are only handed on to functions of other files. -/
structure mm_mapopt_t where
  cigar : Bool
  all_chains : Bool
  out_sam : Bool
  no_print_2nd : Bool
  sr : Bool
  a : Int
  b : Int
  best_n : Int
  min_chain_score : Int
deriving DecidableEq, Repr, Inhabited

/-- Messages on the diagnostic stream that do not end the run. -/
inductive Diag where
  /-- The text `WARNING : Multi-part dump files are corrupted`. -/
  | dump_corrupted
  /-- The text `WARNING: Multi-part dump files were not fully read`. -/
  | not_fully_read
  /-- The text `WARNING: Cannot delete the temporary file`. -/
  | cannot_delete
deriving DecidableEq, Repr

/-- The variables of the query loop: the buffer `reg` with its capacity
`current_num_regs`, the array `replens`, `n_regs_sum` and the warnings logged. -/
structure AggState where
  reg : List mm_reg1_t
  current_num_regs : Nat
  replens : List Int
  n_regs_sum : Int
  log : List Diag
deriving DecidableEq, Repr

/-- The remapping of line 231, `r->rid = r->rid + cum_n_seq[i]`: the sum is taken in
`uint32_t` and stored in the `int32_t` field. -/
def remap_rid (rid : Int) (cum : Nat) : Int := to_i32 ((to_u32 rid + cum) % 4294967296)

/-- The size of lines 222-223, `sizeof(mm_extra_t) + sizeof(uint32_t) * capacity`,
computed in `size_t` from the `int capacity`. -/
def extra_size (L : Layout) (capacity : Int) : Nat :=
  (L.sizeof_extra + 4 * to_u64 capacity) % 18446744073709551616

/-- Lines 217-226: the capacity, the block of `sizeof(mm_extra_t) + 4 * capacity`
bytes (computed in `size_t`), and whether the warning of line 226 is printed. -/
def read_extra (L : Layout) (fp : Stream) : Except Fault (mm_extra_ptr × Stream × Bool) :=
  match multipart_read fp 4 1 with
  | .error e => .error e
  | .ok (cb, fp) =>
    match multipart_read fp (extra_size L (get_i32 cb)) 1 with
    | .error e => .error e
    | .ok (blob, fp) =>
      .ok (mm_extra_ptr.heap blob, fp, decide (to_u32 (get_i32 cb) ≠ L.extra_capacity blob))

/-- The loop of lines 212-232 with `k` iterations left and loop variable `j`; the
record is stored at `reg[n_regs_sum + j]`. -/
def read_regs (L : Layout) (cigar : Bool) (cum : Nat) (n_regs_sum : Int) :
    Nat → Int → Stream → List mm_reg1_t → List Diag →
    Except Fault (Stream × List mm_reg1_t × List Diag)
  | 0, _, fp, reg, log => .ok (fp, reg, log)
  | k + 1, j, fp, reg, log =>
    if n_regs_sum + j < 0 ∨ (reg.length : Int) ≤ n_regs_sum + j then .error Fault.out_of_bounds
    else
      match multipart_read fp L.sizeof_reg 1 with
      | .error e => .error e
      | .ok (rb, fp) =>
        match (if cigar then read_extra L fp else .ok (mm_extra_ptr.null, fp, false)) with
        | .error e => .error e
        | .ok (p, fp, warn) =>
          read_regs L cigar cum n_regs_sum k (j + 1) fp
            (reg.set (n_regs_sum + j).toNat
              { L.reg_of_bytes rb with p := p, rid := remap_rid (L.reg_of_bytes rb).rid cum })
            (if warn then log ++ [Diag.dump_corrupted] else log)

/-- The capacity after the check of lines 206-209. -/
def grow_capacity (current_num_regs : Nat) (n_regs_sum n_reg : Int) : Nat :=
  if current_num_regs < to_u32 (n_regs_sum + n_reg) then
    (current_num_regs + to_u32 n_regs_sum) % 4294967296
  else current_num_regs

/-- The buffer after the check of lines 206-209: reallocated to the new capacity when
the check fires. -/
def grow_reg (reg : List mm_reg1_t) (current_num_regs : Nat) (n_regs_sum n_reg : Int) :
    List mm_reg1_t :=
  if current_num_regs < to_u32 (n_regs_sum + n_reg) then
    realloc reg (grow_capacity current_num_regs n_regs_sum n_reg)
  else reg

/-- One iteration of the loop of lines 198-236, for part `i` with dump file `fp`. -/
def read_block (L : Layout) (opt : mm_mapopt_t) (cum_n_seq : List Nat) (i : Nat)
    (st : AggState) (fp : Stream) : Except Fault (AggState × Stream) :=
  match multipart_read fp 4 1 with
  | .error e => .error e
  | .ok (nb, fp) =>
    match multipart_read fp 4 1 with
    | .error e => .error e
    | .ok (pb, fp) =>
      match read_regs L opt.cigar (cum_n_seq.getD i 0) st.n_regs_sum (get_i32 nb).toNat 0 fp
          (grow_reg st.reg st.current_num_regs st.n_regs_sum (get_i32 nb)) st.log with
      | .error e => .error e
      | .ok (fp, reg, log) =>
        .ok ({ reg := reg,
               current_num_regs := grow_capacity st.current_num_regs st.n_regs_sum (get_i32 nb),
               replens := st.replens.set i (get_i32 pb),
               n_regs_sum := to_i32 (st.n_regs_sum + get_i32 nb), log := log }, fp)

/-- The loop of lines 198-236 over the parts `i, i+1, ..` that are left. -/
def aggregate_from (L : Layout) (opt : mm_mapopt_t) (cum_n_seq : List Nat) :
    List Stream → Nat → AggState → Except Fault (AggState × List Stream)
  | [], _, st => .ok (st, [])
  | fp :: fps, i, st =>
    match read_block L opt cum_n_seq i st fp with
    | .error e => .error e
    | .ok (st, fp) =>
      match aggregate_from L opt cum_n_seq fps (i + 1) st with
      | .error e => .error e
      | .ok (st, fps) => .ok (st, fp :: fps)

/-- Lines 194-236 for one query: `n_regs_sum = 0`, then the loop over all parts. -/
def aggregate (L : Layout) (opt : mm_mapopt_t) (cum_n_seq : List Nat) (file : List Stream)
    (st : AggState) : Except Fault (AggState × List Stream) :=
  aggregate_from L opt cum_n_seq file 0 { st with n_regs_sum := 0 }

/-- The variables in front of the query loop: `INITIAL_NUM_REGS` slots, and one
`replens` entry per part. -/
def AggState.init (num_idx_parts : Nat) : AggState :=
  { reg := List.replicate 256 default, current_num_regs := 256,
    replens := List.replicate num_idx_parts 0, n_regs_sum := 0, log := [] }

/-- Modelled from the spec: one candidate record of a block in a dump file (section
6): the bytes of the fixed-size struct and, read only in CIGAR mode, the capacity in
front of the extension block and the bytes of that block. -/
structure DiskRec where
  bytes : List Nat
  capacity : Nat
  blob : List Nat
deriving DecidableEq, Repr

/-- Modelled from the spec: the bytes of one record of a block (section 6). -/
def rec_bytes (cigar : Bool) (d : DiskRec) : List Nat :=
  d.bytes ++ if cigar then put_u32 d.capacity ++ d.blob else []

/-- Modelled from the spec: the block of one query in a dump file (section 6): the
repeat length and the records; the count on disk is the number of records. -/
structure DiskBlock where
  replen : Int
  recs : List DiskRec
deriving DecidableEq, Repr

/-- Modelled from the spec: the bytes of the block of one query (section 6). -/
def block_bytes (cigar : Bool) (b : DiskBlock) : List Nat :=
  put_i32 b.recs.length ++ put_i32 b.replen ++ b.recs.flatMap (rec_bytes cigar)

/-- The record that the body of the loop of lines 212-232 leaves in the buffer for
the on-disk record `d` of a part with offset `cum`: the fields as read, with `p` set
by lines 216-227 and `rid` by line 231. -/
def stored_reg (L : Layout) (cigar : Bool) (cum : Nat) (d : DiskRec) : mm_reg1_t :=
  { L.reg_of_bytes d.bytes with
    p := if cigar then mm_extra_ptr.heap d.blob else mm_extra_ptr.null,
    rid := remap_rid (L.reg_of_bytes d.bytes).rid cum }

/-- The warning of line 226 for the on-disk record `d`. -/
def rec_warning (L : Layout) (cigar : Bool) (d : DiskRec) : List Diag :=
  if cigar ∧ d.capacity ≠ L.extra_capacity d.blob then [Diag.dump_corrupted] else []

/-- The records stored for the blocks of the parts `i, i+1, ..`, one list per part. -/
def stored_lists (L : Layout) (cigar : Bool) (cum_n_seq : List Nat) :
    Nat → List DiskBlock → List (List mm_reg1_t)
  | _, [] => []
  | i, b :: bs =>
    b.recs.map (stored_reg L cigar (cum_n_seq.getD i 0)) :: stored_lists L cigar cum_n_seq (i + 1) bs

/-- Whether an on-disk record has the sizes the reads of lines 214-223 ask for. -/
def rec_sized (L : Layout) (cigar : Bool) (d : DiskRec) : Prop :=
  d.bytes.length = L.sizeof_reg ∧
  (cigar = true → d.capacity < 4294967296 ∧ 0 < extra_size L (to_i32 d.capacity) ∧
    d.blob.length = extra_size L (to_i32 d.capacity))

instance (L : Layout) (cigar : Bool) (d : DiskRec) : Decidable (rec_sized L cigar d) := by
  unfold rec_sized
  infer_instance

/-- Whether every write of the loop of lines 198-236 stays inside the buffer, for
capacity `cap`, `n_regs_sum = s` and the counts `ks` of the parts still to read:
after each check of lines 206-209 the capacity is at least `n_regs_sum + n_reg`. -/
def fits : Nat → Nat → List Nat → Bool
  | _, _, [] => true
  | cap, s, k :: ks =>
    decide (s + k ≤ grow_capacity cap s k) && fits (grow_capacity cap s k) (s + k) ks

/-! ## Ranking (`merge_regs`, lines 91-104) and emission (lines 239-264) -/

/-- The functions of other files that `merge.c` calls on the buffer. -/
structure Collab where
  mm_hit_sort_by_dp : Int → List mm_reg1_t → Int × List mm_reg1_t
  mm_set_parent : mm_mapopt_t → Int → List mm_reg1_t → List mm_reg1_t
  mm_select_sub : mm_mapopt_t → Int → Int → List mm_reg1_t → Int × List mm_reg1_t
  mm_set_sam_pri : Int → List mm_reg1_t → List mm_reg1_t
  mm_set_mapq : mm_mapopt_t → Int → List mm_reg1_t → Int → Bool → List mm_reg1_t

/-- Modelled from the spec: `mm_set_sam_pri` (not part of `merge.c`) marks primaries
among the first `n` records, and a record marked primary has `id == parent`
(section 3: "A record with `is_primary = true` must satisfy `self_id == parent_id`"). -/
def sam_pri_contract (C : Collab) : Prop :=
  ∀ (n : Int) (regs : List mm_reg1_t), ∀ r ∈ (C.mm_set_sam_pri n regs).take n.toNat,
    r.sam_pri = true → r.id = r.parent

/-- Modelled from the spec: `mm_set_mapq` (not part of `merge.c`) "mutates each
record's quality field" (section 4.4): no other field of any record changes. -/
def mapq_contract (C : Collab) : Prop :=
  ∀ (opt : mm_mapopt_t) (n : Int) (regs : List mm_reg1_t) (rep_len : Int) (is_sr : Bool),
    (C.mm_set_mapq opt n regs rep_len is_sr).map (fun r => { r with mapq := 0 })
      = regs.map (fun r => { r with mapq := 0 })

/-- Modelled from the spec: `mm_hit_sort_by_dp` (not part of `merge.c`) only orders
the records (section 4.4, detailed mode): each of the first `*n_regs` records it
leaves is one of the first `n_regs` records it was given. -/
def sort_by_dp_contract (C : Collab) : Prop :=
  ∀ (n : Int) (regs : List mm_reg1_t),
    ∀ r ∈ (C.mm_hit_sort_by_dp n regs).2.take (C.mm_hit_sort_by_dp n regs).1.toNat,
      r ∈ regs.take n.toNat

/-- `merge_regs(opt, mi, km, qlen, &n_regs, regs)`: the new `*n_regs` and buffer. -/
def merge_regs (C : Collab) (opt : mm_mapopt_t) (mi : mm_idx_t) (n_regs : Int)
    (regs : List mm_reg1_t) : Int × List mm_reg1_t :=
  let s := if opt.cigar then C.mm_hit_sort_by_dp n_regs regs else mm_hit_sort_by_score n_regs regs
  if !opt.all_chains then
    let regs := C.mm_set_parent opt s.1 s.2
    let t := C.mm_select_sub opt (mi.k * 2) s.1 regs
    (t.1, C.mm_set_sam_pri t.1 t.2)
  else s

/-- Lines 239-244: `merge_regs`, then `maximum`, then `mm_set_mapq`; the result is
`n_regs_sum` and the buffer in front of the emission loop. -/
def rank_query (C : Collab) (opt : mm_mapopt_t) (mi : mm_idx_t) (num_idx_parts : Int)
    (st : AggState) : Except Fault (Int × List mm_reg1_t) :=
  match maximum st.replens num_idx_parts with
  | .error e => .error e
  | .ok rep_len =>
    .ok ((merge_regs C opt mi st.n_regs_sum st.reg).1,
      C.mm_set_mapq opt (merge_regs C opt mi st.n_regs_sum st.reg).1
        (merge_regs C opt mi st.n_regs_sum st.reg).2 rep_len opt.sr)

/-- The ranked list of a query: the first `n_regs_sum` records of the buffer. -/
def ranked_list (q : Int × List mm_reg1_t) : List mm_reg1_t := q.2.take q.1.toNat

/-- One line handed to `mm_err_puts`. -/
inductive Line where
  /-- The SAM header. -/
  | sam_hdr
  /-- The record `reg[j]` written by `mm_write_sam2`. -/
  | sam (j : Nat) (r : mm_reg1_t)
  /-- The record written by `mm_write_paf`. -/
  | paf (r : mm_reg1_t)
  /-- The unmapped record written by `mm_write_sam2` with index `-1`. -/
  | sam_unmapped
deriving DecidableEq, Repr

/-- The loop of lines 247-259 over the records `reg[j], reg[j+1], ..`: the lines
printed, and the fault if the assertion of line 249 fails. -/
def emit_regs (opt : mm_mapopt_t) : List mm_reg1_t → Nat → List Line × Option Fault
  | [], _ => ([], none)
  | r :: rs, j =>
    if r.sam_pri ∧ r.id ≠ r.parent then ([], some Fault.assertion)
    else if opt.no_print_2nd ∧ r.id ≠ r.parent then emit_regs opt rs (j + 1)
    else
      let rest := emit_regs opt rs (j + 1)
      ((if opt.out_sam then Line.sam j r else Line.paf r) :: rest.1, rest.2)

/-- Lines 246-264 for one query: the emission loop, then the unmapped record. -/
def emit_query (opt : mm_mapopt_t) (n_regs_sum : Int) (reg : List mm_reg1_t) :
    List Line × Option Fault :=
  let e := emit_regs opt (reg.take n_regs_sum.toNat) 0
  match e.2 with
  | some f => (e.1, some f)
  | none => (e.1 ++ (if n_regs_sum = 0 ∧ opt.out_sam then [Line.sam_unmapped] else []), none)

/-! ## Temporary file names (lines 39, 140 and 297) -/

/-- The decimal digits of `n` as characters, the most significant first. -/
def dec_digits (n : Nat) : List Nat := (Nat.toDigits 10 n).map fun c => c.toNat

/-- The conversion `%.4d` of `sprintf`: a minus sign for a negative value, then the
decimal digits, padded with zeros on the left to at least four digits. -/
def fmt_d4 (i : Int) : List Nat :=
  (if i < 0 then [45] else []) ++
    (List.replicate (4 - (dec_digits i.natAbs).length) 48 ++ dec_digits i.natAbs)

/-- The string that `sprintf` builds for the format `"%s%.4d.tmp"`: the bytes of
`multi_prefix` in front of its NUL, the index, and the characters `.tmp`. -/
def tmp_name ( multi_prefix : List Nat) (i : Int) : List Nat :=
  multi_prefix.take (strlen multi_prefix) ++ (fmt_d4 i ++ [46, 116, 109, 112])

/-- The call `sprintf(buf, ..)` for a buffer of `size` bytes: the string and its
terminating NUL are stored in the buffer; storing behind its end is undefined
behaviour. -/
def sprintf_into (size : Nat) (s : List Nat) : Except Fault (List Nat) :=
  if s.length + 1 ≤ size then .ok s else .error Fault.out_of_bounds

/-- Lines 37 and 39: the name that `mm_multi_init` opens for writing, built in
`char filename[1024]`. -/
def mm_multi_init_filename ( multi_prefix : List Nat) (idx_id : Int) : Except Fault (List Nat) :=
  sprintf_into 1024 (tmp_name multi_prefix idx_id)

/-- Lines 127 and 140: the name that `mm_multi_merge` opens for part `i`, built in a
block of `strlen(opt->multi_prefix) + 20` bytes. -/
def mm_multi_merge_filename ( multi_prefix : List Nat) (i : Int) : Except Fault (List Nat) :=
  sprintf_into (strlen multi_prefix + 20) (tmp_name multi_prefix i)

/-- Lines 295 and 297: the name that `mm_multi_merge` hands to `remove` for part `i`,
built in `char tmpfile[256]`. -/
def mm_multi_merge_tmpfile ( multi_prefix : List Nat) (i : Int) : Except Fault (List Nat) :=
  sprintf_into 256 (tmp_name multi_prefix i)

/-! ## The whole of `mm_multi_merge` (lines 119-320) -/

/-- The catalog loop of lines 134-167 with `n` parts left, at part `i`, with the
files named: `fs name` is the contents of the file `name`, or `none` when `fopen`
returns `NULL`. -/
def load_files (fs : List Nat → Option Stream) ( multi_prefix : List Nat) :
    Nat → Nat → Catalog → Except Fault Catalog
  | 0, _, c => .ok c
  | n + 1, i, c =>
    match mm_multi_merge_filename multi_prefix i with
    | .error e => .error e
    | .ok filename =>
      match fs filename with
      | none => .error Fault.exit_failure
      | some fp =>
        match load_part c fp with
        | .error e => .error e
        | .ok c => load_files fs multi_prefix n (i + 1) c

/-- The loop of lines 266-271 over the ranked list: `free(r->p)` for each record whose
`p` is not `NULL`; handing `free` pointer bits that no allocation of this run produced
is undefined behaviour. -/
def free_regs : List mm_reg1_t → Option Fault
  | [] => none
  | r :: rs =>
    match r.p with
    | mm_extra_ptr.wild _ => some Fault.out_of_bounds
    | _ => free_regs rs

/-- The variables that live across the queries: the dump files with their read
positions, the variables of the aggregation, the lines printed so far and the number
of queries read from the query file. -/
structure LoopState where
  file : List Stream
  st : AggState
  out : List Line
  n_read : Nat
deriving DecidableEq, Repr

/-- The body of the query loop (lines 189-277) for a query that was read: aggregation,
ranking, emission, and the release of the payloads.  The result is the state behind
the body, or the state at the fault and the fault. -/
def query_step (L : Layout) (C : Collab) (opt : mm_mapopt_t) (mi : mm_idx_t)
    (cum_n_seq : List Nat) (num_idx_parts : Nat) (s : LoopState) : LoopState × Option Fault :=
  match aggregate L opt cum_n_seq s.file s.st with
  | .error e => ({ s with n_read := s.n_read + 1 }, some e)
  | .ok (st, file) =>
    match rank_query C opt mi num_idx_parts st with
    | .error e => ({ file := file, st := st, out := s.out, n_read := s.n_read + 1 }, some e)
    | .ok q =>
      ({ file := file, st := { st with reg := q.2, n_regs_sum := q.1 },
         out := s.out ++ (emit_query opt q.1 q.2).1, n_read := s.n_read + 1 },
        match (emit_query opt q.1 q.2).2 with
        | some f => some f
        | none => free_regs (ranked_list q))

/-- The query loop of lines 188-278 when the query file still holds `n` queries. -/
def query_loop (L : Layout) (C : Collab) (opt : mm_mapopt_t) (mi : mm_idx_t)
    (cum_n_seq : List Nat) (num_idx_parts : Nat) : Nat → LoopState → LoopState × Option Fault
  | 0, s => (s, none)
  | n + 1, s =>
    match query_step L C opt mi cum_n_seq num_idx_parts s with
    | (s1, some f) => (s1, some f)
    | (s1, none) => query_loop L C opt mi cum_n_seq num_idx_parts n s1

/-- The end-of-file indicator behind an `fread` that was asked for `num_elements`
elements and returned `ret`: reading does not fail in this embedding, so a short
count means that the end of the file was reached. -/
def feof_after (ret num_elements : Nat) : Bool := decide (ret < num_elements)

/-- Lines 285-290 for one dump file with the unread bytes `fp`: the probe read of one
byte and the warning. -/
def drain_warning (fp : Stream) : List Diag :=
  if fread_ret fp 1 1 > 0 then [Diag.not_fully_read]
  else if feof_after (fread_ret fp 1 1) 1 = false then [Diag.not_fully_read] else []

/-- The loop of lines 284-292 over all dump files: the warnings; each file is closed
behind its check. -/
def drain_check (file : List Stream) : List Diag := file.flatMap drain_warning

/-- The loop of lines 296-301 with `n` parts left, at part `i`: the names handed to
`remove` and the warnings; `rm name` tells whether `remove(name)` succeeds. -/
def delete_tmp (rm : List Nat → Bool) ( multi_prefix : List Nat) :
    Nat → Nat → Except Fault (List (List Nat) × List Diag)
  | 0, _ => .ok ([], [])
  | n + 1, i =>
    match mm_multi_merge_tmpfile multi_prefix i with
    | .error e => .error e
    | .ok tmpfile =>
      match delete_tmp rm multi_prefix n (i + 1) with
      | .error e => .error e
      | .ok (names, log) =>
        .ok (tmpfile :: names, (if rm tmpfile then [] else [Diag.cannot_delete]) ++ log)

/-- What a run of `mm_multi_merge` leaves behind: the lines printed, the number of
queries read, and either the fault that ended the run or, for a run that returns, the
warnings logged and the names handed to `remove`. -/
structure Run where
  out : List Line
  n_read : Nat
  result : Except Fault (List Diag × List (List Nat))
deriving DecidableEq, Repr

/-- Line 170, `mi->k = ipt->k`. -/
def set_k (mi : mm_idx_t) (k : Int) : mm_idx_t := { n_seq := mi.n_seq, seq := mi.seq, k := k }

/-- The variables in front of the query loop (lines 169-185): the dump files behind
their headers, the initial buffer, and the SAM header printed when SAM output is set. -/
def LoopState.init (opt : mm_mapopt_t) (c : Catalog) (num_idx_parts : Nat) : LoopState :=
  { file := c.file, st := AggState.init num_idx_parts,
    out := if opt.out_sam then [Line.sam_hdr] else [], n_read := 0 }

/-- `mm_multi_merge(opt, ipt, num_idx_parts, fn, argc, argv, rg)`: `ipt_k` is
`ipt->k`, `fs` the contents of the files by name, `n_query` the number of queries in
the query file `fn[0]` (`none` when it cannot be opened) and `rm` the outcome of
`remove` by name. -/
def mm_multi_merge (L : Layout) (C : Collab) (opt : mm_mapopt_t) (ipt_k : Int)
    (num_idx_parts : Nat) ( multi_prefix : List Nat) (fs : List Nat → Option Stream)
    (n_query : Option Nat) (rm : List Nat → Bool) : Run :=
  match load_files fs multi_prefix num_idx_parts 0 Catalog.init with
  | .error e => { out := [], n_read := 0, result := .error e }
  | .ok c =>
    match n_query with
    | none =>
      { out := (LoopState.init opt c num_idx_parts).out, n_read := 0,
        result := .error Fault.exit_failure }
    | some n =>
      match query_loop L C opt (set_k c.mi ipt_k) c.cum_n_seq num_idx_parts n
          (LoopState.init opt c num_idx_parts) with
      | (s, some f) => { out := s.out, n_read := s.n_read, result := .error f }
      | (s, none) =>
        match delete_tmp rm multi_prefix num_idx_parts 0 with
        | .error e => { out := s.out, n_read := s.n_read, result := .error e }
        | .ok (names, log) =>
          { out := s.out, n_read := s.n_read,
            result := .ok (s.st.log ++ drain_check s.file ++ log, names) }

/-- The record that a line prints, if it prints one. -/
def Line.reg : Line → Option mm_reg1_t
  | Line.sam _ r => some r
  | Line.paf r => some r
  | _ => none

/-- Whether the assertion of line 249 holds on a record. -/
def asserted (r : mm_reg1_t) : Bool := decide (¬ (r.sam_pri = true ∧ r.id ≠ r.parent))

/-- Whether the test of line 251 lets a record through to the output. -/
def printed (opt : mm_mapopt_t) (r : mm_reg1_t) : Bool :=
  decide (¬ (opt.no_print_2nd = true ∧ r.id ≠ r.parent))

/-- The state of the query loop when each dump file `i` holds the further bytes
`exts[i]` behind its unread bytes. -/
def LoopState.extend (s : LoopState) (exts : List Stream) : LoopState :=
  { s with file := List.zipWith (fun fp ext => fp ++ ext) s.file exts }

/-- The two-field comparator of the specification (section 9): `(score, hash)` pairs in
lexicographic order, the scores compared as signed integers. -/
def score_hash_lt (a b : mm_reg1_t) : Prop :=
  a.score < b.score ∨ (a.score = b.score ∧ a.hash < b.hash)

instance (a b : mm_reg1_t) : Decidable (score_hash_lt a b) := by
  unfold score_hash_lt
  infer_instance

/-- The two-field comparator on the bit patterns: `(score, hash)` pairs in
lexicographic order, the scores compared as unsigned 32-bit integers. -/
def unsigned_score_hash_lt (a b : mm_reg1_t) : Prop :=
  to_u32 a.score < to_u32 b.score ∨ (to_u32 a.score = to_u32 b.score ∧ a.hash < b.hash)

instance (a b : mm_reg1_t) : Decidable (unsigned_score_hash_lt a b) := by
  unfold unsigned_score_hash_lt
  infer_instance

/-- Two parts: the entries A:100, B:200, C:300 followed by four more bytes, and the
entries D:50, E:60. -/
def sample_parts : List (List mm_idx_seq_t × Stream) :=
  [([⟨[65], 100⟩, ⟨[66], 200⟩, ⟨[67], 300⟩], [7, 0, 0, 0]), ([⟨[68], 50⟩, ⟨[69], 60⟩], [])]

/-- An index with the entries A:100, B:200, C:300. -/
def sample_idx : mm_idx_t :=
  { n_seq := 3, seq := [⟨[65], 100⟩, ⟨[66], 200⟩, ⟨[67], 300⟩], k := 15 }

/-- A record with score 50 and hash 9. -/
def tie_a : mm_reg1_t :=
  { id := 0, rid := 0, score := 50, parent := 0, sam_pri := false, hash := 9, mapq := 0,
    other := [], p := mm_extra_ptr.null }

/-- Another record with score 50 and hash 9. -/
def tie_b : mm_reg1_t := { tie_a with id := 1, rid := 7 }

/-- A sample layout, used to evaluate the model on concrete dump files: `mm_reg1_t` as
the little-endian words `id`, `rid`, `score`, `parent`, a flag word whose lowest bit
is `sam_pri`, `hash` and `mapq`, followed by the 8-byte pointer `p`; `mm_extra_t` as
24 bytes that begin with `capacity`. -/
def sample_layout : Layout :=
  { sizeof_reg := 36,
    reg_of_bytes := fun b =>
      { id := get_i32 b, rid := get_i32 (b.drop 4), score := get_i32 (b.drop 8),
        parent := get_i32 (b.drop 12), sam_pri := decide (get_u32 (b.drop 16) % 2 = 1),
        hash := get_u32 (b.drop 20), mapq := get_u32 (b.drop 24) % 256, other := [],
        p := mm_extra_ptr.wild (get_u32 (b.drop 28) + 4294967296 * get_u32 (b.drop 32)) },
    sizeof_extra := 24,
    extra_capacity := fun b => get_u32 b }

/-- The bytes of a record in the sample layout, with a null pointer field. -/
def sample_reg_bytes (id rid score parent : Int) (sam_pri : Bool) (hash mapq : Nat) :
    List Nat :=
  put_i32 id ++ put_i32 rid ++ put_i32 score ++ put_i32 parent ++
    put_u32 (if sam_pri then 1 else 0) ++ put_u32 hash ++ put_u32 mapq ++ [0, 0, 0, 0, 0, 0, 0, 0]

/-- Sample options: PAF output, no CIGAR, no flag set. -/
def sample_opt : mm_mapopt_t :=
  { cigar := false, all_chains := false, out_sam := false, no_print_2nd := false, sr := false,
    a := 2, b := 4, best_n := 5, min_chain_score := 40 }

/-- An on-disk record with local reference id 2147483647, score 80 and hash 7. -/
def big_rid_rec : DiskRec :=
  { bytes := sample_reg_bytes 0 2147483647 80 0 false 7 0, capacity := 0, blob := [] }

/-- An on-disk record with local reference id 0, score 10 and hash 1. -/
def small_rec : DiskRec :=
  { bytes := sample_reg_bytes 0 0 10 0 false 1 0, capacity := 0, blob := [] }

/-- The blocks of one query in two parts: one record in each, followed by no further
bytes. -/
def sample_blocks : List (DiskBlock × Stream) :=
  [(⟨3, [small_rec]⟩, []), (⟨5, [{ small_rec with bytes := sample_reg_bytes 0 1 20 0 false 2 0 }]⟩, [])]

/-- The dump file of a part with the single entry A:100, whose block for the first
query holds no record. -/
def wrap_file0 : Stream := header_bytes [⟨[65], 100⟩] ++ block_bytes false ⟨0, []⟩

/-- The dump file of a part without entries, whose block for the first query holds
the record `big_rid_rec`. -/
def wrap_file1 : Stream := header_bytes [] ++ block_bytes false ⟨0, [big_rid_rec]⟩

/-- A sample `mm_set_sam_pri` on a list: the first record with `id == parent` is
marked primary, every other record is not. -/
def sample_set_sam_pri : List mm_reg1_t → Bool → List mm_reg1_t
  | [], _ => []
  | r :: rs, seen =>
    if r.id = r.parent then { r with sam_pri := !seen } :: sample_set_sam_pri rs true
    else { r with sam_pri := false } :: sample_set_sam_pri rs seen

/-- Sample collaborators, used to evaluate the model: the sorts and `mm_select_sub`
keep the buffer, `mm_set_parent` makes each of the first `n` records its own parent,
`mm_set_sam_pri` marks the first of them that is its own parent, `mm_set_mapq` sets
`mapq` to 60 in the first `n` records. -/
def sample_collab : Collab :=
  { mm_hit_sort_by_dp := fun n regs => (n, regs),
    mm_set_parent := fun _ n regs =>
      (regs.take n.toNat).map (fun r => { r with parent := r.id }) ++ regs.drop n.toNat,
    mm_select_sub := fun _ _ n regs => (n, regs),
    mm_set_sam_pri := fun n regs =>
      sample_set_sam_pri (regs.take n.toNat) false ++ regs.drop n.toNat,
    mm_set_mapq := fun _ n regs _ _ =>
      (regs.take n.toNat).map (fun r => { r with mapq := 60 }) ++ regs.drop n.toNat }

/-- Sample options with emit-all-chains set. -/
def sample_opt_all_chains : mm_mapopt_t := { sample_opt with all_chains := true }

/-- Sample options with SAM output and suppress-secondary set. -/
def sample_opt_sam_no2nd : mm_mapopt_t :=
  { sample_opt with out_sam := true, no_print_2nd := true }

/-- An on-disk record with `sam_pri` set, `id = 0` and `parent = 1`. -/
def pri_rec : DiskRec :=
  { bytes := sample_reg_bytes 0 0 50 1 true 9 0, capacity := 0, blob := [] }

/-- A record that is not its own parent and is not marked primary. -/
def secondary_reg : mm_reg1_t := { tie_a with id := 1, parent := 0 }

/-- A state of the query loop with two aggregated records. -/
def sample_state : AggState :=
  { reg := [tie_a, tie_b], current_num_regs := 2, replens := [4], n_regs_sum := 2, log := [] }

instance : IsTotal mm128_t key_le := ⟨fun a b => Nat.le_total a.x b.x⟩

instance : IsTrans mm128_t key_le := ⟨fun _ _ _ h1 h2 => Nat.le_trans h1 h2⟩

/-- A record with `sam_pri` set that is not its own parent. -/
def pri_reg : mm_reg1_t := { tie_a with parent := 1, sam_pri := true }

/-- A state of the query loop with the single aggregated record `pri_reg`. -/
def pri_state : AggState :=
  { reg := [pri_reg], current_num_regs := 1, replens := [0], n_regs_sum := 1, log := [] }

/-- A file system that holds one file, named `m0000.tmp`. -/
def one_file (contents : Stream) : List Nat → Option Stream :=
  fun name => if name = tmp_name [109] 0 then some contents else none

/-- The dump file of part P0 of the scenario: the entries A:100, B:200, C:300 and, for
one query, a candidate with local reference id 2, score 80 and hash 7. -/
def scenario_p0 : Stream :=
  header_bytes [⟨[65], 100⟩, ⟨[66], 200⟩, ⟨[67], 300⟩] ++
    block_bytes false ⟨0, [⟨sample_reg_bytes 0 2 80 0 false 7 0, 0, []⟩]⟩

/-- The dump file of part P1 of the scenario: the entries D:50, E:60 and, for the same
query, a candidate with local reference id 0, score 95 and hash 3. -/
def scenario_p1 : Stream :=
  header_bytes [⟨[68], 50⟩, ⟨[69], 60⟩] ++
    block_bytes false ⟨0, [⟨sample_reg_bytes 0 0 95 0 false 3 0, 0, []⟩]⟩

/-- The catalog of the scenario behind the catalog loop. -/
def scenario_catalog : Catalog :=
  { mi := { n_seq := 5, seq := [⟨[65], 100⟩, ⟨[66], 200⟩, ⟨[67], 300⟩, ⟨[68], 50⟩, ⟨[69], 60⟩],
            k := 0 },
    current_seq := 5, cum_n_seq := [0, 3],
    file := [block_bytes false ⟨0, [⟨sample_reg_bytes 0 2 80 0 false 7 0, 0, []⟩]⟩,
             block_bytes false ⟨0, [⟨sample_reg_bytes 0 0 95 0 false 3 0, 0, []⟩]⟩] }

/-- The variables of the query loop of the scenario behind the aggregation of the
query. -/
def scenario_state : AggState :=
  { reg := [stored_reg sample_layout false 0 ⟨sample_reg_bytes 0 2 80 0 false 7 0, 0, []⟩,
            stored_reg sample_layout false 3 ⟨sample_reg_bytes 0 0 95 0 false 3 0, 0, []⟩] ++
           List.replicate 254 default,
    current_num_regs := 256, replens := [0, 0], n_regs_sum := 2, log := [] }

/-- A file system that holds two files, named `m0000.tmp` and `m0001.tmp`. -/
def two_files (f0 f1 : Stream) : List Nat → Option Stream :=
  fun name => if name = tmp_name [109] 0 then some f0
    else if name = tmp_name [109] 1 then some f1 else none

/-- The catalog of the scenario when the dump file of part P0 holds one more byte
behind the block of the query. -/
def drain_catalog : Catalog :=
  { scenario_catalog with
    file := [block_bytes false ⟨0, [⟨sample_reg_bytes 0 2 80 0 false 7 0, 0, []⟩]⟩ ++ [1],
             block_bytes false ⟨0, [⟨sample_reg_bytes 0 0 95 0 false 3 0, 0, []⟩]⟩] }

/-- A prefix of 248 bytes: the directory path `a/a/../a/`, 124 levels deep. -/
def long_prefix : List Nat := (List.replicate 124 [97, 47]).flatten

/-- A file system that holds one file, named by `long_prefix` and the part index 0,
with the header of an index without entries. -/
def long_prefix_files : List Nat → Option Stream :=
  fun name => if name = tmp_name long_prefix 0 then some (header_bytes []) else none

/-- A file system that holds one file, named by `long_prefix` and the part index 0,
with the header of an index without entries and one more byte behind it. -/
def long_prefix_leftover : List Nat → Option Stream :=
  fun name => if name = tmp_name long_prefix 0 then some (header_bytes [] ++ [1]) else none

/-! ## Reading and list lemmas -/

theorem multipart_read_append (a rest : List Nat) (sz n : Nat) (hlen : a.length = sz * n)
    (hsz : 0 < sz ∨ n = 0) : multipart_read (a ++ rest) sz n = .ok (a, rest) := by
  unfold multipart_read fread_ret
  have h1 : fread_ret (a ++ rest) sz n = n := by
    unfold fread_ret
    by_cases hn : n = 0
    · simp [hn]
    · have hs : 0 < sz := by
        rcases hsz with h | h
        · exact h
        · exact absurd h hn
      have : ¬ (sz = 0 ∨ n = 0) := by omega
      rw [if_neg this]
      have h2 : n ≤ (a ++ rest).length / sz := by
        rw [Nat.le_div_iff_mul_le hs, List.length_append, hlen, Nat.mul_comm]
        omega
      omega
  unfold fread_ret at h1
  rw [if_neg (by simpa using h1)]
  rw [← hlen, List.take_left, List.drop_left]

theorem put_u32_length (n : Nat) : (put_u32 n).length = 4 := rfl

theorem get_put_u32 (n : Nat) (h : n < 4294967296) : get_u32 (put_u32 n) = n := by
  simp only [get_u32, put_u32, List.getD_cons_zero, List.getD_cons_succ]
  omega

theorem get_u8_singleton (l : Nat) (h : l < 256) : get_u8 [l] = l := by
  simp only [get_u8, List.getD_cons_zero]
  omega

theorem getElem?_flatten_offset {α : Type} (Ls : List (List α)) :
    ∀ (p : Nat) (h : List α) (i : Nat) (e : α), Ls[p]? = some h → h[i]? = some e →
      Ls.flatten[((Ls.map List.length).take p).sum + i]? = some e := by
  induction Ls with
  | nil => intro p h i e hp; simp at hp
  | cons l Ls ih =>
    intro p h i e hp hi
    cases p with
    | zero =>
      simp only [List.getElem?_cons_zero, Option.some.injEq] at hp
      subst hp
      have hlt : i < l.length := by
        by_contra hc
        rw [List.getElem?_eq_none (by omega)] at hi
        exact absurd hi (by simp)
      simp [List.getElem?_append_left hlt, hi]
    | succ p =>
      simp only [List.getElem?_cons_succ] at hp
      have := ih p h i e hp hi
      simp only [List.map_cons, List.take_succ_cons, List.sum_cons, List.flatten_cons]
      rw [List.getElem?_append_right (by omega)]
      rw [← this]
      congr 1
      omega

theorem map_getD_range {α : Type} (l : List α) (d : α) :
    (List.range l.length).map (fun i => l.getD i d) = l := by
  apply List.ext_getElem
  · simp
  · intro i h1 h2
    simp [h2]

/-! ## The catalog (claims C1, C2) -/

theorem load_seqs_step {n : Nat} {fp fp1 fp2 fp3 : Stream} {lb name lenb : List Nat}
    {seq : List mm_idx_seq_t} {cur : Nat}
    (h1 : multipart_read fp 1 1 = .ok (lb, fp1)) (hb : cur < seq.length)
    (h2 : multipart_read fp1 1 (get_u8 lb) = .ok (name, fp2))
    (h3 : multipart_read fp2 4 1 = .ok (lenb, fp3)) :
    load_seqs (n + 1) fp seq cur =
      load_seqs n fp3 (seq.set cur ⟨name, get_u32 lenb⟩) ((cur + 1) % 4294967296) := by
  rw [load_seqs, h1]
  dsimp only
  rw [if_neg (Nat.not_le.mpr hb), h2]
  dsimp only
  rw [h3]

theorem load_seqs_spec (es : List mm_idx_seq_t)
    (hes : ∀ e ∈ es, e.name.length ≤ 255 ∧ e.len < 4294967296) :
    ∀ (pre mid post : List mm_idx_seq_t) (rest : Stream), mid.length = es.length →
      pre.length + es.length < 4294967296 →
      load_seqs es.length
        ((es.flatMap fun e => [e.name.length] ++ e.name ++ put_u32 e.len) ++ rest)
        (pre ++ mid ++ post) pre.length
        = .ok (rest, pre ++ es ++ post, pre.length + es.length) := by
  induction es with
  | nil =>
    intro pre mid post rest hmid _
    have : mid = [] := List.length_eq_zero.mp hmid
    simp [load_seqs, this]
  | cons e es ih =>
    intro pre mid post rest hmid hlt
    obtain ⟨hn, hl⟩ := hes e (List.mem_cons_self _ _)
    cases mid with
    | nil => simp at hmid
    | cons m mid =>
      simp only [List.length_cons, Nat.add_right_cancel_iff] at hmid
      simp only [List.length_cons] at hlt
      have hs : ((e :: es).flatMap fun e => [e.name.length] ++ e.name ++ put_u32 e.len) ++ rest
          = [e.name.length] ++ (e.name ++ (put_u32 e.len ++
            ((es.flatMap fun e => [e.name.length] ++ e.name ++ put_u32 e.len) ++ rest))) := by
        simp
      have r1 := multipart_read_append [e.name.length] (e.name ++ (put_u32 e.len ++
            ((es.flatMap fun e => [e.name.length] ++ e.name ++ put_u32 e.len) ++ rest))) 1 1
            (by simp) (by simp)
      have r2 := multipart_read_append e.name (put_u32 e.len ++
            ((es.flatMap fun e => [e.name.length] ++ e.name ++ put_u32 e.len) ++ rest)) 1
            e.name.length (by simp) (by simp)
      have r3 := multipart_read_append (put_u32 e.len)
            ((es.flatMap fun e => [e.name.length] ++ e.name ++ put_u32 e.len) ++ rest) 4 1
            (by simp [put_u32_length]) (by simp)
      have hb : pre.length < (pre ++ m :: mid ++ post).length := by
        simp
      have hset : (pre ++ m :: mid ++ post).set pre.length ⟨e.name, e.len⟩
          = (pre ++ [e]) ++ mid ++ post := by
        simp
      have hcur : (pre.length + 1) % 4294967296 = (pre ++ [e]).length := by
        simp only [List.length_append, List.length_singleton]
        omega
      have hih := ih (fun x hx => hes x (List.mem_cons_of_mem _ hx)) (pre ++ [e]) mid post rest
        hmid (by simp only [List.length_append, List.length_singleton]; omega)
      rw [← get_u8_singleton _ (Nat.lt_succ_of_le hn)] at r2
      rw [hs, List.length_cons, load_seqs_step r1 hb r2 r3, get_put_u32 _ hl, hset, hcur, hih]
      simp [Nat.add_assoc, Nat.add_comm 1]

/-- The offsets of the parts: the sums of the counts of the parts in front. -/
theorem offsets_cons (s n : Nat) (ns : List Nat) :
    (List.range (n :: ns).length).map (fun p => s + ((n :: ns).take p).sum)
      = s :: (List.range ns.length).map (fun p => (s + n) + (ns.take p).sum) := by
  rw [List.length_cons, List.range_succ_eq_map, List.map_cons, List.map_map]
  simp [Function.comp_def, Nat.add_assoc]

theorem load_part_spec (c : Catalog) (h : List mm_idx_seq_t) (rest : Stream)
    (hinv : c.mi.seq.length = c.mi.n_seq ∧ c.current_seq = c.mi.n_seq)
    (hes : ∀ e ∈ h, e.name.length ≤ 255 ∧ e.len < 4294967296)
    (hlt : c.mi.n_seq + h.length < 4294967296) :
    load_part c (header_bytes h ++ rest) = .ok
      { mi := { c.mi with n_seq := c.mi.n_seq + h.length, seq := c.mi.seq ++ h },
        current_seq := c.mi.n_seq + h.length,
        cum_n_seq := c.cum_n_seq ++ [c.mi.n_seq], file := c.file ++ [rest] } := by
  obtain ⟨h1, h2⟩ := hinv
  have r0 := multipart_read_append (put_u32 h.length)
    ((h.flatMap fun e => [e.name.length] ++ e.name ++ put_u32 e.len) ++ rest) 4 1
    (by simp [put_u32_length]) (by simp)
  have hre : realloc c.mi.seq ((c.mi.n_seq + h.length) % 4294967296)
      = c.mi.seq ++ List.replicate h.length default ++ [] := by
    rw [Nat.mod_eq_of_lt hlt]
    unfold realloc
    rw [List.take_of_length_le (by omega)]
    simp [h1]
  have hl := load_seqs_spec h hes c.mi.seq (List.replicate h.length default) [] rest
    (by simp) (by omega)
  rw [h1] at hl
  unfold load_part header_bytes
  simp only [List.append_assoc, List.append_nil] at r0 hl hre ⊢
  rw [r0]
  dsimp only
  rw [get_put_u32 _ (show h.length < 4294967296 by omega), hre, h2, hl]
  dsimp only
  rw [Nat.mod_eq_of_lt hlt]

theorem load_parts_spec (parts : List (List mm_idx_seq_t × Stream))
    (hes : ∀ p ∈ parts, ∀ e ∈ p.1, e.name.length ≤ 255 ∧ e.len < 4294967296) :
    ∀ c : Catalog, c.mi.seq.length = c.mi.n_seq → c.current_seq = c.mi.n_seq →
      c.mi.n_seq + (parts.map fun p => p.1.length).sum < 4294967296 →
      load_parts (parts.map fun p => header_bytes p.1 ++ p.2) c = .ok
        { mi := { c.mi with n_seq := c.mi.n_seq + (parts.map fun p => p.1.length).sum,
                            seq := c.mi.seq ++ (parts.map fun p => p.1).flatten },
          current_seq := c.mi.n_seq + (parts.map fun p => p.1.length).sum,
          cum_n_seq := c.cum_n_seq ++ (List.range (parts.map fun p => p.1.length).length).map
            (fun p => c.mi.n_seq + ((parts.map fun p => p.1.length).take p).sum),
          file := c.file ++ parts.map fun p => p.2 } := by
  induction parts with
  | nil =>
    intro c h1 h2 _
    obtain ⟨⟨n, sq, k⟩, cur, cum, f⟩ := c
    simp only at h1 h2
    simp [load_parts, h2]
  | cons q parts ih =>
    intro c h1 h2 hlt
    simp only [List.map_cons, List.sum_cons] at hlt
    have hp := load_part_spec c q.1 q.2 ⟨h1, h2⟩ (hes q (List.mem_cons_self _ _)) (by omega)
    have hih := ih (fun p hp => hes p (List.mem_cons_of_mem _ hp))
      { mi := { c.mi with n_seq := c.mi.n_seq + q.1.length, seq := c.mi.seq ++ q.1 },
        current_seq := c.mi.n_seq + q.1.length,
        cum_n_seq := c.cum_n_seq ++ [c.mi.n_seq], file := c.file ++ [q.2] }
      (by simp [h1]) rfl (by simp only []; omega)
    rw [List.map_cons, load_parts, hp]
    dsimp only
    rw [hih]
    simp only [List.map_cons, offsets_cons, List.sum_cons, List.flatten_cons]
    simp [Nat.add_assoc]

/-- The catalog loop on well-formed headers, in closed form. -/
theorem load_catalog_spec (parts : List (List mm_idx_seq_t × Stream))
    (hes : ∀ p ∈ parts, ∀ e ∈ p.1, e.name.length ≤ 255 ∧ e.len < 4294967296)
    (htot : (parts.map fun p => p.1.length).sum < 4294967296) :
    load_catalog (parts.map fun p => header_bytes p.1 ++ p.2) = .ok
      { mi := { n_seq := (parts.map fun p => p.1.length).sum,
                seq := (parts.map fun p => p.1).flatten, k := 0 },
        current_seq := (parts.map fun p => p.1.length).sum,
        cum_n_seq := (List.range parts.length).map
            (fun p => ((parts.map fun p => p.1.length).take p).sum),
        file := parts.map fun p => p.2 } := by
  have h := load_parts_spec parts hes Catalog.init rfl rfl (by simpa [Catalog.init] using htot)
  unfold load_catalog
  rw [h]
  simp [Catalog.init]

/-- Claim C1: for every list of parts whose dump files begin with a header (entries
with a name of at most 255 bytes and a 32-bit length, followed by any bytes) and whose
counts sum to less than 2^32, the catalog loop of `mm_multi_merge` ends normally;
`mi->seq` is the concatenation of the entry lists in part order, its size and
`mi->n_seq` are the sum of the counts, `cum_n_seq[p]` is the sum of the counts of the
parts in front of `p`, and the catalog entry at index `cum_n_seq[p] + i` is entry `i`
of part `p`. -/
theorem catalog_construction (parts : List (List mm_idx_seq_t × Stream))
    (hes : ∀ p ∈ parts, ∀ e ∈ p.1, e.name.length ≤ 255 ∧ e.len < 4294967296)
    (htot : (parts.map fun p => p.1.length).sum < 4294967296) :
    ∃ c, load_catalog (parts.map fun p => header_bytes p.1 ++ p.2) = .ok c ∧
      c.mi.seq = (parts.map fun p => p.1).flatten ∧
      c.mi.seq.length = (parts.map fun p => p.1.length).sum ∧
      c.mi.n_seq = (parts.map fun p => p.1.length).sum ∧
      c.cum_n_seq.length = parts.length ∧
      (∀ p, p < parts.length →
        c.cum_n_seq[p]? = some ((parts.take p).map fun q => q.1.length).sum) ∧
      (∀ p i h e, (parts.map fun q => q.1)[p]? = some h → h[i]? = some e →
        c.mi.seq[c.cum_n_seq.getD p 0 + i]? = some e) := by
  refine ⟨_, load_catalog_spec parts hes htot, rfl, ?_, rfl, by simp, ?_, ?_⟩
  · simp [List.length_flatten, Function.comp_def]
  · intro p hp
    simp [hp, List.map_take]
  · intro p i h e hp hi
    have hlt : p < parts.length := by
      by_contra hc
      rw [List.getElem?_eq_none (by simpa using hc)] at hp
      exact absurd hp (by simp)
    have := getElem?_flatten_offset (parts.map fun q => q.1) p h i e hp hi
    simpa [List.getD_eq_getElem?_getD, hlt, Function.comp_def] using this

/-- Claim C1 at the two parts A:100, B:200, C:300 and D:50, E:60. -/
theorem catalog_construction_witness :
    (∀ p ∈ sample_parts, ∀ e ∈ p.1, e.name.length ≤ 255 ∧ e.len < 4294967296) ∧
    (sample_parts.map fun p => p.1.length).sum < 4294967296 ∧
    ∃ c, load_catalog (sample_parts.map fun p => header_bytes p.1 ++ p.2) = .ok c ∧
      c.mi.seq = (sample_parts.map fun p => p.1).flatten ∧
      c.mi.seq.length = (sample_parts.map fun p => p.1.length).sum ∧
      c.mi.n_seq = (sample_parts.map fun p => p.1.length).sum ∧
      c.cum_n_seq.length = sample_parts.length ∧
      (∀ p, p < sample_parts.length →
        c.cum_n_seq[p]? = some ((sample_parts.take p).map fun q => q.1.length).sum) ∧
      (∀ p i h e, (sample_parts.map fun q => q.1)[p]? = some h → h[i]? = some e →
        c.mi.seq[c.cum_n_seq.getD p 0 + i]? = some e) :=
  ⟨by decide, by decide, catalog_construction sample_parts (by decide) (by decide)⟩

theorem strlen_eq_length (s : List Nat) (h : ∀ c ∈ s, c ≠ 0) : strlen s = s.length := by
  unfold strlen
  rw [List.takeWhile_eq_self_iff.mpr]
  intro c hc
  simpa using h c hc

theorem mm_multi_init_eq (mi : mm_idx_t) (hn : mi.n_seq = mi.seq.length)
    (hes : ∀ e ∈ mi.seq, (∀ c ∈ e.name, c ≠ 0) ∧ e.name.length ≤ 255) :
    mm_multi_init mi = header_bytes mi.seq := by
  unfold mm_multi_init header_bytes
  rw [hn]
  congr 1
  have h1 : ((List.range mi.seq.length).flatMap fun i => write_seq (mi.seq.getD i default))
      = ((List.range mi.seq.length).map fun i => mi.seq.getD i default).flatMap write_seq := by
    rw [List.flatMap_map]
  rw [h1, map_getD_range]
  apply List.flatMap_congr
  intro e he
  obtain ⟨h0, hl⟩ := hes e he
  have := strlen_eq_length e.name h0
  unfold write_seq
  rw [this, List.take_length, Nat.mod_eq_of_lt (by omega)]

/-- Claim C2: for every index whose names are NUL-free and at most 255 bytes long
(with 32-bit count and lengths), the catalog loop of `mm_multi_merge` run on the bytes
that `mm_multi_init` writes, followed by any bytes `rest`, ends normally with the same
number of entries and the same names and lengths in the same order, and leaves the
stream at `rest`: it consumes exactly the bytes written. -/
theorem header_round_trip (mi : mm_idx_t) (rest : Stream)
    (hn : mi.n_seq = mi.seq.length) (h32 : mi.n_seq < 4294967296)
    (hes : ∀ e ∈ mi.seq, (∀ c ∈ e.name, c ≠ 0) ∧ e.name.length ≤ 255 ∧ e.len < 4294967296) :
    ∃ c, load_catalog [mm_multi_init mi ++ rest] = .ok c ∧
      c.mi.n_seq = mi.n_seq ∧ c.mi.seq = mi.seq ∧ c.file = [rest] := by
  have h := load_catalog_spec [(mi.seq, rest)]
    (by
      intro p hp e he
      simp only [List.mem_singleton] at hp
      subst hp
      exact (hes e he).2)
    (by simpa [← hn] using h32)
  rw [mm_multi_init_eq mi hn (fun e he => ⟨(hes e he).1, (hes e he).2.1⟩)]
  simp only [List.map_cons, List.map_nil] at h
  exact ⟨_, h, by simp [hn], by simp, by simp⟩

/-- Claim C2 at the index A:100, B:200, C:300 followed by two more bytes. -/
theorem header_round_trip_witness :
    sample_idx.n_seq = sample_idx.seq.length ∧ sample_idx.n_seq < 4294967296 ∧
    (∀ e ∈ sample_idx.seq,
      (∀ c ∈ e.name, c ≠ 0) ∧ e.name.length ≤ 255 ∧ e.len < 4294967296) ∧
    ∃ c, load_catalog [mm_multi_init sample_idx ++ [1, 2]] = .ok c ∧
      c.mi.n_seq = sample_idx.n_seq ∧ c.mi.seq = sample_idx.seq ∧ c.file = [[1, 2]] :=
  ⟨by decide, by decide, by decide,
    header_round_trip sample_idx [1, 2] (by decide) (by decide) (by decide)⟩

/-! ## Score-mode ranking (claims C5, C6) -/

theorem sort_key_eq (r : mm_reg1_t) (h0 : 0 ≤ r.score) (h1 : r.score < 2147483648)
    (hh : r.hash < 4294967296) : sort_key r = r.score.toNat * 4294967296 + r.hash := by
  unfold sort_key to_u64
  have e1 : (r.score % 18446744073709551616).toNat = r.score.toNat := by
    congr 1; omega
  rw [e1, Nat.shiftLeft_eq]
  have e2 : r.score.toNat * 2 ^ 32 % 18446744073709551616 = 2 ^ 32 * r.score.toNat := by
    omega
  rw [e2, ← Nat.mul_add_lt_is_or (by simpa using hh)]
  omega

theorem sort_aux_length (r : List mm_reg1_t) (n : Nat) : (sort_aux r n).length = n := by
  simp [sort_aux]

theorem radix_sort_perm (a : List mm128_t) : radix_sort_128x a ~ a :=
  List.perm_insertionSort _ _

theorem radix_sort_length (a : List mm128_t) : (radix_sort_128x a).length = a.length :=
  (radix_sort_perm a).length_eq

theorem mem_sort_aux {r : List mm_reg1_t} {n : Nat} {a : mm128_t} (h : a ∈ sort_aux r n) :
    a.y < n ∧ a.x = sort_key (r.getD a.y default) := by
  simp only [sort_aux, List.mem_map, List.mem_range] at h
  obtain ⟨i, hi, rfl⟩ := h
  exact ⟨hi, rfl⟩

/-- The index array of the write-back loop of lines 82-83. -/
theorem sort_by_score_eq (r : List mm_reg1_t) (h : 1 < r.length) :
    mm_hit_sort_by_score r.length r =
      ((r.length : Int), ((radix_sort_128x (sort_aux r r.length)).reverse.map fun a => a.y).map
        fun i => r.getD i default) := by
  have hn : ¬ ((r.length : Int) ≤ 1) := by omega
  simp only [mm_hit_sort_by_score, hn, if_false, Int.toNat_ofNat, radix_sort_length,
    sort_aux_length, List.drop_length, List.append_nil, List.map_map]
  rfl

theorem sort_order_perm (r : List mm_reg1_t) (n : Nat) :
    ((radix_sort_128x (sort_aux r n)).reverse.map fun a => a.y) ~ List.range n := by
  have h1 : (radix_sort_128x (sort_aux r n)).reverse ~ sort_aux r n :=
    (List.reverse_perm _).trans (radix_sort_perm _)
  have h2 := h1.map (fun a => a.y)
  have h3 : (sort_aux r n).map (fun a => a.y) = List.range n := by
    simp [sort_aux, Function.comp_def]
  rw [h3] at h2
  exact h2

theorem sort_by_score_perm (r : List mm_reg1_t) :
    (mm_hit_sort_by_score r.length r).2 ~ r := by
  by_cases h : 1 < r.length
  · rw [sort_by_score_eq r h]
    have := (sort_order_perm r r.length).map (fun i => r.getD i default)
    rw [map_getD_range] at this
    exact this
  · have hn : (r.length : Int) ≤ 1 := by omega
    simp [mm_hit_sort_by_score, hn]

theorem sort_by_score_desc_key (r : List mm_reg1_t) (h : 1 < r.length) :
    (mm_hit_sort_by_score r.length r).2.Pairwise fun a b => sort_key b ≤ sort_key a := by
  rw [sort_by_score_eq r h]
  simp only [List.map_map]
  rw [List.pairwise_map, List.pairwise_reverse]
  have hs : (radix_sort_128x (sort_aux r r.length)).Pairwise key_le :=
    List.sorted_insertionSort key_le _
  refine hs.imp_of_mem ?_
  intro a b ha hb hab
  have ha2 := mem_sort_aux ((radix_sort_perm _).mem_iff.mp ha)
  have hb2 := mem_sort_aux ((radix_sort_perm _).mem_iff.mp hb)
  simp only [Function.comp]
  rw [← ha2.2, ← hb2.2]
  exact hab

theorem pair_sublist_range {i j n : Nat} (hij : i < j) (hj : j < n) :
    [i, j] <+ List.range n := by
  apply List.sublist_of_subperm_of_sorted (r := fun a b : Nat => a < b)
  · apply List.subperm_of_subset
    · simp; omega
    · intro x hx
      simp at hx
      simp; omega
  · simp [List.Sorted, hij]
  · exact List.sorted_lt_range n

theorem sort_order_ties (r : List mm_reg1_t) (n i j : Nat) (hij : i < j) (hj : j < n)
    (hk : sort_key (r.getD i default) = sort_key (r.getD j default)) :
    [j, i] <+ (radix_sort_128x (sort_aux r n)).reverse.map fun a => a.y := by
  have h1 : [i, j].map (fun i => (⟨sort_key (r.getD i default), i⟩ : mm128_t)) <+ sort_aux r n :=
    (pair_sublist_range hij hj).map _
  simp only [List.map_cons, List.map_nil] at h1
  have h2 := List.pair_sublist_insertionSort (r := key_le) (show key_le _ _ from Nat.le_of_eq hk) h1
  have h3 := (h2.reverse).map (fun a => a.y)
  simpa using h3

theorem sort_key_congr (a b : mm_reg1_t) (hs : a.score = b.score) (hh : a.hash = b.hash) :
    sort_key a = sort_key b := by
  simp [sort_key, hs, hh]

/-- Claim C5, as stated, fails: the two records `tie_a`, `tie_b` carry the same score
and hash, `tie_a` stands in front of `tie_b` in the input, and it does not in the
output of `mm_hit_sort_by_score`. -/
theorem sort_not_stable :
    tie_a.score = tie_b.score ∧ tie_a.hash = tie_b.hash ∧
    [tie_a, tie_b] <+ [tie_a, tie_b] ∧
    ¬ [tie_a, tie_b] <+ (mm_hit_sort_by_score 2 [tie_a, tie_b]).2 := by
  decide

/-- Claim C5 (amended): `mm_hit_sort_by_score` writes the records back along a
permutation `order` of the input indices (output position `k` holds input record
`order[k]`), and two input positions `i < j` whose records carry the same score and
hash stand in `order` in the reverse order: `j` in front of `i`. -/
theorem sort_reverses_ties (r : List mm_reg1_t) (i j : Nat) (hij : i < j)
    (hj : j < r.length)
    (hs : (r.getD i default).score = (r.getD j default).score)
    (hh : (r.getD i default).hash = (r.getD j default).hash) :
    ∃ order : List Nat, order ~ List.range r.length ∧
      (mm_hit_sort_by_score r.length r).2 = order.map (fun k => r.getD k default) ∧
      [j, i] <+ order := by
  refine ⟨(radix_sort_128x (sort_aux r r.length)).reverse.map fun a => a.y,
    sort_order_perm r r.length, ?_, ?_⟩
  · rw [sort_by_score_eq r (by omega)]
  · exact sort_order_ties r r.length i j hij hj (sort_key_congr _ _ hs hh)

/-- Claim C5 (amended) at the list `[tie_a, tie_b]`. -/
theorem sort_reverses_ties_witness :
    0 < 1 ∧ 1 < [tie_a, tie_b].length ∧
    ([tie_a, tie_b].getD 0 default).score = ([tie_a, tie_b].getD 1 default).score ∧
    ([tie_a, tie_b].getD 0 default).hash = ([tie_a, tie_b].getD 1 default).hash ∧
    ∃ order : List Nat, order ~ List.range [tie_a, tie_b].length ∧
      (mm_hit_sort_by_score [tie_a, tie_b].length [tie_a, tie_b]).2
        = order.map (fun k => [tie_a, tie_b].getD k default) ∧
      [1, 0] <+ order :=
  ⟨by decide, by decide, by decide, by decide,
    sort_reverses_ties [tie_a, tie_b] 0 1 (by decide) (by decide) (by decide) (by decide)⟩

/-- Claim C6: for every list of records with non-negative scores (32-bit scores and
hashes), `mm_hit_sort_by_score` leaves the count unchanged and rewrites the list as a
permutation of the input in which scores are non-increasing and, among records of
equal score, hashes are non-increasing; a list of length 0 or 1 is returned
unchanged. -/
theorem score_ranking_order (r : List mm_reg1_t)
    (hr : ∀ x ∈ r, 0 ≤ x.score ∧ x.score < 2147483648 ∧ x.hash < 4294967296) :
    (mm_hit_sort_by_score r.length r).1 = r.length ∧
    (mm_hit_sort_by_score r.length r).2 ~ r ∧
    (mm_hit_sort_by_score r.length r).2.Pairwise
      (fun a b => b.score ≤ a.score ∧ (a.score = b.score → b.hash ≤ a.hash)) ∧
    (r.length ≤ 1 → (mm_hit_sort_by_score r.length r).2 = r) := by
  have hperm := sort_by_score_perm r
  refine ⟨?_, hperm, ?_, ?_⟩
  · by_cases h : 1 < r.length
    · rw [sort_by_score_eq r h]
    · have hn : (r.length : Int) ≤ 1 := by omega
      simp [mm_hit_sort_by_score, hn]
  · by_cases h : 1 < r.length
    · refine (sort_by_score_desc_key r h).imp_of_mem ?_
      intro a b ha hb hab
      obtain ⟨a0, a1, a2⟩ := hr a (hperm.mem_iff.mp ha)
      obtain ⟨b0, b1, b2⟩ := hr b (hperm.mem_iff.mp hb)
      rw [sort_key_eq a a0 a1 a2, sort_key_eq b b0 b1 b2] at hab
      constructor
      · omega
      · intro he
        rw [he] at hab
        omega
    · have hn : (r.length : Int) ≤ 1 := by omega
      simp only [mm_hit_sort_by_score, hn, if_true]
      match r, h with
      | [], _ => exact List.Pairwise.nil
      | [x], _ => exact List.pairwise_singleton _ _
      | _ :: _ :: _, h => simp at h
  · intro h
    have hn : (r.length : Int) ≤ 1 := by omega
    simp [mm_hit_sort_by_score, hn]

/-- Claim C6 at a list of three records. -/
theorem score_ranking_order_witness :
    (∀ x ∈ [tie_a, { tie_a with score := 80, hash := 7 }, { tie_a with score := 95, hash := 3 }],
      0 ≤ x.score ∧ x.score < 2147483648 ∧ x.hash < 4294967296) ∧
    (mm_hit_sort_by_score 3
      [tie_a, { tie_a with score := 80, hash := 7 }, { tie_a with score := 95, hash := 3 }]).2
      ~ [tie_a, { tie_a with score := 80, hash := 7 }, { tie_a with score := 95, hash := 3 }] :=
  ⟨by decide, (score_ranking_order
    [tie_a, { tie_a with score := 80, hash := 7 }, { tie_a with score := 95, hash := 3 }]
    (by decide)).2.1⟩

/-! ## The repeat length (claim C9) -/

theorem maximum_loop_spec (replens : List Int) (hnn : ∀ x ∈ replens, 0 ≤ x) :
    ∀ (k i : Nat) (m : Int), i + k = replens.length → m ∈ replens →
      (∀ j (hj : j < replens.length), j < i → replens[j] ≤ m) →
      ∃ m2, maximum_loop replens k i m = .ok m2 ∧ m2 ∈ replens ∧ ∀ x ∈ replens, x ≤ m2 := by
  intro k
  induction k with
  | zero =>
    intro i m hik hm hle
    refine ⟨m, rfl, hm, ?_⟩
    intro x hx
    obtain ⟨j, hj, rfl⟩ := List.getElem_of_mem hx
    exact hle j hj (by omega)
  | succ k ih =>
    intro i m hik hm hle
    have hi : i < replens.length := by omega
    have hx0 : 0 ≤ replens[i] := hnn _ (List.getElem_mem hi)
    simp only [maximum_loop, List.getElem?_eq_getElem hi, not_lt.mpr hx0, if_false]
    apply ih (i + 1) _ (by omega)
    · split
      · exact List.getElem_mem hi
      · exact hm
    · intro j hj hji
      rcases Nat.lt_succ_iff_lt_or_eq.mp hji with h | h
      · have := hle j hj h
        split <;> omega
      · subst h
        split <;> omega

/-- Claim C9: for every part count `P >= 1` and every array of `P` non-negative repeat
lengths, `maximum(replens, P)` returns normally, its result is an element of the array
and is greater than or equal to every element. -/
theorem maximum_is_max (replens : List Int) (num_idx_parts : Int)
    (hP : 1 ≤ num_idx_parts) (hlen : (replens.length : Int) = num_idx_parts)
    (hnn : ∀ x ∈ replens, 0 ≤ x) :
    ∃ m, maximum replens num_idx_parts = .ok m ∧ m ∈ replens ∧ ∀ x ∈ replens, x ≤ m := by
  have h0 : 0 < replens.length := by omega
  have hn : ¬ (num_idx_parts ≤ 0) := by omega
  simp only [maximum, List.getElem?_eq_getElem h0, hn, if_false]
  apply maximum_loop_spec replens hnn _ 1 _ (by omega) (List.getElem_mem h0)
  intro j hj hj1
  have : j = 0 := by omega
  subst this
  exact le_refl _

/-- Claim C9 at the repeat lengths 4, 9, 2 of three parts. -/
theorem maximum_is_max_witness :
    (1 : Int) ≤ 3 ∧ (([4, 9, 2] : List Int).length : Int) = 3 ∧
    (∀ x ∈ ([4, 9, 2] : List Int), 0 ≤ x) ∧
    ∃ m, maximum [4, 9, 2] 3 = .ok m ∧ m ∈ ([4, 9, 2] : List Int) ∧
      ∀ x ∈ ([4, 9, 2] : List Int), x ≤ m :=
  ⟨by decide, by decide, by decide, maximum_is_max [4, 9, 2] 3 (by decide) (by decide) (by decide)⟩

/-! ## The aggregation loop (claims C3, C4) -/

theorem to_i32_of_range (x : Int) (h0 : -2147483648 ≤ x) (h1 : x < 2147483648) :
    to_i32 x = x := by
  unfold to_i32; split <;> omega

theorem to_u32_to_i32 (c : Nat) (h : c < 4294967296) : to_u32 (to_i32 c) = c := by
  unfold to_u32 to_i32; split <;> omega

theorem to_u32_natCast (c : Nat) (h : c < 4294967296) : to_u32 (c : Int) = c := by
  unfold to_u32; omega

theorem get_put_i32 (x : Int) (h0 : -2147483648 ≤ x) (h1 : x < 2147483648) :
    get_i32 (put_i32 x) = x := by
  unfold get_i32 put_i32
  rw [get_put_u32 _ (by unfold to_u32; omega)]
  unfold to_u32 to_i32; split <;> omega

theorem get_i32_put_u32 (c : Nat) (hc : c < 4294967296) : get_i32 (put_u32 c) = to_i32 c := by
  unfold get_i32
  rw [get_put_u32 _ hc]

theorem read_extra_step {L : Layout} {fp fp1 fp2 : Stream} {cb blob : List Nat}
    (h1 : multipart_read fp 4 1 = .ok (cb, fp1))
    (h2 : multipart_read fp1 (extra_size L (get_i32 cb)) 1 = .ok (blob, fp2)) :
    read_extra L fp =
      .ok (mm_extra_ptr.heap blob, fp2, decide (to_u32 (get_i32 cb) ≠ L.extra_capacity blob)) := by
  rw [read_extra, h1]
  dsimp only
  rw [h2]

theorem read_extra_spec (L : Layout) (c : Nat) (blob rest : List Nat) (hc : c < 4294967296)
    (hpos : 0 < extra_size L (to_i32 c)) (hlen : blob.length = extra_size L (to_i32 c)) :
    read_extra L (put_u32 c ++ (blob ++ rest)) =
      .ok (mm_extra_ptr.heap blob, rest, decide (c ≠ L.extra_capacity blob)) := by
  have r1 := multipart_read_append (put_u32 c) (blob ++ rest) 4 1 (put_u32_length c)
    (Or.inl (by decide))
  have r2 := multipart_read_append blob rest (extra_size L (to_i32 c)) 1
    (by rw [hlen, Nat.mul_one]) (Or.inl hpos)
  rw [← get_i32_put_u32 c hc] at r2
  rw [read_extra_step r1 r2, get_i32_put_u32 c hc, to_u32_to_i32 c hc]

theorem read_regs_step {L : Layout} {cigar : Bool} {cum : Nat} {n_regs_sum j : Int} {k : Nat}
    {fp fp1 fp2 : Stream} {rb : List Nat} {reg : List mm_reg1_t} {log : List Diag}
    {p : mm_extra_ptr} {warn : Bool}
    (h0 : 0 ≤ n_regs_sum + j) (hb : n_regs_sum + j < reg.length)
    (h1 : multipart_read fp L.sizeof_reg 1 = .ok (rb, fp1))
    (h2 : (if cigar then read_extra L fp1 else .ok (mm_extra_ptr.null, fp1, false))
      = .ok (p, fp2, warn)) :
    read_regs L cigar cum n_regs_sum (k + 1) j fp reg log =
      read_regs L cigar cum n_regs_sum k (j + 1) fp2
        (reg.set (n_regs_sum + j).toNat
          { L.reg_of_bytes rb with p := p, rid := remap_rid (L.reg_of_bytes rb).rid cum })
        (if warn then log ++ [Diag.dump_corrupted] else log) := by
  have hnot : ¬ (n_regs_sum + j < 0 ∨ (reg.length : Int) ≤ n_regs_sum + j) := by omega
  rw [read_regs, if_neg hnot, h1]
  dsimp only
  rw [h2]

theorem read_regs_spec (L : Layout) (cigar : Bool) (cum : Nat) (n_regs_sum : Int)
    (hsz : 0 < L.sizeof_reg) (recs : List DiskRec) (hrecs : ∀ d ∈ recs, rec_sized L cigar d) :
    ∀ (j : Int) (pre mid post : List mm_reg1_t) (rest : Stream) (log : List Diag),
      n_regs_sum + j = pre.length → mid.length = recs.length →
      read_regs L cigar cum n_regs_sum recs.length j (recs.flatMap (rec_bytes cigar) ++ rest)
        (pre ++ mid ++ post) log
        = .ok (rest, pre ++ recs.map (stored_reg L cigar cum) ++ post,
            log ++ recs.flatMap (rec_warning L cigar)) := by
  induction recs with
  | nil =>
    intro j pre mid post rest log _ hmid
    have : mid = [] := List.length_eq_zero.mp hmid
    simp [read_regs, this]
  | cons d recs ih =>
    intro j pre mid post rest log hj hmid
    obtain ⟨hd1, hd2⟩ := hrecs d (List.mem_cons_self _ _)
    cases mid with
    | nil => simp at hmid
    | cons m mid =>
      simp only [List.length_cons, Nat.add_right_cancel_iff] at hmid
      have hs : (d :: recs).flatMap (rec_bytes cigar) ++ rest
          = d.bytes ++ ((if cigar then put_u32 d.capacity ++ d.blob else []) ++
              (recs.flatMap (rec_bytes cigar) ++ rest)) := by
        simp [rec_bytes]
      have r1 := multipart_read_append d.bytes
        ((if cigar then put_u32 d.capacity ++ d.blob else []) ++
              (recs.flatMap (rec_bytes cigar) ++ rest)) L.sizeof_reg 1 (by simp [hd1])
        (Or.inl hsz)
      have r2 : (if cigar then read_extra L ((if cigar then put_u32 d.capacity ++ d.blob else []) ++
              (recs.flatMap (rec_bytes cigar) ++ rest))
            else .ok (mm_extra_ptr.null, (if cigar then put_u32 d.capacity ++ d.blob else []) ++
              (recs.flatMap (rec_bytes cigar) ++ rest), false))
          = .ok (if cigar then mm_extra_ptr.heap d.blob else mm_extra_ptr.null,
              recs.flatMap (rec_bytes cigar) ++ rest,
              decide (cigar ∧ d.capacity ≠ L.extra_capacity d.blob)) := by
        cases cigar with
        | false => simp
        | true =>
          obtain ⟨hc, hpos, hlen⟩ := hd2 rfl
          have := read_extra_spec L d.capacity d.blob (recs.flatMap (rec_bytes true) ++ rest)
            hc hpos hlen
          simpa using this
      have hb : n_regs_sum + j < ((pre ++ m :: mid ++ post).length : Int) := by
        rw [hj]; simp; omega
      have hset : (pre ++ m :: mid ++ post).set (n_regs_sum + j).toNat
            { L.reg_of_bytes d.bytes with
              p := if cigar then mm_extra_ptr.heap d.blob else mm_extra_ptr.null,
              rid := remap_rid (L.reg_of_bytes d.bytes).rid cum }
          = (pre ++ [stored_reg L cigar cum d]) ++ mid ++ post := by
        rw [hj, Int.toNat_ofNat]
        simp [stored_reg]
      have hih := ih (fun x hx => hrecs x (List.mem_cons_of_mem _ hx)) (j + 1)
        (pre ++ [stored_reg L cigar cum d]) mid post rest
        (if decide (cigar ∧ d.capacity ≠ L.extra_capacity d.blob) = true
          then log ++ [Diag.dump_corrupted] else log)
        (by simp only [List.length_append, List.length_singleton]; push_cast; omega) hmid
      rw [hs, List.length_cons, read_regs_step (by omega) hb r1 r2, hset, hih]
      simp only [List.flatMap_cons, rec_warning, List.map_cons]
      by_cases hw : cigar = true ∧ d.capacity ≠ L.extra_capacity d.blob
      · simp [hw]
      · simp [hw]


theorem realloc_length {α : Type} [Inhabited α] (a : List α) (n : Nat) :
    (realloc a n).length = n := by
  unfold realloc
  simp only [List.length_append, List.length_take, List.length_replicate]
  omega

theorem realloc_take {α : Type} [Inhabited α] (a : List α) (n s : Nat) (h1 : s ≤ a.length)
    (h2 : s ≤ n) : (realloc a n).take s = a.take s := by
  unfold realloc
  rw [List.take_append_of_le_length (by simp only [List.length_take]; omega), List.take_take]
  congr 1
  omega

theorem split_three {α : Type} (l : List α) (s k : Nat) :
    l = l.take s ++ (l.drop s).take k ++ l.drop (s + k) := by
  rw [List.append_assoc, ← List.drop_drop, List.take_append_drop, List.take_append_drop]

theorem read_block_step {L : Layout} {opt : mm_mapopt_t} {cum_n_seq : List Nat} {i : Nat}
    {st : AggState} {fp fp1 fp2 fp3 : Stream} {nb pb : List Nat} {reg : List mm_reg1_t}
    {log : List Diag} {k : Nat}
    (h1 : multipart_read fp 4 1 = .ok (nb, fp1))
    (h2 : multipart_read fp1 4 1 = .ok (pb, fp2))
    (hn : get_i32 nb = (k : Int))
    (h3 : read_regs L opt.cigar (cum_n_seq.getD i 0) st.n_regs_sum k 0 fp2
          (grow_reg st.reg st.current_num_regs st.n_regs_sum k) st.log = .ok (fp3, reg, log)) :
    read_block L opt cum_n_seq i st fp =
      .ok ({ reg := reg,
             current_num_regs := grow_capacity st.current_num_regs st.n_regs_sum k,
             replens := st.replens.set i (get_i32 pb),
             n_regs_sum := to_i32 (st.n_regs_sum + k), log := log }, fp3) := by
  rw [read_block, h1]
  dsimp only
  rw [h2]
  dsimp only
  rw [hn, Int.toNat_ofNat, h3]

theorem grow_reg_length (reg : List mm_reg1_t) (cap : Nat) (s k : Int)
    (hinv : reg.length = cap) : (grow_reg reg cap s k).length = grow_capacity cap s k := by
  unfold grow_reg grow_capacity
  split
  · exact realloc_length _ _
  · exact hinv

theorem grow_reg_take (reg : List mm_reg1_t) (cap : Nat) (s k : Int) (n : Nat)
    (hinv : reg.length = cap) (h1 : n ≤ cap) (h2 : n ≤ grow_capacity cap s k) :
    (grow_reg reg cap s k).take n = reg.take n := by
  unfold grow_reg
  split
  · exact realloc_take _ _ _ (by omega) h2
  · rfl

theorem read_block_spec (L : Layout) (opt : mm_mapopt_t) (cum_n_seq : List Nat) (i : Nat)
    (st : AggState) (b : DiskBlock) (rest : Stream) (s : Nat)
    (hsz : 0 < L.sizeof_reg) (hrecs : ∀ d ∈ b.recs, rec_sized L opt.cigar d)
    (hrep : -2147483648 ≤ b.replen ∧ b.replen < 2147483648)
    (hinv : st.reg.length = st.current_num_regs) (hs : st.n_regs_sum = s)
    (hscap : s ≤ st.current_num_regs)
    (hsum : s + b.recs.length < 2147483648)
    (hfit : s + b.recs.length ≤ grow_capacity st.current_num_regs s b.recs.length) :
    ∃ st2, read_block L opt cum_n_seq i st (block_bytes opt.cigar b ++ rest) = .ok (st2, rest) ∧
      st2.reg.length = st2.current_num_regs ∧
      st2.current_num_regs = grow_capacity st.current_num_regs s b.recs.length ∧
      st2.n_regs_sum = ((s + b.recs.length : Nat) : Int) ∧
      st2.reg.take (s + b.recs.length)
        = st.reg.take s ++ b.recs.map (stored_reg L opt.cigar (cum_n_seq.getD i 0)) ∧
      st2.replens = st.replens.set i b.replen ∧
      st2.log = st.log ++ b.recs.flatMap (rec_warning L opt.cigar) := by
  have hk : get_i32 (put_i32 (b.recs.length : Int)) = (b.recs.length : Int) :=
    get_put_i32 _ (by omega) (by omega)
  have r1 := multipart_read_append (put_i32 (b.recs.length : Int))
    (put_i32 b.replen ++ (b.recs.flatMap (rec_bytes opt.cigar) ++ rest)) 4 1
    (put_u32_length _) (Or.inl (by decide))
  have r2 := multipart_read_append (put_i32 b.replen)
    (b.recs.flatMap (rec_bytes opt.cigar) ++ rest) 4 1 (put_u32_length _) (Or.inl (by decide))
  have hlen0 := grow_reg_length st.reg st.current_num_regs st.n_regs_sum b.recs.length hinv
  have htake0 := grow_reg_take st.reg st.current_num_regs st.n_regs_sum b.recs.length s hinv
    hscap (by rw [hs]; omega)
  have hfit2 := hfit
  rw [← hs] at hfit2
  have h3 := read_regs_spec L opt.cigar (cum_n_seq.getD i 0) st.n_regs_sum hsz b.recs hrecs 0
    ((grow_reg st.reg st.current_num_regs st.n_regs_sum b.recs.length).take s)
    (((grow_reg st.reg st.current_num_regs st.n_regs_sum b.recs.length).drop s).take
      b.recs.length)
    ((grow_reg st.reg st.current_num_regs st.n_regs_sum b.recs.length).drop (s + b.recs.length))
    rest st.log
    (by rw [List.length_take, hlen0, hs]; omega)
    (by rw [List.length_take, List.length_drop, hlen0]; omega)
  rw [← split_three] at h3
  unfold block_bytes
  simp only [List.append_assoc]
  refine ⟨_, read_block_step r1 r2 hk h3, ?_, ?_, ?_, ?_, ?_, rfl⟩
  · simp only [List.length_append, List.length_take, List.length_map, List.length_drop,
      hlen0]
    omega
  · simp only [hs]
  · simp only [hs]
    rw [to_i32_of_range _ (by omega) (by omega)]
    push_cast
    rfl
  · simp only
    have hl : ((grow_reg st.reg st.current_num_regs st.n_regs_sum b.recs.length).take s ++
        b.recs.map (stored_reg L opt.cigar (cum_n_seq.getD i 0))).length
        = s + b.recs.length := by
      simp only [List.length_append, List.length_take, List.length_map, hlen0]
      omega
    rw [List.take_left' hl, htake0]
  · simp only
    rw [get_put_i32 _ hrep.1 hrep.2]


theorem fits_cons {cap s k : Nat} {ks : List Nat} (h : fits cap s (k :: ks) = true) :
    s + k ≤ grow_capacity cap s k ∧ fits (grow_capacity cap s k) (s + k) ks = true := by
  simpa [fits] using h

theorem aggregate_from_spec (L : Layout) (opt : mm_mapopt_t) (cum_n_seq : List Nat)
    (hsz : 0 < L.sizeof_reg) (parts : List (DiskBlock × Stream))
    (hrecs : ∀ p ∈ parts, ∀ d ∈ p.1.recs, rec_sized L opt.cigar d)
    (hrep : ∀ p ∈ parts, -2147483648 ≤ p.1.replen ∧ p.1.replen < 2147483648) :
    ∀ (i : Nat) (st : AggState) (s : Nat), st.reg.length = st.current_num_regs →
      st.n_regs_sum = s → s ≤ st.current_num_regs →
      s + (parts.map fun p => p.1.recs.length).sum < 2147483648 →
      fits st.current_num_regs s (parts.map fun p => p.1.recs.length) = true →
      ∃ st2, aggregate_from L opt cum_n_seq
          (parts.map fun p => block_bytes opt.cigar p.1 ++ p.2) i st
            = .ok (st2, parts.map fun p => p.2) ∧
        st2.reg.length = st2.current_num_regs ∧
        st2.n_regs_sum = ((s + (parts.map fun p => p.1.recs.length).sum : Nat) : Int) ∧
        st2.reg.take (s + (parts.map fun p => p.1.recs.length).sum)
          = st.reg.take s ++
            (stored_lists L opt.cigar cum_n_seq i (parts.map fun p => p.1)).flatten ∧
        st2.replens.length = st.replens.length ∧
        (∀ j, j < i → st2.replens[j]? = st.replens[j]?) ∧
        (∀ q b, (parts.map fun p => p.1)[q]? = some b → i + q < st.replens.length →
          st2.replens[i + q]? = some b.replen) ∧
        st2.log = st.log ++
          parts.flatMap fun p => p.1.recs.flatMap (rec_warning L opt.cigar) := by
  induction parts with
  | nil =>
    intro i st s hinv hs hscap _ _
    refine ⟨st, rfl, hinv, by simpa using hs, by simp [stored_lists], rfl, fun _ _ => rfl,
      ?_, by simp⟩
    intro q b hq
    simp at hq
  | cons p parts ih =>
    intro i st s hinv hs hscap hsum hfit
    simp only [List.map_cons, List.sum_cons] at hsum hfit
    obtain ⟨hf1, hf2⟩ := fits_cons hfit
    obtain ⟨st1, e1, a1, a2, a3, a4, a5, a6⟩ := read_block_spec L opt cum_n_seq i st p.1 p.2 s hsz
      (hrecs p (List.mem_cons_self _ _)) (hrep p (List.mem_cons_self _ _)) hinv hs hscap
      (by omega) hf1
    obtain ⟨st2, e2, b1, b2, b3, b4, b5, b6, b7⟩ := ih
      (fun x hx => hrecs x (List.mem_cons_of_mem _ hx))
      (fun x hx => hrep x (List.mem_cons_of_mem _ hx)) (i + 1) st1 (s + p.1.recs.length) a1
      a3 (by rw [a2]; exact hf1) (by omega) (by rw [a2]; exact hf2)
    refine ⟨st2, ?_, b1, ?_, ?_, ?_, ?_, ?_, ?_⟩
    · rw [List.map_cons, aggregate_from, e1]
      dsimp only
      rw [e2]
      rfl
    · rw [b2]
      simp only [List.map_cons, List.sum_cons, Nat.add_assoc]
    · simp only [List.map_cons, List.sum_cons, stored_lists, List.flatten_cons]
      rw [← Nat.add_assoc, b3, a4, List.append_assoc]
    · rw [b4, a5, List.length_set]
    · intro j hj
      rw [b5 j (by omega), a5, List.getElem?_set_ne (by omega)]
    · intro q b hq hlt
      cases q with
      | zero =>
        simp only [List.map_cons, List.getElem?_cons_zero, Option.some.injEq] at hq
        subst hq
        rw [Nat.add_zero, b5 i (by omega), a5, List.getElem?_set_self (by omega)]
      | succ q =>
        simp only [List.map_cons, List.getElem?_cons_succ] at hq
        have := b6 q b hq (by rw [a5, List.length_set]; omega)
        rw [← this]
        congr 1
        omega
    · rw [b7, a6, List.flatMap_cons, List.append_assoc]


theorem remap_rid_eq (rid : Int) (cum : Nat) (h0 : -2147483648 ≤ rid)
    (h1 : rid + cum < 2147483648) : remap_rid rid cum = rid + cum := by
  unfold remap_rid to_u32 to_i32
  split <;> omega

theorem stored_lists_getElem? (L : Layout) (cigar : Bool) (cum : List Nat) (bs : List DiskBlock) :
    ∀ (i p : Nat), (stored_lists L cigar cum i bs)[p]?
      = bs[p]?.map fun b => b.recs.map (stored_reg L cigar (cum.getD (i + p) 0)) := by
  induction bs with
  | nil => intro i p; simp [stored_lists]
  | cons b bs ih =>
    intro i p
    cases p with
    | zero => simp [stored_lists]
    | succ p =>
      have e : i + 1 + p = i + (p + 1) := by omega
      simp only [stored_lists, List.getElem?_cons_succ, ih (i + 1) p, e]

theorem stored_lists_lengths (L : Layout) (cigar : Bool) (cum : List Nat) (bs : List DiskBlock) :
    ∀ i : Nat, (stored_lists L cigar cum i bs).map List.length = bs.map fun b => b.recs.length := by
  induction bs with
  | nil => intro i; simp [stored_lists]
  | cons b bs ih => intro i; simp [stored_lists, ih (i + 1)]

theorem getElem?_of_take {α : Type} {l : List α} {n i : Nat} {a : α}
    (h : (l.take n)[i]? = some a) : l[i]? = some a := by
  rw [List.getElem?_take] at h
  split at h
  · exact h
  · exact absurd h (by simp)

/-- The aggregation loop of one query on blocks that fit the buffer, in closed form. -/
theorem aggregate_spec (L : Layout) (opt : mm_mapopt_t) (cum_n_seq : List Nat)
    (st : AggState) (parts : List (DiskBlock × Stream))
    (hsz : 0 < L.sizeof_reg)
    (hrecs : ∀ p ∈ parts, ∀ d ∈ p.1.recs, rec_sized L opt.cigar d)
    (hrep : ∀ p ∈ parts, -2147483648 ≤ p.1.replen ∧ p.1.replen < 2147483648)
    (hinv : st.reg.length = st.current_num_regs)
    (hsum : (parts.map fun p => p.1.recs.length).sum < 2147483648)
    (hfit : fits st.current_num_regs 0 (parts.map fun p => p.1.recs.length) = true) :
    ∃ st2, aggregate L opt cum_n_seq (parts.map fun p => block_bytes opt.cigar p.1 ++ p.2) st
        = .ok (st2, parts.map fun p => p.2) ∧
      st2.reg.length = st2.current_num_regs ∧
      st2.n_regs_sum = (((parts.map fun p => p.1.recs.length).sum : Nat) : Int) ∧
      st2.reg.take (parts.map fun p => p.1.recs.length).sum
        = (stored_lists L opt.cigar cum_n_seq 0 (parts.map fun p => p.1)).flatten ∧
      st2.replens.length = st.replens.length ∧
      (∀ q b, (parts.map fun p => p.1)[q]? = some b → q < st.replens.length →
        st2.replens[q]? = some b.replen) ∧
      st2.log = st.log ++ parts.flatMap fun p => p.1.recs.flatMap (rec_warning L opt.cigar) := by
  obtain ⟨st2, e, b1, b2, b3, b4, _, b6, b7⟩ := aggregate_from_spec L opt cum_n_seq hsz parts
    hrecs hrep 0 { st with n_regs_sum := 0 } 0 hinv rfl (Nat.zero_le _) (by omega) hfit
  refine ⟨st2, e, b1, ?_, ?_, b4, ?_, b7⟩
  · simpa using b2
  · simpa using b3
  · intro q b hq hlt
    have := b6 q b hq (by simpa using hlt)
    simpa using this

theorem aggregate_index (L : Layout) (cigar : Bool) (cum_n_seq : List Nat)
    (bs : List DiskBlock) (reg : List mm_reg1_t)
    (h : reg.take (bs.map fun b => b.recs.length).sum
      = (stored_lists L cigar cum_n_seq 0 bs).flatten)
    (p j : Nat) (b : DiskBlock) (d : DiskRec) (hp : bs[p]? = some b) (hj : b.recs[j]? = some d) :
    reg[((bs.take p).map fun q => q.recs.length).sum + j]?
      = some (stored_reg L cigar (cum_n_seq.getD p 0) d) := by
  apply getElem?_of_take (n := (bs.map fun b => b.recs.length).sum)
  rw [h]
  have h1 : (stored_lists L cigar cum_n_seq 0 bs)[p]?
      = some (b.recs.map (stored_reg L cigar (cum_n_seq.getD p 0))) := by
    rw [stored_lists_getElem?, hp]
    simp
  have h2 : (b.recs.map (stored_reg L cigar (cum_n_seq.getD p 0)))[j]?
      = some (stored_reg L cigar (cum_n_seq.getD p 0) d) := by
    rw [List.getElem?_map, hj]
    rfl
  have := getElem?_flatten_offset _ p _ j _ h1 h2
  rw [stored_lists_lengths, ← List.map_take] at this
  exact this


theorem read_regs_full (L : Layout) (cigar : Bool) (cum : Nat) (n_regs_sum j : Int) (k : Nat)
    (fp : Stream) (reg : List mm_reg1_t) (log : List Diag)
    (h : (reg.length : Int) ≤ n_regs_sum + j) :
    read_regs L cigar cum n_regs_sum (k + 1) j fp reg log = .error Fault.out_of_bounds := by
  rw [read_regs, if_pos (Or.inr h)]

theorem read_regs_overflow (L : Layout) (cigar : Bool) (cum : Nat) (n_regs_sum : Int)
    (hsz : 0 < L.sizeof_reg) (recs : List DiskRec) (hrecs : ∀ d ∈ recs, rec_sized L cigar d) :
    ∀ (k2 : Nat) (j : Int) (pre mid : List mm_reg1_t) (fp : Stream) (log : List Diag),
      n_regs_sum + j = pre.length → mid.length = recs.length →
      read_regs L cigar cum n_regs_sum (recs.length + (k2 + 1)) j
        (recs.flatMap (rec_bytes cigar) ++ fp) (pre ++ mid) log
        = .error Fault.out_of_bounds := by
  induction recs with
  | nil =>
    intro k2 j pre mid fp log hj hmid
    have : mid = [] := List.length_eq_zero.mp hmid
    subst this
    rw [List.length_nil, Nat.zero_add]
    exact read_regs_full _ _ _ _ _ _ _ _ _ (by rw [hj]; simp)
  | cons d recs ih =>
    intro k2 j pre mid fp log hj hmid
    obtain ⟨hd1, hd2⟩ := hrecs d (List.mem_cons_self _ _)
    cases mid with
    | nil => simp at hmid
    | cons m mid =>
      simp only [List.length_cons, Nat.add_right_cancel_iff] at hmid
      have hs : (d :: recs).flatMap (rec_bytes cigar) ++ fp
          = d.bytes ++ ((if cigar then put_u32 d.capacity ++ d.blob else []) ++
              (recs.flatMap (rec_bytes cigar) ++ fp)) := by
        simp [rec_bytes]
      have r1 := multipart_read_append d.bytes
        ((if cigar then put_u32 d.capacity ++ d.blob else []) ++
              (recs.flatMap (rec_bytes cigar) ++ fp)) L.sizeof_reg 1 (by simp [hd1])
        (Or.inl hsz)
      have r2 : (if cigar then read_extra L ((if cigar then put_u32 d.capacity ++ d.blob else []) ++
              (recs.flatMap (rec_bytes cigar) ++ fp))
            else .ok (mm_extra_ptr.null, (if cigar then put_u32 d.capacity ++ d.blob else []) ++
              (recs.flatMap (rec_bytes cigar) ++ fp), false))
          = .ok (if cigar then mm_extra_ptr.heap d.blob else mm_extra_ptr.null,
              recs.flatMap (rec_bytes cigar) ++ fp,
              decide (cigar ∧ d.capacity ≠ L.extra_capacity d.blob)) := by
        cases cigar with
        | false => simp
        | true =>
          obtain ⟨hc, hpos, hlen⟩ := hd2 rfl
          have := read_extra_spec L d.capacity d.blob (recs.flatMap (rec_bytes true) ++ fp)
            hc hpos hlen
          simpa using this
      have hb : n_regs_sum + j < ((pre ++ m :: mid).length : Int) := by
        rw [hj]; simp
      have hset : (pre ++ m :: mid).set (n_regs_sum + j).toNat
            { L.reg_of_bytes d.bytes with
              p := if cigar then mm_extra_ptr.heap d.blob else mm_extra_ptr.null,
              rid := remap_rid (L.reg_of_bytes d.bytes).rid cum }
          = (pre ++ [stored_reg L cigar cum d]) ++ mid := by
        rw [hj, Int.toNat_ofNat]
        simp [stored_reg]
      have hcount : (d :: recs).length + (k2 + 1) = (recs.length + (k2 + 1)) + 1 := by
        simp only [List.length_cons]; omega
      rw [hs, hcount, read_regs_step (by omega) hb r1 r2, hset]
      exact ih (fun x hx => hrecs x (List.mem_cons_of_mem _ hx)) k2 (j + 1)
        (pre ++ [stored_reg L cigar cum d]) mid fp _
        (by simp only [List.length_append, List.length_singleton]; push_cast; omega) hmid

theorem read_block_fault {L : Layout} {opt : mm_mapopt_t} {cum_n_seq : List Nat} {i : Nat}
    {st : AggState} {fp fp1 fp2 : Stream} {nb pb : List Nat} {k : Nat} {f : Fault}
    (h1 : multipart_read fp 4 1 = .ok (nb, fp1))
    (h2 : multipart_read fp1 4 1 = .ok (pb, fp2))
    (hn : get_i32 nb = (k : Int))
    (h3 : read_regs L opt.cigar (cum_n_seq.getD i 0) st.n_regs_sum k 0 fp2
          (grow_reg st.reg st.current_num_regs st.n_regs_sum k) st.log = .error f) :
    read_block L opt cum_n_seq i st fp = .error f := by
  rw [read_block, h1]
  dsimp only
  rw [h2]
  dsimp only
  rw [hn, Int.toNat_ofNat, h3]

/-- A first block with more records than the buffer has slots: the check of lines
206-209 adds `n_regs_sum = 0` to the capacity, and the loop of lines 212-232 leaves
the buffer. -/
theorem first_block_overflow (L : Layout) (opt : mm_mapopt_t) (cum_n_seq : List Nat)
    (st : AggState) (b : DiskBlock) (rest : Stream) (fs : List Stream)
    (hsz : 0 < L.sizeof_reg) (hrecs : ∀ d ∈ b.recs, rec_sized L opt.cigar d)
    (hinv : st.reg.length = st.current_num_regs)
    (hover : st.current_num_regs < b.recs.length) (h31 : b.recs.length < 2147483648) :
    aggregate L opt cum_n_seq ((block_bytes opt.cigar b ++ rest) :: fs) st
      = .error Fault.out_of_bounds := by
  have hk : get_i32 (put_i32 (b.recs.length : Int)) = (b.recs.length : Int) :=
    get_put_i32 _ (by omega) (by omega)
  have r1 := multipart_read_append (put_i32 (b.recs.length : Int))
    (put_i32 b.replen ++ (b.recs.flatMap (rec_bytes opt.cigar) ++ rest)) 4 1
    (put_u32_length _) (Or.inl (by decide))
  have r2 := multipart_read_append (put_i32 b.replen)
    (b.recs.flatMap (rec_bytes opt.cigar) ++ rest) 4 1 (put_u32_length _) (Or.inl (by decide))
  have hcap : grow_capacity st.current_num_regs 0 (b.recs.length : Int) = st.current_num_regs := by
    unfold grow_capacity to_u32
    split <;> omega
  have hlen0 := grow_reg_length st.reg st.current_num_regs 0 b.recs.length hinv
  rw [hcap] at hlen0
  -- the records that fit, and the first one that does not
  have hsplit : b.recs = b.recs.take st.current_num_regs ++ b.recs.drop st.current_num_regs :=
    (List.take_append_drop _ _).symm
  have hl1 : (b.recs.take st.current_num_regs).length = st.current_num_regs := by
    rw [List.length_take]; omega
  have hl2 : (b.recs.drop st.current_num_regs).length
      = (b.recs.length - st.current_num_regs - 1) + 1 := by
    rw [List.length_drop]; omega
  have h3 := read_regs_overflow L opt.cigar (cum_n_seq.getD 0 0) 0 hsz
    (b.recs.take st.current_num_regs)
    (fun d hd => hrecs d (List.mem_of_mem_take hd))
    (b.recs.length - st.current_num_regs - 1) 0 []
    (grow_reg st.reg st.current_num_regs 0 b.recs.length)
    ((b.recs.drop st.current_num_regs).flatMap (rec_bytes opt.cigar) ++ rest) st.log
    (by simp) (by rw [hlen0, hl1])
  rw [← List.append_assoc, ← List.flatMap_append, ← hsplit, hl1, List.nil_append] at h3
  have hcount : st.current_num_regs + (b.recs.length - st.current_num_regs - 1 + 1)
      = b.recs.length := by omega
  rw [hcount] at h3
  unfold aggregate
  rw [aggregate_from]
  unfold block_bytes
  simp only [List.append_assoc]
  rw [read_block_fault r1 r2 hk h3]


theorem init_reg_length (num_idx_parts : Nat) :
    (AggState.init num_idx_parts).reg.length = (AggState.init num_idx_parts).current_num_regs :=
  List.length_replicate _ _

/-- Claim C3, as stated, fails: part 0 holds one entry, so `cum_n_seq[1] = 1`; the
record of part 1 with on-disk local id 2147483647 is stored with `rid = -2147483648`,
which is not its local id plus `cum_n_seq[1]`. -/
theorem aggregation_rid_wraps :
    ∃ c st2 r, load_catalog [wrap_file0, wrap_file1] = .ok c ∧
      c.cum_n_seq = [0, 1] ∧
      aggregate sample_layout sample_opt c.cum_n_seq c.file (AggState.init 2)
        = .ok (st2, [[], []]) ∧
      st2.reg[0]? = some r ∧
      (sample_layout.reg_of_bytes big_rid_rec.bytes).rid = 2147483647 ∧
      r.rid = -2147483648 ∧
      r.rid ≠ (sample_layout.reg_of_bytes big_rid_rec.bytes).rid + c.cum_n_seq.getD 1 0 := by
  have hc : load_catalog [wrap_file0, wrap_file1] = .ok
      { mi := { n_seq := 1, seq := [⟨[65], 100⟩], k := 0 }, current_seq := 1,
        cum_n_seq := [0, 1],
        file := [block_bytes false ⟨0, []⟩, block_bytes false ⟨0, [big_rid_rec]⟩] } := by
    decide
  obtain ⟨st2, e, _, _, h3, _⟩ := aggregate_spec sample_layout sample_opt [0, 1]
    (AggState.init 2) [(⟨0, []⟩, []), (⟨0, [big_rid_rec]⟩, [])] (by decide) (by decide)
    (by decide) (init_reg_length 2) (by decide) (by decide)
  have hi := aggregate_index sample_layout false [0, 1] [⟨0, []⟩, ⟨0, [big_rid_rec]⟩] st2.reg
    h3 1 0 ⟨0, [big_rid_rec]⟩ big_rid_rec rfl rfl
  refine ⟨_, st2, _, hc, rfl, ?_, hi, by decide, by decide, by decide⟩
  simpa using e


/-- Claim C3 (amended): for every query whose blocks carry non-negative counts
`k_0..k_(P-1)` with a sum below 2^31 and fit the buffer (after each check of lines
206-209 the capacity is at least `n_regs_sum + n_reg`), the aggregation loop ends
normally with `n_regs_sum = k_0 + ... + k_(P-1)`, the buffer holds the records of the
parts concatenated in ascending part order, and record `j` of part `p` sits at index
`(k_0 + ... + k_(p-1)) + j` with every field as read from disk except `p` (set by
lines 216-227) and `rid`, which is the on-disk local id plus `cum_n_seq[p]` reduced
to a signed 32-bit value: equal to the plain sum whenever that sum is below 2^31. -/
theorem aggregation_within_capacity (L : Layout) (opt : mm_mapopt_t) (cum_n_seq : List Nat)
    (st : AggState) (parts : List (DiskBlock × Stream))
    (hsz : 0 < L.sizeof_reg)
    (hrecs : ∀ p ∈ parts, ∀ d ∈ p.1.recs, rec_sized L opt.cigar d)
    (hrep : ∀ p ∈ parts, -2147483648 ≤ p.1.replen ∧ p.1.replen < 2147483648)
    (hinv : st.reg.length = st.current_num_regs)
    (hsum : (parts.map fun p => p.1.recs.length).sum < 2147483648)
    (hfit : fits st.current_num_regs 0 (parts.map fun p => p.1.recs.length) = true) :
    ∃ st2, aggregate L opt cum_n_seq (parts.map fun p => block_bytes opt.cigar p.1 ++ p.2) st
        = .ok (st2, parts.map fun p => p.2) ∧
      st2.n_regs_sum = (((parts.map fun p => p.1.recs.length).sum : Nat) : Int) ∧
      st2.reg.take (parts.map fun p => p.1.recs.length).sum
        = (stored_lists L opt.cigar cum_n_seq 0 (parts.map fun p => p.1)).flatten ∧
      (∀ p j b d, (parts.map fun q => q.1)[p]? = some b → b.recs[j]? = some d →
        ∃ r, st2.reg[((parts.take p).map fun q => q.1.recs.length).sum + j]? = some r ∧
          r = { L.reg_of_bytes d.bytes with
                p := if opt.cigar then mm_extra_ptr.heap d.blob else mm_extra_ptr.null,
                rid := remap_rid (L.reg_of_bytes d.bytes).rid (cum_n_seq.getD p 0) } ∧
          (-2147483648 ≤ (L.reg_of_bytes d.bytes).rid →
            (L.reg_of_bytes d.bytes).rid + cum_n_seq.getD p 0 < 2147483648 →
            r.rid = (L.reg_of_bytes d.bytes).rid + cum_n_seq.getD p 0)) := by
  obtain ⟨st2, e, _, h2, h3, _⟩ := aggregate_spec L opt cum_n_seq st parts hsz hrecs hrep hinv
    hsum hfit
  refine ⟨st2, e, h2, h3, ?_⟩
  intro p j b d hp hj
  have h3b : st2.reg.take ((parts.map fun q => q.1).map fun b => b.recs.length).sum
      = (stored_lists L opt.cigar cum_n_seq 0 (parts.map fun p => p.1)).flatten := by
    rw [List.map_map]
    exact h3
  have hi := aggregate_index L opt.cigar cum_n_seq (parts.map fun q => q.1) st2.reg h3b p j b d
    hp hj
  rw [← List.map_take, List.map_map] at hi
  refine ⟨_, hi, rfl, ?_⟩
  intro h0 h1
  exact remap_rid_eq _ _ h0 h1

/-- Claim C3 (amended) at two parts with one record each, offsets 0 and 3, and the
initial buffer. -/
theorem aggregation_within_capacity_witness :
    0 < sample_layout.sizeof_reg ∧
    (∀ p ∈ sample_blocks, ∀ d ∈ p.1.recs, rec_sized sample_layout sample_opt.cigar d) ∧
    (∀ p ∈ sample_blocks, -2147483648 ≤ p.1.replen ∧ p.1.replen < 2147483648) ∧
    (AggState.init 2).reg.length = (AggState.init 2).current_num_regs ∧
    (sample_blocks.map fun p => p.1.recs.length).sum < 2147483648 ∧
    fits (AggState.init 2).current_num_regs 0 (sample_blocks.map fun p => p.1.recs.length)
      = true ∧
    ∃ st2, aggregate sample_layout sample_opt [0, 3]
        (sample_blocks.map fun p => block_bytes sample_opt.cigar p.1 ++ p.2) (AggState.init 2)
        = .ok (st2, sample_blocks.map fun p => p.2) ∧
      st2.n_regs_sum = (((sample_blocks.map fun p => p.1.recs.length).sum : Nat) : Int) :=
  ⟨by decide, by decide, by decide, init_reg_length 2, by decide, by decide,
    (aggregation_within_capacity sample_layout sample_opt [0, 3] (AggState.init 2) sample_blocks
      (by decide) (by decide) (by decide) (init_reg_length 2) (by decide) (by decide)).imp
      fun _ h => ⟨h.1, h.2.1⟩⟩

/-- Claim C4 fails on the code: with the initial capacity 256 and `n_regs_sum = 0`, a
block of 257 records passes the check of lines 206-209 with the capacity still 256,
which is below `n_regs_sum + n_reg = 257`, and the loop of lines 212-232 then writes
outside the buffer. -/
theorem growth_check_fails :
    grow_capacity 256 0 257 = 256 ∧
    ¬ (0 + 257 ≤ grow_capacity 256 0 257) ∧
    aggregate sample_layout sample_opt [0]
      [block_bytes sample_opt.cigar ⟨0, List.replicate 257 small_rec⟩ ++ []] (AggState.init 1)
      = .error Fault.out_of_bounds := by
  refine ⟨by decide, by decide, ?_⟩
  apply first_block_overflow sample_layout sample_opt [0] (AggState.init 1)
    ⟨0, List.replicate 257 small_rec⟩ [] [] (by decide) ?_ (init_reg_length 1)
  · show 256 < (List.replicate 257 small_rec).length
    rw [List.length_replicate]
    decide
  · show (List.replicate 257 small_rec).length < 2147483648
    rw [List.length_replicate]
    decide
  · intro d hd
    rw [List.eq_of_mem_replicate hd]
    decide


/-! ## The range of global ids (claim C7) -/

theorem sum_take_succ_le (ns : List Nat) :
    ∀ (p q n : Nat), ns[p]? = some n → p < q → (ns.take p).sum + n ≤ (ns.take q).sum := by
  induction ns with
  | nil => intro p q n h; simp at h
  | cons a t ih =>
    intro p q n h hpq
    cases q with
    | zero => omega
    | succ q =>
      cases p with
      | zero =>
        simp only [List.getElem?_cons_zero, Option.some.injEq] at h
        subst h
        simp
      | succ p =>
        simp only [List.getElem?_cons_succ] at h
        have := ih p q n h (by omega)
        simp only [List.take_succ_cons, List.sum_cons]
        omega

theorem sum_take_le_total (ns : List Nat) (p n : Nat) (h : ns[p]? = some n) :
    (ns.take p).sum + n ≤ ns.sum := by
  have hp : p < ns.length := by
    by_contra hc
    rw [List.getElem?_eq_none (by omega)] at h
    exact absurd h (by simp)
  have := sum_take_succ_le ns p ns.length n h hp
  rwa [List.take_length] at this

/-- Claim C7, as stated, fails: when part 0 holds 2147483648 entries and part 1 one
entry (2147483649 entries in all, which fits the 32-bit count), the offset of part 1
is 2147483648 and its candidate with on-disk local id 0, a valid local id, is stored
with `rid = -2147483648`: below the offset of the part and below 0. -/
theorem global_id_overflow :
    ∃ c, load_catalog
        ([(List.replicate 2147483648 (⟨[65], 100⟩ : mm_idx_seq_t), ([] : Stream)),
          ([⟨[66], 200⟩], [])].map fun p => header_bytes p.1 ++ p.2) = .ok c ∧
      c.cum_n_seq.getD 1 0 = 2147483648 ∧
      (sample_layout.reg_of_bytes small_rec.bytes).rid = 0 ∧
      (stored_reg sample_layout false (c.cum_n_seq.getD 1 0) small_rec).rid = -2147483648 := by
  have h := load_catalog_spec
    [(List.replicate 2147483648 (⟨[65], 100⟩ : mm_idx_seq_t), ([] : Stream)),
      ([⟨[66], 200⟩], [])]
    (by
      intro p hp e he
      simp only [List.mem_cons, List.mem_singleton, List.not_mem_nil, or_false] at hp
      rcases hp with rfl | rfl
      · rw [List.eq_of_mem_replicate he]
        decide
      · simp only [List.mem_singleton] at he
        subst he
        decide)
    (by
      simp only [List.map_cons, List.map_nil, List.length_replicate, List.sum_cons,
        List.sum_nil, List.length_cons, List.length_nil]
      decide)
  refine ⟨_, h, ?_, by decide, ?_⟩
  · simp only [List.map_cons, List.map_nil, List.length_replicate, List.length_cons,
      List.length_nil]
    decide
  · simp only [List.map_cons, List.map_nil, List.length_replicate, List.length_cons,
      List.length_nil]
    decide

theorem getElem?_map_length {α β : Type} (parts : List (List α × β)) (p : Nat) (h : List α)
    (hp : (parts.map fun q => q.1)[p]? = some h) :
    (parts.map fun q => q.1.length)[p]? = some h.length ∧ p < parts.length := by
  have hlt : p < parts.length := by
    by_contra hc
    rw [List.getElem?_eq_none (by simpa using hc)] at hp
    exact absurd hp (by simp)
  refine ⟨?_, hlt⟩
  rw [List.getElem?_map] at hp ⊢
  cases hq : parts[p]? with
  | none => rw [hq] at hp; simp at hp
  | some x =>
    rw [hq] at hp
    simp only [Option.map_some', Option.some.injEq] at hp ⊢
    rw [hp]

theorem cum_getD (ns : List Nat) (p : Nat) (hlt : p < ns.length) :
    ((List.range ns.length).map fun p => (ns.take p).sum).getD p 0 = (ns.take p).sum := by
  simp [List.getD_eq_getElem?_getD, hlt]

/-- Claim C7 (amended): provided the global catalog has at most 2^31 entries, every
candidate read from part `p` whose on-disk local id `i` satisfies `0 <= i < n_seq[p]`
is stored with `rid` in `[cum_n_seq[p], cum_n_seq[p] + n_seq[p])`, hence in
`[0, size of the catalog)`; and two candidates with different (part, local id) pairs
are stored with different `rid`. -/
theorem global_id_range (L : Layout) (cigar : Bool) (parts : List (List mm_idx_seq_t × Stream))
    (hes : ∀ p ∈ parts, ∀ e ∈ p.1, e.name.length ≤ 255 ∧ e.len < 4294967296)
    (htot : (parts.map fun p => p.1.length).sum ≤ 2147483648) :
    ∃ c, load_catalog (parts.map fun p => header_bytes p.1 ++ p.2) = .ok c ∧
      (∀ p h d, (parts.map fun q => q.1)[p]? = some h →
        0 ≤ (L.reg_of_bytes d.bytes).rid → (L.reg_of_bytes d.bytes).rid < h.length →
        (c.cum_n_seq.getD p 0 : Int) ≤ (stored_reg L cigar (c.cum_n_seq.getD p 0) d).rid ∧
        (stored_reg L cigar (c.cum_n_seq.getD p 0) d).rid < c.cum_n_seq.getD p 0 + h.length ∧
        0 ≤ (stored_reg L cigar (c.cum_n_seq.getD p 0) d).rid ∧
        (stored_reg L cigar (c.cum_n_seq.getD p 0) d).rid < c.mi.seq.length) ∧
      (∀ p q h g d e, (parts.map fun x => x.1)[p]? = some h →
        (parts.map fun x => x.1)[q]? = some g →
        0 ≤ (L.reg_of_bytes d.bytes).rid → (L.reg_of_bytes d.bytes).rid < h.length →
        0 ≤ (L.reg_of_bytes e.bytes).rid → (L.reg_of_bytes e.bytes).rid < g.length →
        (p, (L.reg_of_bytes d.bytes).rid) ≠ (q, (L.reg_of_bytes e.bytes).rid) →
        (stored_reg L cigar (c.cum_n_seq.getD p 0) d).rid
          ≠ (stored_reg L cigar (c.cum_n_seq.getD q 0) e).rid) := by
  refine ⟨_, load_catalog_spec parts hes (by omega), ?_, ?_⟩
  all_goals simp only [stored_reg]
  · intro p h d hp h0 h1
    obtain ⟨hp2, hlt⟩ := getElem?_map_length parts p h hp
    have hle := sum_take_le_total _ p _ hp2
    have hcum := cum_getD (parts.map fun p => p.1.length) p (by simpa using hlt)
    rw [List.length_map] at hcum
    rw [hcum, remap_rid_eq _ _ (by omega) (by omega)]
    simp only [List.length_flatten, List.map_map, Function.comp_def]
    omega
  · intro p q h g d e hp hq d0 d1 e0 e1 hne
    obtain ⟨hp2, hplt⟩ := getElem?_map_length parts p h hp
    obtain ⟨hq2, hqlt⟩ := getElem?_map_length parts q g hq
    have hple := sum_take_le_total _ p _ hp2
    have hqle := sum_take_le_total _ q _ hq2
    have hpc := cum_getD (parts.map fun p => p.1.length) p (by simpa using hplt)
    have hqc := cum_getD (parts.map fun p => p.1.length) q (by simpa using hqlt)
    rw [List.length_map] at hpc hqc
    rw [hpc, hqc, remap_rid_eq _ _ (by omega) (by omega), remap_rid_eq _ _ (by omega) (by omega)]
    rcases Nat.lt_trichotomy p q with hlt | heq | hgt
    · have := sum_take_succ_le _ p q _ hp2 hlt
      omega
    · subst heq
      intro hc
      apply hne
      have : (L.reg_of_bytes d.bytes).rid = (L.reg_of_bytes e.bytes).rid := by omega
      rw [this]
    · have := sum_take_succ_le _ q p _ hq2 hgt
      omega

/-- Claim C7 (amended) at the two parts A:100, B:200, C:300 and D:50, E:60. -/
theorem global_id_range_witness :
    (∀ p ∈ sample_parts, ∀ e ∈ p.1, e.name.length ≤ 255 ∧ e.len < 4294967296) ∧
    (sample_parts.map fun p => p.1.length).sum ≤ 2147483648 ∧
    ∃ c, load_catalog (sample_parts.map fun p => header_bytes p.1 ++ p.2) = .ok c ∧
      ∀ p h d, (sample_parts.map fun q => q.1)[p]? = some h →
        0 ≤ (sample_layout.reg_of_bytes d.bytes).rid →
        (sample_layout.reg_of_bytes d.bytes).rid < h.length →
        (c.cum_n_seq.getD p 0 : Int)
          ≤ (stored_reg sample_layout false (c.cum_n_seq.getD p 0) d).rid ∧
        (stored_reg sample_layout false (c.cum_n_seq.getD p 0) d).rid
          < c.cum_n_seq.getD p 0 + h.length ∧
        0 ≤ (stored_reg sample_layout false (c.cum_n_seq.getD p 0) d).rid ∧
        (stored_reg sample_layout false (c.cum_n_seq.getD p 0) d).rid < c.mi.seq.length :=
  ⟨by decide, by decide,
    (global_id_range sample_layout false sample_parts (by decide) (by decide)).imp
      fun _ h => ⟨h.1, h.2.1⟩⟩

/-! ## Ranking and the primary invariant (claim C8) -/

theorem map_getD_range_take {α : Type} (l : List α) (d : α) (n : Nat) (h : n ≤ l.length) :
    (List.range n).map (fun i => l.getD i d) = l.take n := by
  apply List.ext_getElem
  · simp [h]
  · intro i h1 h2
    simp only [List.length_map, List.length_range] at h1
    simp [List.getElem_take, show i < l.length by omega]

theorem sort_by_score_fst (n : Int) (reg : List mm_reg1_t) :
    (mm_hit_sort_by_score n reg).1 = n := by
  unfold mm_hit_sort_by_score
  split
  · rfl
  · simp only [radix_sort_length, sort_aux_length]
    omega

theorem sort_by_score_mem (n : Int) (reg : List mm_reg1_t) (hn : n ≤ reg.length) :
    ∀ r ∈ (mm_hit_sort_by_score n reg).2.take n.toNat, r ∈ reg.take n.toNat := by
  intro r hr
  unfold mm_hit_sort_by_score at hr
  split at hr
  · exact hr
  · simp only [radix_sort_length, sort_aux_length] at hr
    rw [List.take_left' (by simp [radix_sort_length, sort_aux_length])] at hr
    simp only [List.mem_map, List.mem_reverse] at hr
    obtain ⟨a, ha, rfl⟩ := hr
    have hy := (mem_sort_aux ((radix_sort_perm _).mem_iff.mp ha)).1
    have hlt : a.y < reg.length := by omega
    rw [List.getD_eq_getElem _ _ hlt]
    rw [List.mem_take_iff_getElem]
    exact ⟨a.y, by omega, rfl⟩

theorem mem_take_of_map_eq {α β : Type} (f : α → β) (l1 l2 : List α) (k : Nat)
    (h : l1.map f = l2.map f) : ∀ r ∈ l1.take k, ∃ s ∈ l2.take k, f s = f r := by
  intro r hr
  have h2 : (l1.take k).map f = (l2.take k).map f := by
    rw [List.map_take, List.map_take, h]
  have : f r ∈ (l2.take k).map f := by
    rw [← h2]
    exact List.mem_map_of_mem f hr
  obtain ⟨s, hs, e⟩ := List.mem_map.mp this
  exact ⟨s, hs, e⟩

theorem emit_regs_no_fault (opt : mm_mapopt_t) (rs : List mm_reg1_t)
    (h : ∀ r ∈ rs, r.sam_pri = true → r.id = r.parent) :
    ∀ j : Nat, (emit_regs opt rs j).2 = none := by
  induction rs with
  | nil => intro j; rfl
  | cons r rs ih =>
    intro j
    have hr := h r (List.mem_cons_self _ _)
    have hrs := ih (fun x hx => h x (List.mem_cons_of_mem _ hx))
    unfold emit_regs
    rw [if_neg (by intro hc; exact hc.2 (hr hc.1))]
    split
    · exact hrs (j + 1)
    · exact hrs (j + 1)

theorem emit_query_no_fault (opt : mm_mapopt_t) (n : Int) (reg : List mm_reg1_t)
    (h : ∀ r ∈ reg.take n.toNat, r.sam_pri = true → r.id = r.parent) :
    (emit_query opt n reg).2 = none := by
  unfold emit_query
  simp only [emit_regs_no_fault opt _ h 0]

theorem merge_regs_invariant (C : Collab) (opt : mm_mapopt_t) (mi : mm_idx_t) (n : Int)
    (reg : List mm_reg1_t) (hn : n ≤ reg.length)
    (hpri : sam_pri_contract C) (hdp : sort_by_dp_contract C)
    (hdisk : opt.all_chains = true →
      ∀ r ∈ reg.take n.toNat, r.sam_pri = true → r.id = r.parent) :
    ∀ r ∈ (merge_regs C opt mi n reg).2.take (merge_regs C opt mi n reg).1.toNat,
      r.sam_pri = true → r.id = r.parent := by
  cases hac : opt.all_chains with
  | false =>
    intro r hr
    simp only [merge_regs, hac, Bool.not_false, if_true] at hr
    exact hpri _ _ r hr
  | true =>
    intro r hr
    simp only [merge_regs, hac, Bool.not_true, Bool.false_eq_true, if_false] at hr
    apply hdisk hac r
    cases hc : opt.cigar with
    | true =>
      rw [hc] at hr
      exact hdp n reg r hr
    | false =>
      rw [hc] at hr
      simp only [Bool.false_eq_true, if_false] at hr
      rw [sort_by_score_fst n reg] at hr
      exact sort_by_score_mem n reg hn r hr

theorem rank_query_invariant (C : Collab) (opt : mm_mapopt_t) (mi : mm_idx_t)
    (num_idx_parts : Int) (st : AggState) (rep_len : Int)
    (hmax : maximum st.replens num_idx_parts = .ok rep_len)
    (hn : st.n_regs_sum ≤ st.reg.length)
    (hpri : sam_pri_contract C) (hmapq : mapq_contract C) (hdp : sort_by_dp_contract C)
    (hdisk : opt.all_chains = true →
      ∀ r ∈ st.reg.take st.n_regs_sum.toNat, r.sam_pri = true → r.id = r.parent) :
    ∃ q, rank_query C opt mi num_idx_parts st = .ok q ∧
      ∀ r ∈ ranked_list q, r.sam_pri = true → r.id = r.parent := by
  refine ⟨_, by rw [rank_query, hmax], ?_⟩
  intro r hr hp
  simp only [ranked_list] at hr
  obtain ⟨s, hs, e⟩ := mem_take_of_map_eq (fun r : mm_reg1_t => { r with mapq := 0 }) _ _ _
    (hmapq opt (merge_regs C opt mi st.n_regs_sum st.reg).1
      (merge_regs C opt mi st.n_regs_sum st.reg).2 rep_len opt.sr) r hr
  have hinv := merge_regs_invariant C opt mi st.n_regs_sum st.reg hn hpri hdp hdisk s hs
  have e1 := congrArg mm_reg1_t.id e
  have e2 := congrArg mm_reg1_t.parent e
  have e3 := congrArg mm_reg1_t.sam_pri e
  simp only at e1 e2 e3
  rw [← e1, ← e2]
  exact hinv (by rw [e3]; exact hp)

theorem sample_set_sam_pri_ok (rs : List mm_reg1_t) :
    ∀ seen : Bool, ∀ r ∈ sample_set_sam_pri rs seen, r.sam_pri = true → r.id = r.parent := by
  induction rs with
  | nil => intro seen r hr; simp [sample_set_sam_pri] at hr
  | cons x rs ih =>
    intro seen r hr hp
    unfold sample_set_sam_pri at hr
    split at hr
    · rename_i hx
      rcases List.mem_cons.mp hr with h | h
      · subst h
        exact hx
      · exact ih true r h hp
    · rcases List.mem_cons.mp hr with h | h
      · subst h
        simp at hp
      · exact ih seen r h hp

theorem sample_set_sam_pri_length (rs : List mm_reg1_t) :
    ∀ seen : Bool, (sample_set_sam_pri rs seen).length = rs.length := by
  induction rs with
  | nil => intro seen; rfl
  | cons x rs ih =>
    intro seen
    unfold sample_set_sam_pri
    split <;> simp [ih]

theorem sample_collab_sam_pri : sam_pri_contract sample_collab := by
  intro n regs r hr
  simp only [sample_collab] at hr
  rw [List.take_append_eq_append_take, sample_set_sam_pri_length, List.length_take] at hr
  have hdrop : (regs.drop n.toNat).take (n.toNat - min n.toNat regs.length) = [] := by
    by_cases hle : n.toNat ≤ regs.length
    · rw [Nat.min_eq_left hle, Nat.sub_self, List.take_zero]
    · rw [List.drop_of_length_le (by omega), List.take_nil]
  rw [hdrop, List.append_nil] at hr
  exact sample_set_sam_pri_ok _ false r (List.mem_of_mem_take hr)

theorem sample_collab_mapq : mapq_contract sample_collab := by
  intro opt n regs rep_len is_sr
  simp only [sample_collab, List.map_append, List.map_map]
  have hf : ((fun r : mm_reg1_t => { r with mapq := 0 }) ∘ fun r => { r with mapq := 60 })
      = fun r : mm_reg1_t => { r with mapq := 0 } := rfl
  rw [hf, ← List.map_append, List.take_append_drop]

theorem sample_collab_sort_by_dp : sort_by_dp_contract sample_collab := by
  intro n regs r hr
  exact hr


/-- Claim C8 (amended): when `maximum` returns and the collaborators meet their
contracts (`mm_set_sam_pri` leaves `sam_pri` only on records with `id == parent`,
`mm_set_mapq` changes only `mapq`, `mm_hit_sort_by_dp` only orders), `rank_query`
returns a ranked list in which every record with `sam_pri` set has `id == parent`, so
the assertion of line 249 does not fail, provided that in emit-all-chains mode, where
`merge_regs` skips `mm_set_parent`, `mm_select_sub` and `mm_set_sam_pri`, the
aggregated records as read from disk already satisfy it. -/
theorem primary_invariant (C : Collab) (opt : mm_mapopt_t) (mi : mm_idx_t)
    (num_idx_parts : Int) (st : AggState) (rep_len : Int)
    (hmax : maximum st.replens num_idx_parts = .ok rep_len)
    (hn : st.n_regs_sum ≤ st.reg.length)
    (hpri : sam_pri_contract C) (hmapq : mapq_contract C) (hdp : sort_by_dp_contract C)
    (hdisk : opt.all_chains = true →
      ∀ r ∈ st.reg.take st.n_regs_sum.toNat, r.sam_pri = true → r.id = r.parent) :
    ∃ q, rank_query C opt mi num_idx_parts st = .ok q ∧
      (∀ r ∈ ranked_list q, r.sam_pri = true → r.id = r.parent) ∧
      (emit_query opt q.1 q.2).2 = none := by
  obtain ⟨q, hq, hinv⟩ := rank_query_invariant C opt mi num_idx_parts st rep_len hmax hn hpri
    hmapq hdp hdisk
  exact ⟨q, hq, hinv, emit_query_no_fault opt q.1 q.2 hinv⟩

/-- Claim C8 (amended) at the sample collaborators and a state with two aggregated
records, emit-all-chains not set. -/
theorem primary_invariant_witness :
    maximum sample_state.replens 1 = .ok 4 ∧
    sample_state.n_regs_sum ≤ sample_state.reg.length ∧
    sam_pri_contract sample_collab ∧ mapq_contract sample_collab ∧
    sort_by_dp_contract sample_collab ∧
    ∃ q, rank_query sample_collab sample_opt sample_idx 1 sample_state = .ok q ∧
      (∀ r ∈ ranked_list q, r.sam_pri = true → r.id = r.parent) ∧
      (emit_query sample_opt q.1 q.2).2 = none :=
  ⟨by decide, by decide, sample_collab_sam_pri, sample_collab_mapq, sample_collab_sort_by_dp,
    primary_invariant sample_collab sample_opt sample_idx 1 sample_state 4 (by decide)
      (by decide) sample_collab_sam_pri sample_collab_mapq sample_collab_sort_by_dp
      (fun h => absurd h (by decide))⟩

/-- Claim C8, as stated, fails in emit-all-chains mode: a dump file whose record has
`sam_pri` set, `id = 0` and `parent = 1` is aggregated and ranked without
`mm_set_sam_pri`; the ranked list holds that record and the assertion of line 249
fails on it (the collaborators used meet their contracts). -/
theorem primary_invariant_all_chains_fails :
    sam_pri_contract sample_collab ∧ mapq_contract sample_collab ∧
    sort_by_dp_contract sample_collab ∧
    ∃ st2 q r, aggregate sample_layout sample_opt_all_chains [0]
        [block_bytes false ⟨0, [pri_rec]⟩ ++ []] (AggState.init 1) = .ok (st2, [[]]) ∧
      rank_query sample_collab sample_opt_all_chains sample_idx 1 st2 = .ok q ∧
      ranked_list q = [r] ∧ r.sam_pri = true ∧ r.id ≠ r.parent ∧
      emit_query sample_opt_all_chains q.1 q.2 = ([], some Fault.assertion) := by
  refine ⟨sample_collab_sam_pri, sample_collab_mapq, sample_collab_sort_by_dp, ?_⟩
  obtain ⟨st2, e, _, h2, h3, h4, h5, _⟩ := aggregate_spec sample_layout sample_opt_all_chains [0]
    (AggState.init 1) [(⟨0, [pri_rec]⟩, [])] (by decide) (by decide) (by decide)
    (init_reg_length 1) (by decide) (by decide)
  have hrep : st2.replens[0]? = some 0 := h5 0 ⟨0, [pri_rec]⟩ rfl (by decide)
  have hmax : maximum st2.replens 1 = .ok 0 := by
    simp [maximum, hrep, maximum_loop]
  have hn : st2.n_regs_sum = 1 := by
    rw [h2]; rfl
  have htake : st2.reg.take 1 = [stored_reg sample_layout false 0 pri_rec] := by
    have := h3
    simpa [stored_lists] using this
  have hm : merge_regs sample_collab sample_opt_all_chains sample_idx st2.n_regs_sum st2.reg
      = (1, st2.reg) := by
    rw [hn]
    rfl
  have hq : rank_query sample_collab sample_opt_all_chains sample_idx 1 st2
      = .ok (1, (st2.reg.take 1).map (fun r => { r with mapq := 60 }) ++ st2.reg.drop 1) := by
    rw [rank_query, hmax]
    simp only [hm]
    rfl
  have hranked : ranked_list
      ((1 : Int), (st2.reg.take 1).map (fun r => { r with mapq := 60 }) ++ st2.reg.drop 1)
      = [{ stored_reg sample_layout false 0 pri_rec with mapq := 60 }] := by
    simp only [ranked_list, htake, List.map_cons, List.map_nil]
    rfl
  refine ⟨st2, _, _, ?_, hq, hranked, by decide, by decide, ?_⟩
  · simpa using e
  · have := hranked
    simp only [ranked_list] at this
    simp only [emit_query, this]
    rfl


/-! ## Emission and the placeholder record (claim C10) -/

theorem emit_regs_no_unmapped (opt : mm_mapopt_t) (rs : List mm_reg1_t) :
    ∀ j : Nat, Line.sam_unmapped ∉ (emit_regs opt rs j).1 := by
  induction rs with
  | nil => intro j; simp [emit_regs]
  | cons r rs ih =>
    intro j
    unfold emit_regs
    split
    · simp
    · split
      · exact ih (j + 1)
      · simp only [List.mem_cons, not_or]
        refine ⟨?_, ih (j + 1)⟩
        split <;> simp

theorem emit_regs_all_dropped (opt : mm_mapopt_t) (h2 : opt.no_print_2nd = true)
    (rs : List mm_reg1_t) (hrs : ∀ r ∈ rs, r.id ≠ r.parent ∧ r.sam_pri = false) :
    ∀ j : Nat, emit_regs opt rs j = ([], none) := by
  induction rs with
  | nil => intro j; rfl
  | cons r rs ih =>
    intro j
    obtain ⟨h1, h3⟩ := hrs r (List.mem_cons_self _ _)
    unfold emit_regs
    rw [if_neg (by simp [h3]), if_pos ⟨h2, h1⟩]
    exact ih (fun x hx => hrs x (List.mem_cons_of_mem _ hx)) (j + 1)

/-- Claim C10, as stated, fails: with SAM output and suppress-secondary set, a ranked
list whose only record is dropped by secondary suppression yields no line at all: no
record and no placeholder. -/
theorem no_placeholder_after_suppression :
    secondary_reg.id ≠ secondary_reg.parent ∧
    sample_opt_sam_no2nd.out_sam = true ∧ sample_opt_sam_no2nd.no_print_2nd = true ∧
    emit_query sample_opt_sam_no2nd 1 [secondary_reg] = ([], none) := by
  decide

/-- Claim C10 (amended): when the ranked list is empty (`n_regs_sum == 0`),
`mm_multi_merge` emits exactly one placeholder record if SAM output is active and
nothing if it is not; when the ranked list is not empty no placeholder is emitted,
also when every record of it is dropped by secondary suppression, in which case
nothing at all is emitted for the query. -/
theorem unmapped_handling (opt : mm_mapopt_t) (n_regs_sum : Int) (reg : List mm_reg1_t) :
    (n_regs_sum = 0 →
      emit_query opt n_regs_sum reg
        = (if opt.out_sam then [Line.sam_unmapped] else [], none)) ∧
    (n_regs_sum ≠ 0 → Line.sam_unmapped ∉ (emit_query opt n_regs_sum reg).1) ∧
    (n_regs_sum ≠ 0 → opt.no_print_2nd = true →
      (∀ r ∈ reg.take n_regs_sum.toNat, r.id ≠ r.parent ∧ r.sam_pri = false) →
      emit_query opt n_regs_sum reg = ([], none)) := by
  refine ⟨?_, ?_, ?_⟩
  · intro h
    subst h
    cases ho : opt.out_sam <;> simp [emit_query, emit_regs, ho]
  · intro h
    have := emit_regs_no_unmapped opt (reg.take n_regs_sum.toNat) 0
    have key : (emit_query opt n_regs_sum reg).1
        = (emit_regs opt (reg.take n_regs_sum.toNat) 0).1 := by
      unfold emit_query
      simp only [h, false_and, if_false, List.append_nil]
      split <;> rfl
    rw [key]
    exact this
  · intro h h2 hall
    unfold emit_query
    rw [emit_regs_all_dropped opt h2 _ hall 0]
    simp [h]

/-- Claim C10 (amended) at a ranked list of one secondary record, with SAM output and
suppress-secondary set. -/
theorem unmapped_handling_witness :
    (1 : Int) ≠ 0 ∧ sample_opt_sam_no2nd.no_print_2nd = true ∧
    (∀ r ∈ [secondary_reg].take (1 : Int).toNat, r.id ≠ r.parent ∧ r.sam_pri = false) ∧
    emit_query sample_opt_sam_no2nd 0 [secondary_reg] = ([Line.sam_unmapped], none) ∧
    emit_query sample_opt_sam_no2nd 1 [secondary_reg] = ([], none) :=
  ⟨by decide, by decide, by decide,
    (unmapped_handling sample_opt_sam_no2nd 0 [secondary_reg]).1 rfl,
    (unmapped_handling sample_opt_sam_no2nd 1 [secondary_reg]).2.2 (by decide) (by decide)
      (by decide)⟩


/-! ## Secondary suppression (claim C11) -/

theorem emit_regs_records (opt : mm_mapopt_t) (rs : List mm_reg1_t) :
    ∀ j : Nat, (emit_regs opt rs j).1.filterMap Line.reg
        = (rs.takeWhile asserted).filter (printed opt) ∧
      (emit_regs opt rs j).2 = if rs.all asserted = true then none else some Fault.assertion := by
  induction rs with
  | nil => intro j; simp [emit_regs]
  | cons r rs ih =>
    intro j
    obtain ⟨ih1, ih2⟩ := ih (j + 1)
    unfold emit_regs
    by_cases h1 : r.sam_pri = true ∧ r.id ≠ r.parent
    · have ha : asserted r = false := by simp [asserted, h1]
      rw [if_pos h1]
      simp [List.takeWhile_cons, ha]
    · have ha : asserted r = true := by simp only [asserted, h1, not_false_eq_true, decide_True]
      rw [if_neg h1]
      by_cases h2 : opt.no_print_2nd = true ∧ r.id ≠ r.parent
      · have hp : printed opt r = false := by simp [printed, h2]
        rw [if_pos h2, ih1, ih2]
        simp [List.takeWhile_cons, ha, hp]
      · have hp : printed opt r = true := by
          simp only [printed, h2, not_false_eq_true, decide_True]
        rw [if_neg h2]
        simp only [ih2, List.takeWhile_cons, ha, if_true, List.filter_cons, hp, List.all_cons,
          Bool.true_and]
        constructor
        · cases opt.out_sam <;> simp [Line.reg, ih1]
        · trivial

theorem emit_query_records (opt : mm_mapopt_t) (n : Int) (reg : List mm_reg1_t) :
    (emit_query opt n reg).1.filterMap Line.reg
        = ((reg.take n.toNat).takeWhile asserted).filter (printed opt) ∧
      (emit_query opt n reg).2
        = if (reg.take n.toNat).all asserted = true then none else some Fault.assertion := by
  obtain ⟨h1, h2⟩ := emit_regs_records opt (reg.take n.toNat) 0
  unfold emit_query
  by_cases ha : (reg.take n.toNat).all asserted = true
  · rw [if_pos ha] at h2
    simp only [h2, if_pos ha, List.filterMap_append, h1]
    split <;> simp [Line.reg]
  · rw [if_neg ha] at h2
    simp only [h2, if_neg ha, h1, and_self]

theorem takeWhile_all {α : Type} (p : α → Bool) (l : List α) (h : l.all p = true) :
    l.takeWhile p = l := by
  rw [List.takeWhile_eq_self_iff]
  intro a ha
  exact List.all_eq_true.mp h a ha

/-- Claim C11, as stated, fails: without suppress-secondary, the ranked list of one
record that has `sam_pri` set and is not its own parent (emit-all-chains mode, where
`merge_regs` does not run `mm_set_sam_pri`) is not emitted: the assertion of line 249
ends the run in front of the output of the record. -/
theorem ranked_record_not_emitted :
    sample_opt_all_chains.no_print_2nd = false ∧
    rank_query sample_collab sample_opt_all_chains sample_idx 1 pri_state
      = .ok (1, [{ pri_reg with mapq := 60 }]) ∧
    ranked_list ((1 : Int), [{ pri_reg with mapq := 60 }]) = [{ pri_reg with mapq := 60 }] ∧
    emit_query sample_opt_all_chains 1 [{ pri_reg with mapq := 60 }]
      = ([], some Fault.assertion) := by
  decide

/-- Claim C11 (amended): `mm_set_mapq` is applied in front of the emission loop and to
the whole ranked list (the count and the buffer that `merge_regs` returns).  The
records emitted are, in ranked order, the records that the test of line 251 lets
through (with suppress-secondary the records with `id == parent`, without it all
records) among the records in front of the first one on which the assertion of line
249 fails; when the assertion holds on every record of the ranked list these are all
records of the list that the test lets through, and the loop ends normally. -/
theorem secondary_suppression (C : Collab) (opt : mm_mapopt_t) (mi : mm_idx_t)
    (num_idx_parts : Int) (st : AggState) (q : Int × List mm_reg1_t)
    (hq : rank_query C opt mi num_idx_parts st = .ok q) :
    (∃ rep_len, maximum st.replens num_idx_parts = .ok rep_len ∧
      q.1 = (merge_regs C opt mi st.n_regs_sum st.reg).1 ∧
      q.2 = C.mm_set_mapq opt (merge_regs C opt mi st.n_regs_sum st.reg).1
        (merge_regs C opt mi st.n_regs_sum st.reg).2 rep_len opt.sr) ∧
    (emit_query opt q.1 q.2).1.filterMap Line.reg
      = ((ranked_list q).takeWhile asserted).filter (printed opt) ∧
    (emit_query opt q.1 q.2).2
      = (if (ranked_list q).all asserted = true then none else some Fault.assertion) ∧
    ((∀ r ∈ ranked_list q, r.sam_pri = true → r.id = r.parent) →
      (emit_query opt q.1 q.2).2 = none ∧
      (emit_query opt q.1 q.2).1.filterMap Line.reg
        = if opt.no_print_2nd = true then (ranked_list q).filter (fun r => decide (r.id = r.parent))
          else ranked_list q) := by
  obtain ⟨h1, h2⟩ := emit_query_records opt q.1 q.2
  refine ⟨?_, h1, h2, ?_⟩
  · unfold rank_query at hq
    split at hq
    · exact absurd hq (by simp)
    · rename_i rep_len hmax
      simp only [Except.ok.injEq] at hq
      exact ⟨rep_len, hmax, by rw [← hq], by rw [← hq]⟩
  · intro hall
    have ha : (ranked_list q).all asserted = true := by
      rw [List.all_eq_true]
      intro r hr
      have := hall r hr
      simp only [asserted, decide_eq_true_eq, not_and, not_not]
      exact this
    have ha2 : (List.take q.1.toNat q.2).all asserted = true := ha
    rw [h2, h1, if_pos ha2]
    refine ⟨rfl, ?_⟩
    have ht : (List.take q.1.toNat q.2).takeWhile asserted = ranked_list q :=
      takeWhile_all _ _ ha2
    rw [ht]
    cases hn : opt.no_print_2nd with
    | false =>
      simp only [Bool.false_eq_true, if_false]
      rw [List.filter_eq_self]
      intro r _
      simp [printed, hn]
    | true =>
      simp only [if_true]
      apply List.filter_congr
      intro r _
      simp [printed, hn]

/-- Claim C11 (amended) at the sample state of two records, with suppress-secondary
set: both records are their own parents behind `mm_set_parent`, both are emitted. -/
theorem secondary_suppression_witness :
    rank_query sample_collab sample_opt_sam_no2nd sample_idx 1 sample_state
      = .ok (2, [{ tie_b with parent := 1, sam_pri := true, mapq := 60 },
                 { tie_a with mapq := 60 }]) ∧
    (emit_query sample_opt_sam_no2nd 2 [{ tie_b with parent := 1, sam_pri := true, mapq := 60 },
        { tie_a with mapq := 60 }]).1.filterMap Line.reg
      = [{ tie_b with parent := 1, sam_pri := true, mapq := 60 }, { tie_a with mapq := 60 }] :=
  ⟨by decide,
    ((secondary_suppression sample_collab sample_opt_sam_no2nd sample_idx 1 sample_state
      (2, [{ tie_b with parent := 1, sam_pri := true, mapq := 60 }, { tie_a with mapq := 60 }])
      (by decide)).2.2.2 (by decide)).2⟩

/-! ## Short reads (claim C12) -/

theorem multipart_read_error {fp : Stream} {sz n : Nat} {e : Fault}
    (h : multipart_read fp sz n = .error e) : e = Fault.exit_failure := by
  unfold multipart_read at h
  split at h
  · simp only [Except.error.injEq] at h
    exact h.symm
  · exact absurd h (by simp)

theorem fread_ret_full {fp : Stream} {sz n : Nat} (h : fread_ret fp sz n = n) (ext : Stream) :
    sz * n ≤ fp.length ∧ fread_ret (fp ++ ext) sz n = n := by
  unfold fread_ret at h ⊢
  by_cases h0 : sz = 0 ∨ n = 0
  · rw [if_pos h0] at h
    rw [if_pos h0]
    subst h
    simp
  · rw [if_neg h0] at h
    rw [if_neg h0]
    have hs : 0 < sz := by omega
    have h1 : n ≤ fp.length / sz := by omega
    have h2 : n * sz ≤ fp.length := (Nat.le_div_iff_mul_le hs).mp h1
    have h3 : n ≤ (fp ++ ext).length / sz := by
      rw [Nat.le_div_iff_mul_le hs, List.length_append]
      omega
    constructor
    · rw [Nat.mul_comm]; exact h2
    · omega

theorem multipart_read_ok {fp : Stream} {sz n : Nat} {a r : List Nat}
    (h : multipart_read fp sz n = .ok (a, r)) :
    fread_ret fp sz n = n ∧ a = fp.take (sz * n) ∧ r = fp.drop (sz * n) := by
  unfold multipart_read at h
  split at h
  · exact absurd h (by simp)
  · rename_i hret
    simp only [Except.ok.injEq, Prod.mk.injEq] at h
    exact ⟨by simpa using hret, h.1.symm, h.2.symm⟩

/-- A read that succeeds on a stream succeeds on every stream that continues it, with
the same bytes read. -/
theorem multipart_read_frame {fp : Stream} {sz n : Nat} {a r : List Nat} (ext : Stream)
    (h : multipart_read fp sz n = .ok (a, r)) :
    multipart_read (fp ++ ext) sz n = .ok (a, r ++ ext) := by
  obtain ⟨hret, ha, hr⟩ := multipart_read_ok h
  obtain ⟨hle, hret2⟩ := fread_ret_full hret ext
  unfold multipart_read
  rw [if_neg (by simpa using hret2), List.take_append_of_le_length hle,
    List.drop_append_of_le_length hle, ha, hr]

theorem read_extra_err1 {L : Layout} {fp : Stream} {e : Fault}
    (h1 : multipart_read fp 4 1 = .error e) : read_extra L fp = .error e := by
  rw [read_extra, h1]

theorem read_extra_err2 {L : Layout} {fp fp1 : Stream} {cb : List Nat} {e : Fault}
    (h1 : multipart_read fp 4 1 = .ok (cb, fp1))
    (h2 : multipart_read fp1 (extra_size L (get_i32 cb)) 1 = .error e) :
    read_extra L fp = .error e := by
  rw [read_extra, h1]
  dsimp only
  rw [h2]

/-- The reads of lines 217-223 either meet the end of the stream, or give the same
result on every stream that continues this one. -/
theorem read_extra_frame (L : Layout) (fp ext : Stream) :
    read_extra L fp = .error Fault.exit_failure ∨
    ∃ p r w, read_extra L fp = .ok (p, r, w) ∧ read_extra L (fp ++ ext) = .ok (p, r ++ ext, w) := by
  cases h1 : multipart_read fp 4 1 with
  | error e =>
    left
    rw [read_extra_err1 h1, multipart_read_error h1]
  | ok x =>
    obtain ⟨cb, fp1⟩ := x
    cases h2 : multipart_read fp1 (extra_size L (get_i32 cb)) 1 with
    | error e =>
      left
      rw [read_extra_err2 h1 h2, multipart_read_error h2]
    | ok y =>
      obtain ⟨blob, fp2⟩ := y
      right
      exact ⟨_, _, _, read_extra_step h1 h2,
        read_extra_step (multipart_read_frame ext h1) (multipart_read_frame ext h2)⟩

theorem payload_frame (L : Layout) (cigar : Bool) (fp ext : Stream) :
    (if cigar then read_extra L fp else .ok (mm_extra_ptr.null, fp, false))
      = .error Fault.exit_failure ∨
    ∃ p r w, (if cigar then read_extra L fp else .ok (mm_extra_ptr.null, fp, false))
        = .ok (p, r, w) ∧
      (if cigar then read_extra L (fp ++ ext) else .ok (mm_extra_ptr.null, fp ++ ext, false))
        = .ok (p, r ++ ext, w) := by
  cases cigar with
  | false => exact Or.inr ⟨_, _, _, rfl, rfl⟩
  | true => simpa using read_extra_frame L fp ext

theorem read_regs_oob (L : Layout) (cigar : Bool) (cum : Nat) (n_regs_sum j : Int) (k : Nat)
    (fp : Stream) (reg : List mm_reg1_t) (log : List Diag)
    (h : n_regs_sum + j < 0 ∨ (reg.length : Int) ≤ n_regs_sum + j) :
    read_regs L cigar cum n_regs_sum (k + 1) j fp reg log = .error Fault.out_of_bounds := by
  rw [read_regs, if_pos h]

theorem read_regs_err1 {L : Layout} {cigar : Bool} {cum : Nat} {n_regs_sum j : Int} {k : Nat}
    {fp : Stream} {reg : List mm_reg1_t} {log : List Diag} {e : Fault}
    (hb : ¬ (n_regs_sum + j < 0 ∨ (reg.length : Int) ≤ n_regs_sum + j))
    (h1 : multipart_read fp L.sizeof_reg 1 = .error e) :
    read_regs L cigar cum n_regs_sum (k + 1) j fp reg log = .error e := by
  rw [read_regs, if_neg hb, h1]

theorem read_regs_err2 {L : Layout} {cigar : Bool} {cum : Nat} {n_regs_sum j : Int} {k : Nat}
    {fp fp1 : Stream} {rb : List Nat} {reg : List mm_reg1_t} {log : List Diag} {e : Fault}
    (hb : ¬ (n_regs_sum + j < 0 ∨ (reg.length : Int) ≤ n_regs_sum + j))
    (h1 : multipart_read fp L.sizeof_reg 1 = .ok (rb, fp1))
    (h2 : (if cigar then read_extra L fp1 else .ok (mm_extra_ptr.null, fp1, false))
      = .error e) :
    read_regs L cigar cum n_regs_sum (k + 1) j fp reg log = .error e := by
  rw [read_regs, if_neg hb, h1]
  dsimp only
  rw [h2]

/-- The loop of lines 212-232 either meets the end of the stream, or leaves the
buffer, or ends normally; in the last two cases it does the same on every stream that
continues this one. -/
theorem read_regs_frame (L : Layout) (cigar : Bool) (cum : Nat) (n_regs_sum : Int)
    (ext : Stream) :
    ∀ (k : Nat) (j : Int) (fp : Stream) (reg : List mm_reg1_t) (log : List Diag),
      read_regs L cigar cum n_regs_sum k j fp reg log = .error Fault.exit_failure ∨
      (read_regs L cigar cum n_regs_sum k j fp reg log = .error Fault.out_of_bounds ∧
        read_regs L cigar cum n_regs_sum k j (fp ++ ext) reg log = .error Fault.out_of_bounds) ∨
      ∃ r reg2 log2, read_regs L cigar cum n_regs_sum k j fp reg log = .ok (r, reg2, log2) ∧
        read_regs L cigar cum n_regs_sum k j (fp ++ ext) reg log = .ok (r ++ ext, reg2, log2) := by
  intro k
  induction k with
  | zero =>
    intro j fp reg log
    exact Or.inr (Or.inr ⟨fp, reg, log, rfl, rfl⟩)
  | succ k ih =>
    intro j fp reg log
    by_cases hb : n_regs_sum + j < 0 ∨ (reg.length : Int) ≤ n_regs_sum + j
    · exact Or.inr (Or.inl ⟨read_regs_oob _ _ _ _ _ _ _ _ _ hb, read_regs_oob _ _ _ _ _ _ _ _ _ hb⟩)
    · cases h1 : multipart_read fp L.sizeof_reg 1 with
      | error e =>
        left
        rw [read_regs_err1 hb h1, multipart_read_error h1]
      | ok x =>
        obtain ⟨rb, fp1⟩ := x
        rcases payload_frame L cigar fp1 ext with h2 | ⟨p, fp2, w, h2, h2e⟩
        · left
          exact read_regs_err2 hb h1 h2
        · have h0 : 0 ≤ n_regs_sum + j := by omega
          have hlt : n_regs_sum + j < reg.length := by omega
          rw [read_regs_step h0 hlt h1 h2,
            read_regs_step h0 hlt (multipart_read_frame ext h1) h2e]
          exact ih _ _ _ _

theorem read_block_err1 {L : Layout} {opt : mm_mapopt_t} {cum_n_seq : List Nat} {i : Nat}
    {st : AggState} {fp : Stream} {e : Fault}
    (h1 : multipart_read fp 4 1 = .error e) :
    read_block L opt cum_n_seq i st fp = .error e := by
  rw [read_block, h1]

theorem read_block_err2 {L : Layout} {opt : mm_mapopt_t} {cum_n_seq : List Nat} {i : Nat}
    {st : AggState} {fp fp1 : Stream} {nb : List Nat} {e : Fault}
    (h1 : multipart_read fp 4 1 = .ok (nb, fp1))
    (h2 : multipart_read fp1 4 1 = .error e) :
    read_block L opt cum_n_seq i st fp = .error e := by
  rw [read_block, h1]
  dsimp only
  rw [h2]

theorem read_block_err3 {L : Layout} {opt : mm_mapopt_t} {cum_n_seq : List Nat} {i : Nat}
    {st : AggState} {fp fp1 fp2 : Stream} {nb pb : List Nat} {e : Fault}
    (h1 : multipart_read fp 4 1 = .ok (nb, fp1))
    (h2 : multipart_read fp1 4 1 = .ok (pb, fp2))
    (h3 : read_regs L opt.cigar (cum_n_seq.getD i 0) st.n_regs_sum (get_i32 nb).toNat 0 fp2
          (grow_reg st.reg st.current_num_regs st.n_regs_sum (get_i32 nb)) st.log = .error e) :
    read_block L opt cum_n_seq i st fp = .error e := by
  rw [read_block, h1]
  dsimp only
  rw [h2]
  dsimp only
  rw [h3]

theorem read_block_ok {L : Layout} {opt : mm_mapopt_t} {cum_n_seq : List Nat} {i : Nat}
    {st : AggState} {fp fp1 fp2 fp3 : Stream} {nb pb : List Nat} {reg : List mm_reg1_t}
    {log : List Diag}
    (h1 : multipart_read fp 4 1 = .ok (nb, fp1))
    (h2 : multipart_read fp1 4 1 = .ok (pb, fp2))
    (h3 : read_regs L opt.cigar (cum_n_seq.getD i 0) st.n_regs_sum (get_i32 nb).toNat 0 fp2
          (grow_reg st.reg st.current_num_regs st.n_regs_sum (get_i32 nb)) st.log
            = .ok (fp3, reg, log)) :
    read_block L opt cum_n_seq i st fp =
      .ok ({ reg := reg,
             current_num_regs := grow_capacity st.current_num_regs st.n_regs_sum (get_i32 nb),
             replens := st.replens.set i (get_i32 pb),
             n_regs_sum := to_i32 (st.n_regs_sum + get_i32 nb), log := log }, fp3) := by
  rw [read_block, h1]
  dsimp only
  rw [h2]
  dsimp only
  rw [h3]

/-- The block of one part for one query (lines 200-235): either the end of the stream
is met, or the result is the same on every stream that continues this one. -/
theorem read_block_frame (L : Layout) (opt : mm_mapopt_t) (cum_n_seq : List Nat) (i : Nat)
    (st : AggState) (fp ext : Stream) :
    read_block L opt cum_n_seq i st fp = .error Fault.exit_failure ∨
    (read_block L opt cum_n_seq i st fp = .error Fault.out_of_bounds ∧
      read_block L opt cum_n_seq i st (fp ++ ext) = .error Fault.out_of_bounds) ∨
    ∃ st2 r, read_block L opt cum_n_seq i st fp = .ok (st2, r) ∧
      read_block L opt cum_n_seq i st (fp ++ ext) = .ok (st2, r ++ ext) := by
  cases h1 : multipart_read fp 4 1 with
  | error e =>
    left
    rw [read_block_err1 h1, multipart_read_error h1]
  | ok x =>
    obtain ⟨nb, fp1⟩ := x
    cases h2 : multipart_read fp1 4 1 with
    | error e =>
      left
      rw [read_block_err2 h1 h2, multipart_read_error h2]
    | ok y =>
      obtain ⟨pb, fp2⟩ := y
      have e1 := multipart_read_frame ext h1
      have e2 := multipart_read_frame ext h2
      rcases read_regs_frame L opt.cigar (cum_n_seq.getD i 0) st.n_regs_sum ext
          (get_i32 nb).toNat 0 fp2
          (grow_reg st.reg st.current_num_regs st.n_regs_sum (get_i32 nb)) st.log with
        h3 | ⟨h3, h3e⟩ | ⟨r, reg2, log2, h3, h3e⟩
      · left
        exact read_block_err3 h1 h2 h3
      · right; left
        exact ⟨read_block_err3 h1 h2 h3, read_block_err3 e1 e2 h3e⟩
      · right; right
        exact ⟨_, _, read_block_ok h1 h2 h3, read_block_ok e1 e2 h3e⟩

theorem aggregate_from_err1 {L : Layout} {opt : mm_mapopt_t} {cum_n_seq : List Nat} {i : Nat}
    {st : AggState} {fp : Stream} {fps : List Stream} {e : Fault}
    (h1 : read_block L opt cum_n_seq i st fp = .error e) :
    aggregate_from L opt cum_n_seq (fp :: fps) i st = .error e := by
  rw [aggregate_from, h1]

theorem aggregate_from_err2 {L : Layout} {opt : mm_mapopt_t} {cum_n_seq : List Nat} {i : Nat}
    {st st1 : AggState} {fp r : Stream} {fps : List Stream} {e : Fault}
    (h1 : read_block L opt cum_n_seq i st fp = .ok (st1, r))
    (h2 : aggregate_from L opt cum_n_seq fps (i + 1) st1 = .error e) :
    aggregate_from L opt cum_n_seq (fp :: fps) i st = .error e := by
  rw [aggregate_from, h1]
  dsimp only
  rw [h2]

theorem aggregate_from_ok {L : Layout} {opt : mm_mapopt_t} {cum_n_seq : List Nat} {i : Nat}
    {st st1 st2 : AggState} {fp r : Stream} {fps rs : List Stream}
    (h1 : read_block L opt cum_n_seq i st fp = .ok (st1, r))
    (h2 : aggregate_from L opt cum_n_seq fps (i + 1) st1 = .ok (st2, rs)) :
    aggregate_from L opt cum_n_seq (fp :: fps) i st = .ok (st2, r :: rs) := by
  rw [aggregate_from, h1]
  dsimp only
  rw [h2]

/-- The aggregation loop over the parts: either a short read ends the run, or the
result is the same on all streams that continue these. -/
theorem aggregate_from_frame (L : Layout) (opt : mm_mapopt_t) (cum_n_seq : List Nat) :
    ∀ (fs exts : List Stream) (i : Nat) (st : AggState), exts.length = fs.length →
      aggregate_from L opt cum_n_seq fs i st = .error Fault.exit_failure ∨
      (aggregate_from L opt cum_n_seq fs i st = .error Fault.out_of_bounds ∧
        aggregate_from L opt cum_n_seq (List.zipWith (fun fp ext => fp ++ ext) fs exts) i st
          = .error Fault.out_of_bounds) ∨
      ∃ st2 rs, aggregate_from L opt cum_n_seq fs i st = .ok (st2, rs) ∧
        rs.length = fs.length ∧
        aggregate_from L opt cum_n_seq (List.zipWith (fun fp ext => fp ++ ext) fs exts) i st
          = .ok (st2, List.zipWith (fun fp ext => fp ++ ext) rs exts) := by
  intro fs
  induction fs with
  | nil =>
    intro exts i st _
    exact Or.inr (Or.inr ⟨st, [], rfl, rfl, by simp [aggregate_from]⟩)
  | cons fp fps ih =>
    intro exts i st hlen
    cases exts with
    | nil => simp at hlen
    | cons ext exts =>
      simp only [List.length_cons, Nat.add_right_cancel_iff] at hlen
      simp only [List.zipWith_cons_cons]
      rcases read_block_frame L opt cum_n_seq i st fp ext with
        h1 | ⟨h1, h1e⟩ | ⟨st1, r, h1, h1e⟩
      · exact Or.inl (aggregate_from_err1 h1)
      · exact Or.inr (Or.inl ⟨aggregate_from_err1 h1, aggregate_from_err1 h1e⟩)
      · rcases ih exts (i + 1) st1 hlen with h2 | ⟨h2, h2e⟩ | ⟨st2, rs, h2, hl, h2e⟩
        · exact Or.inl (aggregate_from_err2 h1 h2)
        · exact Or.inr (Or.inl ⟨aggregate_from_err2 h1 h2, aggregate_from_err2 h1e h2e⟩)
        · refine Or.inr (Or.inr ⟨st2, r :: rs, aggregate_from_ok h1 h2, ?_, ?_⟩)
          · simp [hl]
          · rw [aggregate_from_ok h1e h2e, List.zipWith_cons_cons]

theorem maximum_loop_error (replens : List Int) :
    ∀ (k i : Nat) (m : Int) (e : Fault), maximum_loop replens k i m = .error e →
      e ≠ Fault.exit_failure := by
  intro k
  induction k with
  | zero => intro i m e h; simp [maximum_loop] at h
  | succ k ih =>
    intro i m e h
    unfold maximum_loop at h
    split at h
    · simp only [Except.error.injEq] at h
      rw [← h]
      decide
    · split at h
      · simp only [Except.error.injEq] at h
        rw [← h]
        decide
      · exact ih _ _ _ h

theorem maximum_error {replens : List Int} {num_idx_parts : Int} {e : Fault}
    (h : maximum replens num_idx_parts = .error e) : e ≠ Fault.exit_failure := by
  unfold maximum at h
  split at h
  · simp only [Except.error.injEq] at h
    rw [← h]
    decide
  · split at h
    · simp only [Except.error.injEq] at h
      rw [← h]
      decide
    · exact maximum_loop_error _ _ _ _ _ h

theorem rank_query_error {C : Collab} {opt : mm_mapopt_t} {mi : mm_idx_t} {num_idx_parts : Int}
    {st : AggState} {e : Fault} (h : rank_query C opt mi num_idx_parts st = .error e) :
    e ≠ Fault.exit_failure := by
  unfold rank_query at h
  split at h
  · rename_i e2 hm
    simp only [Except.error.injEq] at h
    rw [← h]
    exact maximum_error hm
  · exact absurd h (by simp)

theorem free_regs_fault (rs : List mm_reg1_t) : free_regs rs ≠ some Fault.exit_failure := by
  induction rs with
  | nil => simp [free_regs]
  | cons r rs ih =>
    unfold free_regs
    split
    · decide
    · exact ih

theorem emit_query_fault (opt : mm_mapopt_t) (n : Int) (reg : List mm_reg1_t) :
    (emit_query opt n reg).2 ≠ some Fault.exit_failure := by
  rw [(emit_query_records opt n reg).2]
  split <;> decide

theorem query_step_err (L : Layout) (C : Collab) (opt : mm_mapopt_t) (mi : mm_idx_t)
    (cum_n_seq : List Nat) (num_idx_parts : Nat) (s : LoopState) (e : Fault)
    (h : aggregate L opt cum_n_seq s.file s.st = .error e) :
    query_step L C opt mi cum_n_seq num_idx_parts s
      = ({ s with n_read := s.n_read + 1 }, some e) := by
  rw [query_step, h]

theorem query_step_rank_err (L : Layout) (C : Collab) (opt : mm_mapopt_t) (mi : mm_idx_t)
    (cum_n_seq : List Nat) (num_idx_parts : Nat) (s : LoopState) (st : AggState)
    (file : List Stream) (e : Fault)
    (h : aggregate L opt cum_n_seq s.file s.st = .ok (st, file))
    (hr : rank_query C opt mi num_idx_parts st = .error e) :
    query_step L C opt mi cum_n_seq num_idx_parts s
      = ({ file := file, st := st, out := s.out, n_read := s.n_read + 1 }, some e) := by
  rw [query_step, h]
  dsimp only
  rw [hr]

theorem query_step_ok (L : Layout) (C : Collab) (opt : mm_mapopt_t) (mi : mm_idx_t)
    (cum_n_seq : List Nat) (num_idx_parts : Nat) (s : LoopState) (st : AggState)
    (file : List Stream) (q : Int × List mm_reg1_t)
    (h : aggregate L opt cum_n_seq s.file s.st = .ok (st, file))
    (hr : rank_query C opt mi num_idx_parts st = .ok q) :
    query_step L C opt mi cum_n_seq num_idx_parts s
      = ({ file := file, st := { st with reg := q.2, n_regs_sum := q.1 },
           out := s.out ++ (emit_query opt q.1 q.2).1, n_read := s.n_read + 1 },
          if (emit_query opt q.1 q.2).2 = none then free_regs (ranked_list q)
          else (emit_query opt q.1 q.2).2) := by
  rw [query_step, h]
  dsimp only
  rw [hr]
  dsimp only
  cases (emit_query opt q.1 q.2).2 <;> rfl

/-- One query: either a short read ends the run in front of any output for the query,
or the query is handled in the same way on all streams that continue these. -/
theorem query_step_frame (L : Layout) (C : Collab) (opt : mm_mapopt_t) (mi : mm_idx_t)
    (cum_n_seq : List Nat) (num_idx_parts : Nat) (s : LoopState) (exts : List Stream)
    (hlen : exts.length = s.file.length) :
    (query_step L C opt mi cum_n_seq num_idx_parts s
        = ({ s with n_read := s.n_read + 1 }, some Fault.exit_failure)) ∨
    ((query_step L C opt mi cum_n_seq num_idx_parts s).2 ≠ some Fault.exit_failure ∧
      (query_step L C opt mi cum_n_seq num_idx_parts s).1.file.length = s.file.length ∧
      (query_step L C opt mi cum_n_seq num_idx_parts s).1.n_read = s.n_read + 1 ∧
      query_step L C opt mi cum_n_seq num_idx_parts (s.extend exts)
        = ((query_step L C opt mi cum_n_seq num_idx_parts s).1.extend exts,
            (query_step L C opt mi cum_n_seq num_idx_parts s).2)) := by
  have hfr := aggregate_from_frame L opt cum_n_seq s.file exts 0 { s.st with n_regs_sum := 0 } hlen
  rcases hfr with h | ⟨h, he⟩ | ⟨st2, rs, h, hl, he⟩
  · exact Or.inl (query_step_err L C opt mi cum_n_seq num_idx_parts s _ h)
  · right
    rw [query_step_err L C opt mi cum_n_seq num_idx_parts s _ h,
      query_step_err L C opt mi cum_n_seq num_idx_parts (s.extend exts) _ he]
    exact ⟨by simp, rfl, rfl, rfl⟩
  · right
    cases hr : rank_query C opt mi num_idx_parts st2 with
    | error e =>
      rw [query_step_rank_err L C opt mi cum_n_seq num_idx_parts s st2 rs e h hr,
        query_step_rank_err L C opt mi cum_n_seq num_idx_parts (s.extend exts) st2 _ e he hr]
      exact ⟨by simpa using rank_query_error hr, hl, rfl, rfl⟩
    | ok q =>
      rw [query_step_ok L C opt mi cum_n_seq num_idx_parts s st2 rs q h hr,
        query_step_ok L C opt mi cum_n_seq num_idx_parts (s.extend exts) st2 _ q he hr]
      refine ⟨?_, hl, rfl, rfl⟩
      dsimp only
      split
      · exact free_regs_fault _
      · exact emit_query_fault opt q.1 q.2

theorem query_loop_succ (L : Layout) (C : Collab) (opt : mm_mapopt_t) (mi : mm_idx_t)
    (cum_n_seq : List Nat) (num_idx_parts : Nat) (n : Nat) (s s1 : LoopState)
    (h : query_step L C opt mi cum_n_seq num_idx_parts s = (s1, none)) :
    query_loop L C opt mi cum_n_seq num_idx_parts (n + 1) s
      = query_loop L C opt mi cum_n_seq num_idx_parts n s1 := by
  rw [query_loop, h]

theorem query_loop_fault (L : Layout) (C : Collab) (opt : mm_mapopt_t) (mi : mm_idx_t)
    (cum_n_seq : List Nat) (num_idx_parts : Nat) (n : Nat) (s s1 : LoopState) (f : Fault)
    (h : query_step L C opt mi cum_n_seq num_idx_parts s = (s1, some f)) :
    query_loop L C opt mi cum_n_seq num_idx_parts (n + 1) s = (s1, some f) := by
  rw [query_loop, h]

/-- Claim C14, as stated, fails: in the scenario the candidate of part P1 (local
reference id 0, score 95, hash 3) is aggregated with the global id `0 + cum_n_seq[1]
= 3`, the id of D, and not with the global id 4. -/
theorem scenario_global_id_is_three :
    load_catalog [scenario_p0, scenario_p1] = .ok scenario_catalog ∧
    scenario_catalog.cum_n_seq = [0, 3] ∧
    aggregate sample_layout sample_opt scenario_catalog.cum_n_seq scenario_catalog.file
      (AggState.init 2) = .ok (scenario_state, [[], []]) ∧
    (scenario_state.reg.getD 1 default).score = 95 ∧
    (scenario_state.reg.getD 1 default).hash = 3 ∧
    (scenario_state.reg.getD 1 default).rid = 3 ∧
    (scenario_state.reg.getD 1 default).rid ≠ 4 := by
  decide!

/-- Claim C14 (amended): in the scenario the global catalog is `[A, B, C, D, E]` with
the lengths `[100, 200, 300, 50, 60]` and the offsets `[0, 3]`; the query aggregates to
two records with (global id, score, hash) = (2, 80, 7) for the candidate of P0 and
(3, 95, 3) for the candidate of P1, and `mm_hit_sort_by_score` places the record of P1
in front of the record of P0. -/
theorem scenario_merge :
    load_catalog [scenario_p0, scenario_p1] = .ok scenario_catalog ∧
    scenario_catalog.mi.seq.map (fun e => e.name) = [[65], [66], [67], [68], [69]] ∧
    scenario_catalog.mi.seq.map (fun e => e.len) = [100, 200, 300, 50, 60] ∧
    scenario_catalog.cum_n_seq = [0, 3] ∧
    aggregate sample_layout sample_opt scenario_catalog.cum_n_seq scenario_catalog.file
      (AggState.init 2) = .ok (scenario_state, [[], []]) ∧
    scenario_state.n_regs_sum = 2 ∧
    (ranked_list (scenario_state.n_regs_sum, scenario_state.reg)).map
      (fun r => (r.rid, r.score, r.hash)) = [(2, 80, 7), (3, 95, 3)] ∧
    (ranked_list (mm_hit_sort_by_score scenario_state.n_regs_sum scenario_state.reg)).map
      (fun r => (r.rid, r.score, r.hash)) = [(3, 95, 3), (2, 80, 7)] := by
  decide!

/-! ## The end of the run: drain check and deletion (claim C15) -/

theorem drain_warning_eq (fp : Stream) :
    drain_warning fp = if fp = [] then [] else [Diag.not_fully_read] := by
  cases fp with
  | nil => simp [drain_warning, fread_ret, feof_after]
  | cons b fp =>
    have h : fread_ret (b :: fp) 1 1 = 1 := by
      simp only [fread_ret, List.length_cons, Nat.div_one]
      rw [if_neg (by omega)]
      omega
    simp [drain_warning, h]

theorem drain_check_eq (file : List Stream) :
    drain_check file = file.flatMap fun fp => if fp = [] then [] else [Diag.not_fully_read] := by
  unfold drain_check
  congr 1
  funext fp
  exact drain_warning_eq fp

theorem sprintf_into_ok {size : Nat} {s : List Nat} (h : s.length + 1 ≤ size) :
    sprintf_into size s = .ok s := by
  rw [sprintf_into, if_pos h]

theorem delete_tmp_step {rm : List Nat → Bool} { multi_prefix : List Nat} {n i : Nat}
    {tmpfile : List Nat} {names : List (List Nat)} {log : List Diag}
    (h1 : mm_multi_merge_tmpfile multi_prefix i = .ok tmpfile)
    (h2 : delete_tmp rm multi_prefix n (i + 1) = .ok (names, log)) :
    delete_tmp rm multi_prefix (n + 1) i
      = .ok (tmpfile :: names, (if rm tmpfile then [] else [Diag.cannot_delete]) ++ log) := by
  rw [delete_tmp, h1]
  dsimp only
  rw [h2]

/-- The deletion loop when every name fits `tmpfile[256]`: `remove` is called once for
each part, and each failure is logged and nothing else. -/
theorem delete_tmp_spec (rm : List Nat → Bool) ( multi_prefix : List Nat) :
    ∀ (n i : Nat), (∀ j, i ≤ j → j < i + n → (tmp_name multi_prefix j).length + 1 ≤ 256) →
      delete_tmp rm multi_prefix n i
        = .ok ((List.range' i n).map (fun j => tmp_name multi_prefix (j : Nat)),
            (List.range' i n).flatMap
              (fun j => if rm (tmp_name multi_prefix (j : Nat)) then [] else [Diag.cannot_delete])) := by
  intro n
  induction n with
  | zero => intro i _; rfl
  | succ n ih =>
    intro i h
    have h1 : mm_multi_merge_tmpfile multi_prefix i = .ok (tmp_name multi_prefix i) :=
      sprintf_into_ok (h i (Nat.le_refl i) (by omega))
    have h2 := ih (i + 1) (fun j hj1 hj2 => h j (by omega) (by omega))
    rw [delete_tmp_step h1 h2]
    simp [List.range'_succ]

theorem mm_multi_merge_returns (L : Layout) (C : Collab) (opt : mm_mapopt_t) (ipt_k : Int)
    (num_idx_parts : Nat) ( multi_prefix : List Nat) (fs : List Nat → Option Stream)
    (n : Nat) (rm : List Nat → Bool) (c : Catalog) (names : List (List Nat)) (log : List Diag)
    (hload : load_files fs multi_prefix num_idx_parts 0 Catalog.init = .ok c)
    (hloop : (query_loop L C opt (set_k c.mi ipt_k) c.cum_n_seq num_idx_parts n
      (LoopState.init opt c num_idx_parts)).2 = none)
    (hdel : delete_tmp rm multi_prefix num_idx_parts 0 = .ok (names, log)) :
    mm_multi_merge L C opt ipt_k num_idx_parts multi_prefix fs (some n) rm
      = { out := (query_loop L C opt (set_k c.mi ipt_k) c.cum_n_seq num_idx_parts n
            (LoopState.init opt c num_idx_parts)).1.out,
          n_read := (query_loop L C opt (set_k c.mi ipt_k) c.cum_n_seq num_idx_parts n
            (LoopState.init opt c num_idx_parts)).1.n_read,
          result := .ok ((query_loop L C opt (set_k c.mi ipt_k) c.cum_n_seq num_idx_parts n
              (LoopState.init opt c num_idx_parts)).1.st.log ++
            drain_check (query_loop L C opt (set_k c.mi ipt_k) c.cum_n_seq num_idx_parts n
              (LoopState.init opt c num_idx_parts)).1.file ++ log, names) } := by
  cases hs : query_loop L C opt (set_k c.mi ipt_k) c.cum_n_seq num_idx_parts n
      (LoopState.init opt c num_idx_parts) with
  | mk s f =>
    rw [hs] at hloop
    simp only at hloop
    subst hloop
    rw [mm_multi_merge, hload]
    dsimp only
    rw [hs]
    dsimp only
    rw [hdel]

theorem read_regs_log (L : Layout) (cigar : Bool) (cum : Nat) (n_regs_sum : Int) :
    ∀ (k : Nat) (j : Int) (fp : Stream) (reg : List mm_reg1_t) (log : List Diag)
      (r : Stream) (reg2 : List mm_reg1_t) (log2 : List Diag),
      read_regs L cigar cum n_regs_sum k j fp reg log = .ok (r, reg2, log2) →
      (∀ x ∈ log, x = Diag.dump_corrupted) → ∀ x ∈ log2, x = Diag.dump_corrupted := by
  intro k
  induction k with
  | zero =>
    intro j fp reg log r reg2 log2 h hl
    simp only [read_regs, Except.ok.injEq, Prod.mk.injEq] at h
    rw [← h.2.2]
    exact hl
  | succ k ih =>
    intro j fp reg log r reg2 log2 h hl
    by_cases hb : n_regs_sum + j < 0 ∨ (reg.length : Int) ≤ n_regs_sum + j
    · rw [read_regs_oob _ _ _ _ _ _ _ _ _ hb] at h
      exact absurd h (by simp)
    · cases h1 : multipart_read fp L.sizeof_reg 1 with
      | error e =>
        rw [read_regs_err1 hb h1] at h
        exact absurd h (by simp)
      | ok x =>
        obtain ⟨rb, fp1⟩ := x
        cases h2 : (if cigar then read_extra L fp1 else .ok (mm_extra_ptr.null, fp1, false)) with
        | error e =>
          rw [read_regs_err2 hb h1 h2] at h
          exact absurd h (by simp)
        | ok y =>
          obtain ⟨p, fp2, w⟩ := y
          rw [read_regs_step (by omega) (by omega) h1 h2] at h
          refine ih _ _ _ _ _ _ _ h ?_
          intro x hx
          split at hx
          · rcases List.mem_append.mp hx with hx | hx
            · exact hl x hx
            · simpa using hx
          · exact hl x hx

theorem read_block_log (L : Layout) (opt : mm_mapopt_t) (cum_n_seq : List Nat) (i : Nat)
    (st st2 : AggState) (fp r : Stream)
    (h : read_block L opt cum_n_seq i st fp = .ok (st2, r))
    (hl : ∀ x ∈ st.log, x = Diag.dump_corrupted) : ∀ x ∈ st2.log, x = Diag.dump_corrupted := by
  cases h1 : multipart_read fp 4 1 with
  | error e =>
    rw [read_block_err1 h1] at h
    exact absurd h (by simp)
  | ok x =>
    obtain ⟨nb, fp1⟩ := x
    cases h2 : multipart_read fp1 4 1 with
    | error e =>
      rw [read_block_err2 h1 h2] at h
      exact absurd h (by simp)
    | ok y =>
      obtain ⟨pb, fp2⟩ := y
      cases h3 : read_regs L opt.cigar (cum_n_seq.getD i 0) st.n_regs_sum (get_i32 nb).toNat 0 fp2
          (grow_reg st.reg st.current_num_regs st.n_regs_sum (get_i32 nb)) st.log with
      | error e =>
        rw [read_block_err3 h1 h2 h3] at h
        exact absurd h (by simp)
      | ok z =>
        obtain ⟨fp3, reg, log⟩ := z
        rw [read_block_ok h1 h2 h3] at h
        simp only [Except.ok.injEq, Prod.mk.injEq] at h
        rw [← h.1]
        exact read_regs_log L opt.cigar _ _ _ _ _ _ _ _ _ _ h3 hl

theorem aggregate_from_log (L : Layout) (opt : mm_mapopt_t) (cum_n_seq : List Nat) :
    ∀ (fs : List Stream) (i : Nat) (st st2 : AggState) (rs : List Stream),
      aggregate_from L opt cum_n_seq fs i st = .ok (st2, rs) →
      (∀ x ∈ st.log, x = Diag.dump_corrupted) → ∀ x ∈ st2.log, x = Diag.dump_corrupted := by
  intro fs
  induction fs with
  | nil =>
    intro i st st2 rs h hl
    simp only [aggregate_from, Except.ok.injEq, Prod.mk.injEq] at h
    rw [← h.1]
    exact hl
  | cons fp fps ih =>
    intro i st st2 rs h hl
    cases h1 : read_block L opt cum_n_seq i st fp with
    | error e =>
      rw [aggregate_from_err1 h1] at h
      exact absurd h (by simp)
    | ok x =>
      obtain ⟨st1, r⟩ := x
      cases h2 : aggregate_from L opt cum_n_seq fps (i + 1) st1 with
      | error e =>
        rw [aggregate_from_err2 h1 h2] at h
        exact absurd h (by simp)
      | ok y =>
        obtain ⟨st3, rs3⟩ := y
        rw [aggregate_from_ok h1 h2] at h
        simp only [Except.ok.injEq, Prod.mk.injEq] at h
        rw [← h.1]
        exact ih _ _ _ _ h2 (read_block_log L opt cum_n_seq i st st1 fp r h1 hl)

theorem query_step_log (L : Layout) (C : Collab) (opt : mm_mapopt_t) (mi : mm_idx_t)
    (cum_n_seq : List Nat) (num_idx_parts : Nat) (s : LoopState)
    (hl : ∀ x ∈ s.st.log, x = Diag.dump_corrupted) :
    ∀ x ∈ (query_step L C opt mi cum_n_seq num_idx_parts s).1.st.log,
      x = Diag.dump_corrupted := by
  cases h : aggregate L opt cum_n_seq s.file s.st with
  | error e =>
    rw [query_step_err L C opt mi cum_n_seq num_idx_parts s e h]
    exact hl
  | ok x =>
    obtain ⟨st, file⟩ := x
    have hst := aggregate_from_log L opt cum_n_seq s.file 0 { s.st with n_regs_sum := 0 } st file
      h hl
    cases hr : rank_query C opt mi num_idx_parts st with
    | error e =>
      rw [query_step_rank_err L C opt mi cum_n_seq num_idx_parts s st file e h hr]
      exact hst
    | ok q =>
      rw [query_step_ok L C opt mi cum_n_seq num_idx_parts s st file q h hr]
      exact hst

theorem query_loop_log (L : Layout) (C : Collab) (opt : mm_mapopt_t) (mi : mm_idx_t)
    (cum_n_seq : List Nat) (num_idx_parts : Nat) :
    ∀ (n : Nat) (s : LoopState), (∀ x ∈ s.st.log, x = Diag.dump_corrupted) →
      ∀ x ∈ (query_loop L C opt mi cum_n_seq num_idx_parts n s).1.st.log,
        x = Diag.dump_corrupted := by
  intro n
  induction n with
  | zero => intro s hl; exact hl
  | succ n ih =>
    intro s hl
    have h1 := query_step_log L C opt mi cum_n_seq num_idx_parts s hl
    cases hs : query_step L C opt mi cum_n_seq num_idx_parts s with
    | mk s1 f =>
      rw [hs] at h1
      cases f with
      | some f =>
        rw [query_loop_fault _ _ _ _ _ _ _ _ _ _ hs]
        exact h1
      | none =>
        rw [query_loop_succ _ _ _ _ _ _ _ _ _ hs]
        exact ih s1 h1

theorem load_part_file (c c2 : Catalog) (fp : Stream) (h : load_part c fp = .ok c2) :
    c2.file.length = c.file.length + 1 := by
  unfold load_part at h
  split at h
  · exact absurd h (by simp)
  · split at h
    · exact absurd h (by simp)
    · simp only [Except.ok.injEq] at h
      rw [← h]
      simp

theorem load_files_file (fs : List Nat → Option Stream) ( multi_prefix : List Nat) :
    ∀ (n i : Nat) (c c2 : Catalog), load_files fs multi_prefix n i c = .ok c2 →
      c2.file.length = c.file.length + n := by
  intro n
  induction n with
  | zero =>
    intro i c c2 h
    simp only [load_files, Except.ok.injEq] at h
    rw [← h]
    rfl
  | succ n ih =>
    intro i c c2 h
    unfold load_files at h
    split at h
    · exact absurd h (by simp)
    · split at h
      · exact absurd h (by simp)
      · split at h
        · exact absurd h (by simp)
        · rename_i c1 h1
          rw [ih _ _ _ h, load_part_file _ _ _ h1]
          omega

theorem query_step_file (L : Layout) (C : Collab) (opt : mm_mapopt_t) (mi : mm_idx_t)
    (cum_n_seq : List Nat) (num_idx_parts : Nat) (s : LoopState) :
    (query_step L C opt mi cum_n_seq num_idx_parts s).1.file.length = s.file.length := by
  rcases query_step_frame L C opt mi cum_n_seq num_idx_parts s (List.replicate s.file.length [])
      (List.length_replicate _ _) with h | ⟨_, h, _⟩
  · rw [h]
  · exact h

theorem query_loop_file (L : Layout) (C : Collab) (opt : mm_mapopt_t) (mi : mm_idx_t)
    (cum_n_seq : List Nat) (num_idx_parts : Nat) :
    ∀ (n : Nat) (s : LoopState),
      (query_loop L C opt mi cum_n_seq num_idx_parts n s).1.file.length = s.file.length := by
  intro n
  induction n with
  | zero => intro s; rfl
  | succ n ih =>
    intro s
    have h1 := query_step_file L C opt mi cum_n_seq num_idx_parts s
    cases hs : query_step L C opt mi cum_n_seq num_idx_parts s with
    | mk s1 f =>
      rw [hs] at h1
      cases f with
      | some f =>
        rw [query_loop_fault _ _ _ _ _ _ _ _ _ _ hs]
        exact h1
      | none =>
        rw [query_loop_succ _ _ _ _ _ _ _ _ _ hs, ih s1]
        exact h1

/-- The end of a run whose names fit the buffer: let the catalog loop and the query
loop end normally, and let the name of every part fit the buffer `tmpfile[256]`.  Then
`mm_multi_merge` returns normally.  Behind the warnings of the query loop (capacity
warnings only) its log holds, for the `num_idx_parts` dump files in order, the warning
"not fully read" for exactly the files that still hold at least one unread byte, and
behind these the warnings of the deletion loop (failed deletions only): a file that is
not fully read stops neither the check of the files behind it nor the deletion, and
`remove` is called for the name of every part. -/
theorem drain_check_nonfatal (L : Layout) (C : Collab) (opt : mm_mapopt_t) (ipt_k : Int)
    (num_idx_parts : Nat) ( multi_prefix : List Nat) (fs : List Nat → Option Stream)
    (n : Nat) (rm : List Nat → Bool) (c : Catalog)
    (hload : load_files fs multi_prefix num_idx_parts 0 Catalog.init = .ok c)
    (hloop : (query_loop L C opt (set_k c.mi ipt_k) c.cum_n_seq num_idx_parts n
      (LoopState.init opt c num_idx_parts)).2 = none)
    (hname : ∀ j : Nat, j < num_idx_parts → (tmp_name multi_prefix j).length + 1 ≤ 256) :
    ∃ (file : List Stream) (log_q log_rm : List Diag),
      file = (query_loop L C opt (set_k c.mi ipt_k) c.cum_n_seq num_idx_parts n
        (LoopState.init opt c num_idx_parts)).1.file ∧
      file.length = num_idx_parts ∧
      (mm_multi_merge L C opt ipt_k num_idx_parts multi_prefix fs (some n) rm).result
        = .ok (log_q ++ (file.flatMap fun fp => if fp = [] then [] else [Diag.not_fully_read])
                ++ log_rm,
            (List.range num_idx_parts).map fun j => tmp_name multi_prefix (j : Nat)) ∧
      (∀ fp ∈ file, (drain_warning fp = [Diag.not_fully_read] ↔ fp ≠ []) ∧
        (drain_warning fp = [] ↔ fp = [])) ∧
      (∀ x ∈ log_q, x = Diag.dump_corrupted) ∧ (∀ x ∈ log_rm, x = Diag.cannot_delete) := by
  have hdel := delete_tmp_spec rm multi_prefix num_idx_parts 0
    (fun j _ hj => hname j (by omega))
  have hrun := mm_multi_merge_returns L C opt ipt_k num_idx_parts multi_prefix fs n rm c _ _
    hload hloop hdel
  refine ⟨_, (query_loop L C opt (set_k c.mi ipt_k) c.cum_n_seq num_idx_parts n
      (LoopState.init opt c num_idx_parts)).1.st.log,
    (List.range' 0 num_idx_parts).flatMap
      (fun j => if rm (tmp_name multi_prefix (j : Nat)) then [] else [Diag.cannot_delete]),
    rfl, ?_, ?_, ?_, ?_, ?_⟩
  · rw [query_loop_file]
    have := load_files_file fs multi_prefix num_idx_parts 0 Catalog.init c hload
    simpa [LoopState.init, Catalog.init] using this
  · rw [hrun, drain_check_eq, List.range_eq_range']
  · intro fp _
    rw [drain_warning_eq]
    by_cases h : fp = [] <;> simp [h]
  · exact query_loop_log L C opt _ _ _ n _ (fun x hx => absurd hx (List.not_mem_nil x))
  · intro x hx
    simp only [List.mem_flatMap] at hx
    obtain ⟨j, _, hj⟩ := hx
    split at hj <;> simp at hj
    exact hj

/-- The end of the run at the scenario with one query, where the dump file of part P0
holds one byte behind the block of the query and the dump file of part P1 is fully
read. -/
theorem drain_check_nonfatal_witness :
    load_files (two_files (scenario_p0 ++ [1]) scenario_p1) [109] 2 0 Catalog.init
      = .ok drain_catalog ∧
    (query_loop sample_layout sample_collab sample_opt (set_k drain_catalog.mi 15)
      drain_catalog.cum_n_seq 2 1 (LoopState.init sample_opt drain_catalog 2)).2 = none ∧
    (∀ j : Nat, j < 2 → (tmp_name [109] j).length + 1 ≤ 256) ∧
    ∃ (file : List Stream) (log_q log_rm : List Diag),
      file = (query_loop sample_layout sample_collab sample_opt (set_k drain_catalog.mi 15)
        drain_catalog.cum_n_seq 2 1 (LoopState.init sample_opt drain_catalog 2)).1.file ∧
      file.length = 2 ∧
      (mm_multi_merge sample_layout sample_collab sample_opt 15 2 [109]
          (two_files (scenario_p0 ++ [1]) scenario_p1) (some 1) (fun _ => true)).result
        = .ok (log_q ++ (file.flatMap fun fp => if fp = [] then [] else [Diag.not_fully_read])
                ++ log_rm,
            (List.range 2).map fun j => tmp_name [109] (j : Nat)) ∧
      (∀ fp ∈ file, (drain_warning fp = [Diag.not_fully_read] ↔ fp ≠ []) ∧
        (drain_warning fp = [] ↔ fp = [])) ∧
      (∀ x ∈ log_q, x = Diag.dump_corrupted) ∧ (∀ x ∈ log_rm, x = Diag.cannot_delete) :=
  ⟨by decide!, by decide!, by decide,
    drain_check_nonfatal sample_layout sample_collab sample_opt 15 2 [109]
      (two_files (scenario_p0 ++ [1]) scenario_p1) 1 (fun _ => true) drain_catalog
      (by decide!) (by decide!) (by decide)⟩

/-- Claim C15 fails on the code for a prefix of 248 bytes: with one part whose dump
file holds one unread byte behind its header and no query, the drain check logs its
warning and closes the file, but the deletion loop then builds the 256-character name
in `tmpfile[256]` and stores the terminating NUL behind the end of the buffer: the run
ends in undefined behaviour instead of deleting the file and returning.  With a short
prefix the same files give the warning, the deletion and a normal return. -/
theorem drain_then_tmpfile_overflow :
    strlen long_prefix = 248 ∧
    load_files long_prefix_leftover long_prefix 1 0 Catalog.init
      = .ok { mi := { n_seq := 0, seq := [], k := 0 }, current_seq := 0, cum_n_seq := [0],
              file := [[1]] } ∧
    drain_check [[1]] = [Diag.not_fully_read] ∧
    delete_tmp (fun _ => true) long_prefix 1 0 = .error Fault.out_of_bounds ∧
    mm_multi_merge sample_layout sample_collab sample_opt 15 1 long_prefix long_prefix_leftover
        (some 0) (fun _ => true)
      = { out := [], n_read := 0, result := .error Fault.out_of_bounds } ∧
    mm_multi_merge sample_layout sample_collab sample_opt 15 1 [109]
        (one_file (header_bytes [] ++ [1])) (some 0) (fun _ => true)
      = { out := [], n_read := 0,
          result := .ok ([Diag.not_fully_read], [tmp_name [109] 0]) } := by
  decide!

/-! ## Temporary file names (claim C16) -/

/-- Claim C16 fails on the code for a prefix of 248 bytes and the part index 0: the
name has 256 characters; `mm_multi_init` builds it in `filename[1024]` and
`mm_multi_merge` builds it in a block of `strlen(prefix) + 20` bytes and opens the
file, but the deletion loop builds it in `tmpfile[256]`, where the terminating NUL is
stored behind the end of the buffer: the run of `mm_multi_merge` over the file (no
query) ends in undefined behaviour instead of deleting the file it opened. -/
theorem tmpfile_overflow :
    strlen long_prefix = 248 ∧
    (tmp_name long_prefix 0).length = 256 ∧
    mm_multi_init_filename long_prefix 0 = .ok (tmp_name long_prefix 0) ∧
    mm_multi_merge_filename long_prefix 0 = .ok (tmp_name long_prefix 0) ∧
    mm_multi_merge_tmpfile long_prefix 0 = .error Fault.out_of_bounds ∧
    mm_multi_merge sample_layout sample_collab sample_opt 15 1 long_prefix long_prefix_files
        (some 0) (fun _ => true)
      = { out := [], n_read := 0, result := .error Fault.out_of_bounds } := by
  decide!

/-! ## The packed key and the two-field comparator (claim C17) -/

theorem sort_key_unsigned (r : mm_reg1_t) (h0 : -2147483648 ≤ r.score)
    (h1 : r.score < 2147483648) (hh : r.hash < 4294967296) :
    sort_key r = to_u32 r.score * 4294967296 + r.hash := by
  unfold sort_key to_u64 to_u32
  rw [Nat.shiftLeft_eq]
  have e2 : (r.score % 18446744073709551616).toNat * 2 ^ 32 % 18446744073709551616
      = 2 ^ 32 * (r.score % 4294967296).toNat := by
    omega
  rw [e2, ← Nat.mul_add_lt_is_or (by simpa using hh)]
  omega

/-- Claim C17, as stated, fails: the record with score -1 is smaller than the record
with score 0 in the signed two-field order, but its packed key is the larger one. -/
theorem packed_key_negative_score :
    score_hash_lt { tie_a with score := -1 } { tie_a with score := 0 } ∧
    ¬ sort_key { tie_a with score := -1 } < sort_key { tie_a with score := 0 } ∧
    sort_key { tie_a with score := 0 } < sort_key { tie_a with score := -1 } := by
  decide

/-- Claim C17 (amended): for every two records with signed 32-bit scores and unsigned
32-bit hashes the packed key orders the `(score, hash)` pairs lexicographically with
the scores compared as unsigned 32-bit integers (the bit pattern of the score is the
high half of the key), and two keys are equal if and only if both fields are equal.
This is the signed order of the claim whenever the two scores have the same sign; a
negative score has a larger key than every non-negative score. -/
theorem packed_key_order (a b : mm_reg1_t)
    (ha : -2147483648 ≤ a.score ∧ a.score < 2147483648 ∧ a.hash < 4294967296)
    (hb : -2147483648 ≤ b.score ∧ b.score < 2147483648 ∧ b.hash < 4294967296) :
    (sort_key a < sort_key b ↔ unsigned_score_hash_lt a b) ∧
    (sort_key a = sort_key b ↔ a.score = b.score ∧ a.hash = b.hash) ∧
    ((0 ≤ a.score ↔ 0 ≤ b.score) → (sort_key a < sort_key b ↔ score_hash_lt a b)) ∧
    (a.score < 0 → 0 ≤ b.score → sort_key b < sort_key a) := by
  obtain ⟨a0, a1, a2⟩ := ha
  obtain ⟨b0, b1, b2⟩ := hb
  rw [sort_key_unsigned a a0 a1 a2, sort_key_unsigned b b0 b1 b2]
  unfold unsigned_score_hash_lt score_hash_lt to_u32
  refine ⟨?_, ?_, ?_, ?_⟩
  · constructor
    · intro h
      omega
    · intro h
      omega
  · constructor
    · intro h
      omega
    · intro h
      omega
  · intro hs
    constructor
    · intro h
      omega
    · intro h
      omega
  · intro h1 h2
    omega

/-- Claim C17 (amended) at the records with the scores -1 and 0. -/
theorem packed_key_order_witness :
    (-2147483648 ≤ ({ tie_a with score := -1 } : mm_reg1_t).score ∧
      ({ tie_a with score := -1 } : mm_reg1_t).score < 2147483648 ∧
      ({ tie_a with score := -1 } : mm_reg1_t).hash < 4294967296) ∧
    (-2147483648 ≤ ({ tie_a with score := 0 } : mm_reg1_t).score ∧
      ({ tie_a with score := 0 } : mm_reg1_t).score < 2147483648 ∧
      ({ tie_a with score := 0 } : mm_reg1_t).hash < 4294967296) ∧
    (sort_key { tie_a with score := 0 } < sort_key { tie_a with score := -1 }
      ↔ unsigned_score_hash_lt { tie_a with score := 0 } { tie_a with score := -1 }) :=
  ⟨by decide, by decide,
    (packed_key_order { tie_a with score := 0 } { tie_a with score := -1 } (by decide)
      (by decide)).1⟩

/-! ## Failure of the catalog loop (claim C18) -/

end Merge
